import Mathlib

/-!
# SoftRF NMEA export layer: a shallow embedding of NMEAHelper.cpp

Bytes are natural numbers below 256, C strings are lists of bytes read up to
the first NUL, machine integers are Nat or Int with the wrap-around written
out where the source can reach it (size_t, unsigned int and unsigned long are
32 bits wide on the ESP32).  Values of time_t are integers and their
differences do not wrap.  Float values other than NaN are carried as
rationals: comparison and truncation are exact on them, and every float
operation that rounds is a field of the platform record.  The tracking table
and the slot array are lists, and a loop over all indices of an array is a
recursion or a fold over the list.
-/

namespace SoftRF

/-! ## C strings and formatted output -/

/-- Length of the C string stored in buf: the number of bytes before the first NUL. -/
def strlen (buf : List Nat) : Nat :=
  (buf.takeWhile (fun b => b != 0)).length

/-- The C string stored in buf: the bytes before the first NUL. -/
def cstr (buf : List Nat) : List Nat :=
  buf.takeWhile (fun b => b != 0)

/-- Bytes that snprintf stores at its destination when the formatted text is
text and the size argument is limit: nothing when limit is 0, otherwise at most
limit - 1 characters of the text followed by the terminating NUL. -/
def snprintf_bytes (limit : Nat) (text : List Nat) : List Nat :=
  if limit = 0 then [] else text.take (limit - 1) ++ [0]

/-- Memory after storing bytes at offset off of buf. -/
def writeAt (buf : List Nat) (off : Nat) (bytes : List Nat) : List Nat :=
  buf.take off ++ bytes ++ buf.drop (off + bytes.length)

/-- Most significant first digits of v in the given base, by repeated division;
the fuel bounds the number of divisions. -/
def digitsAux (base : Nat) : Nat → Nat → List Nat → List Nat
  | 0, _, acc => acc
  | fuel + 1, v, acc =>
    if v < base then v :: acc else digitsAux base fuel (v / base) ((v % base) :: acc)

/-- Digits of v in the given base, most significant first (a single 0 for 0). -/
def natDigits (base v : Nat) : List Nat :=
  digitsAux base (v + 1) v []

/-- ASCII code of an uppercase hexadecimal digit. -/
def hexDigitUpper (d : Nat) : Nat :=
  if d < 10 then 48 + d else 55 + d

/-- Zero padding on the left up to a minimum field width. -/
def padZero (width : Nat) (ds : List Nat) : List Nat :=
  List.replicate (width - ds.length) 48 ++ ds

/-- Text of the conversion %02X applied to an unsigned value. -/
def fmt_02X (v : Nat) : List Nat :=
  padZero 2 ((natDigits 16 v).map hexDigitUpper)

/-- The loop of NMEA_add_checksum: n runs from 1 while n < sentence_size - 1,
where the bound is computed in 32-bit unsigned arithmetic, and cs, an unsigned
char, accumulates the XOR of buf[n]. -/
def NMEA_checksum (buf : List Nat) (sentence_size : Nat) : Nat :=
  (List.range ((sentence_size + 2 ^ 32 - 1) % 2 ^ 32 - 1)).foldl
    (fun cs k => (cs ^^^ buf.getD (k + 1) 0) % 256) 0

/-- The function NMEA_add_checksum(buf, limit): the buffer after the call. -/
def NMEA_add_checksum (buf : List Nat) (limit : Nat) : List Nat :=
  let sentence_size := strlen buf
  let cs := NMEA_checksum buf sentence_size
  writeAt buf sentence_size (snprintf_bytes limit (fmt_02X cs ++ [13, 10]))

/-! ## An independent checksum verifier -/

/-- XOR of a list of bytes. -/
def xorBytes (bs : List Nat) : Nat :=
  bs.foldl (fun a b => a ^^^ b) 0

/-- Value of a hexadecimal digit character, if it is one. -/
def hexVal (c : Nat) : Option Nat :=
  if 48 ≤ c ∧ c ≤ 57 then some (c - 48)
  else if 65 ≤ c ∧ c ≤ 70 then some (c - 55)
  else if 97 ≤ c ∧ c ≤ 102 then some (c - 87)
  else none

/-- The number written by the two hexadecimal digits that follow the first
asterisk of a sentence. -/
def parseChecksum (s : List Nat) : Option Nat :=
  match s.dropWhile (fun b => b != 42) with
  | _ :: d1 :: d2 :: _ =>
    match hexVal d1, hexVal d2 with
    | some h, some l => some (16 * h + l)
    | _, _ => none
  | _ => none

/-- The bytes strictly between the leading dollar sign and the first asterisk. -/
def sentenceBody (s : List Nat) : List Nat :=
  (s.drop 1).takeWhile (fun b => b != 42)

/-- A receiver's check of a framed sentence: it starts with a dollar sign and
the two hexadecimal digits after the asterisk give the XOR of the body. -/
def nmeaVerify (s : List Nat) : Bool :=
  s.head? == some 36 && parseChecksum s == some (xorBytes (sentenceBody s))

/-! ## Data model -/

/-- Radio protocol of a tracked object: the index type of NMEA_CallSign_Prefix. -/
inductive RF_Protocol where
  | LEGACY
  | OGNTP
  | P3I
  | ADSB_1090
  | ADSB_UAT
  | FANET
  deriving DecidableEq, Repr

/-- The record type of Container[i] and of ThisAircraft, with the fields that
NMEAHelper.cpp reads.  Float fields hold rationals, time_t fields integers. -/
structure ufo_t where
  addr : Nat
  protocol : RF_Protocol
  addr_type : Nat
  timestamp : Int
  latitude : ℚ
  longitude : ℚ
  altitude : ℚ
  pressure_altitude : ℚ
  course : ℚ
  speed : ℚ
  vs : ℚ
  distance : ℚ
  bearing : ℚ
  alarm_level : Int
  aircraft_type : Nat
  stealth : Bool
  no_track : Bool
  deriving DecidableEq

/-- Values of settings->nmea_out. -/
inductive NMEA_Mode where
  | NMEA_OFF
  | NMEA_UART
  | NMEA_UDP
  | NMEA_TCP
  | NMEA_BLUETOOTH
  deriving DecidableEq, Repr

/-- The settings fields that NMEAHelper.cpp reads. -/
structure Settings where
  nmea_out : NMEA_Mode
  nmea_g : Bool
  nmea_l : Bool
  nmea_s : Bool

/-- Constants of the headers that are not among the sources, and the float
operations that round; each field stands for the named C expression. -/
structure Platform where
  /-- sizeof(NMEABuffer) -/
  NMEA_BUFFER_SIZE : Nat
  /-- seconds, compared with a difference of time_t values -/
  EXPORT_EXPIRATION_TIME : Int
  /-- metres, compared with a float distance -/
  ALARM_ZONE_NONE : ℚ
  /-- seconds, compared with a difference of time_t values -/
  NMEATCP_ACK_TIMEOUT : Int
  NMEA_UDP_PORT : Nat
  ALARM_LEVEL_NONE : Int
  ADDR_TYPE_ANONYMOUS : Nat
  TX_STATUS_ON : Int
  GNSS_STATUS_3D_MOVING : Int
  POWER_STATUS_GOOD : Int
  ALARM_TYPE_AIRCRAFT : Int
  /-- float subtraction a - b -/
  fsub : ℚ → ℚ → ℚ
  /-- x * _GPS_MPS_PER_KNOT -/
  knots_to_mps : ℚ → ℚ
  /-- x * _GPS_FEET_PER_METER -/
  meters_to_feet : ℚ → ℚ
  /-- distance * cos(radians(bearing)) -/
  rel_north : ℚ → Int → ℚ
  /-- distance * sin(radians(bearing)) -/
  rel_east : ℚ → Int → ℚ
  /-- the string stored by dtostrf(constrain(vs / (_GPS_FEET_PER_METER * 60.0), -32.7, 32.7), 5, 1, str) -/
  climb_rate : ℚ → List Nat
  /-- text of the conversion %f -/
  fmt_f : ℚ → List Nat

/-- Conversion of a float to int: truncation toward zero (the value is taken to
lie in the range of int, outside of which C leaves the conversion undefined). -/
def f2i (q : ℚ) : Int :=
  Int.tdiv q.num q.den

/-- The Arduino macro constrain(amt, low, high). -/
def constrain (amt low high : Int) : Int :=
  if amt < low then low else if amt > high then high else amt

/-- The helper ltrim: skip leading white space (isspace in the C locale). -/
def ltrim : List Nat → List Nat
  | [] => []
  | c :: s => if c = 32 ∨ (9 ≤ c ∧ c ≤ 13) then ltrim s else c :: s

/-- The table NMEA_CallSign_Prefix. -/
def NMEA_CallSign_Prefix : RF_Protocol → List Nat
  | .LEGACY => [70, 76, 82]
  | .OGNTP => [79, 71, 78]
  | .P3I => [80, 65, 87]
  | .ADSB_1090 => [65, 68, 83]
  | .ADSB_UAT => [85, 65, 84]
  | .FANET => [70, 65, 78]

/-! ## Sentences: the formatting calls of NMEA_loop and NMEA_Export -/

/-- One snprintf_P call on NMEABuffer, named after its format string, with the
values of its arguments. -/
inductive Sentence where
  | PGRMZ (altitude : Int)
  | PFLAA (alarm_level north east alt_diff : Int) (addr_type addr : Nat)
      (protocol : RF_Protocol) (course speed : Int) (climb : List Nat) (aircraft_type : Nat)
  | TRAFFIC (latitude longitude altitude course speed : ℚ) (addr : Nat)
      (protocol : RF_Protocol) (aircraft_type : Nat) (alarm_level : Int)
  | PFLAU (total_objects tx gnss power alarm_level bearing alarm_type alt_diff distance : Int)
  | MYSELF (latitude longitude altitude course speed : ℚ) (addr aircraft_type : Nat)
  deriving DecidableEq

/-- Does the call use the PFLAU format. -/
def Sentence.isPFLAU : Sentence → Bool
  | .PFLAU .. => true
  | _ => false

/-- Does the call use one of the two per-target formats, PFLAA or TRAFFIC. -/
def Sentence.isPerTarget : Sentence → Bool
  | .PFLAA .. => true
  | .TRAFFIC .. => true
  | _ => false

/-- Text of the conversion %d applied to an int. -/
def fmt_d (v : Int) : List Nat :=
  if v < 0 then 45 :: (natDigits 10 (-v).toNat).map (fun d => 48 + d)
  else (natDigits 10 v.toNat).map (fun d => 48 + d)

/-- Text of the conversion %u applied to an int argument, read as unsigned. -/
def fmt_u (v : Int) : List Nat :=
  (natDigits 10 (v % 2 ^ 32).toNat).map (fun d => 48 + d)

/-- Text of the conversion %06X applied to a 32-bit unsigned value. -/
def fmt_06X (v : Nat) : List Nat :=
  padZero 6 ((natDigits 16 (v % 2 ^ 32)).map hexDigitUpper)

/-- The value of a 32-bit unsigned argument read by %d. -/
def asInt32 (v : Nat) : Int :=
  if v % 2 ^ 32 < 2 ^ 31 then ((v % 2 ^ 32 : Nat) : Int) else ((v % 2 ^ 32 : Nat) : Int) - 2 ^ 32

/-- Formatted text of each call, before truncation to the buffer. -/
def Sentence.text (P : Platform) : Sentence → List Nat
  | .PGRMZ altitude =>
    [36, 80, 71, 82, 77, 90, 44] ++ fmt_d altitude ++ [44, 102, 44, 51, 42]
  | .PFLAA alarm_level north east alt_diff addr_type addr protocol course speed climb
      aircraft_type =>
    [36, 80, 70, 76, 65, 65, 44] ++ fmt_d alarm_level ++ [44] ++ fmt_d north ++ [44]
      ++ fmt_d east ++ [44] ++ fmt_d alt_diff ++ [44] ++ fmt_d addr_type ++ [44]
      ++ fmt_06X addr ++ [33] ++ NMEA_CallSign_Prefix protocol ++ [95] ++ fmt_06X addr
      ++ [44] ++ fmt_d course ++ [44, 44] ++ fmt_d speed ++ [44] ++ climb ++ [44]
      ++ fmt_d aircraft_type ++ [42]
  | .TRAFFIC latitude longitude altitude course speed addr protocol aircraft_type
      alarm_level =>
    [36, 84, 82, 65, 70, 70, 73, 67, 44] ++ P.fmt_f latitude ++ [44] ++ P.fmt_f longitude
      ++ [44] ++ P.fmt_f altitude ++ [44] ++ P.fmt_f course ++ [44] ++ P.fmt_f speed ++ [44]
      ++ fmt_d (asInt32 addr) ++ [44] ++ NMEA_CallSign_Prefix protocol ++ [44]
      ++ fmt_d aircraft_type ++ [44] ++ fmt_d alarm_level
  | .PFLAU total_objects tx gnss power alarm_level bearing alarm_type alt_diff distance =>
    [36, 80, 70, 76, 65, 85, 44] ++ fmt_d total_objects ++ [44] ++ fmt_d tx ++ [44]
      ++ fmt_d gnss ++ [44] ++ fmt_d power ++ [44] ++ fmt_d alarm_level ++ [44]
      ++ fmt_d bearing ++ [44] ++ fmt_d alarm_type ++ [44] ++ fmt_d alt_diff ++ [44]
      ++ fmt_u distance ++ [42]
  | .MYSELF latitude longitude altitude course speed addr aircraft_type =>
    [36, 77, 89, 83, 69, 76, 70, 44] ++ P.fmt_f latitude ++ [44] ++ P.fmt_f longitude
      ++ [44] ++ P.fmt_f altitude ++ [44] ++ P.fmt_f course ++ [44] ++ P.fmt_f speed ++ [44]
      ++ fmt_d (asInt32 addr) ++ [44] ++ fmt_d aircraft_type

/-! ## NMEA_Export: the scan of the tracking table -/

/-- An entry counts in this cycle: Container[i].addr is non-zero and
this_moment - Container[i].timestamp is at most EXPORT_EXPIRATION_TIME. -/
def isLive (P : Platform) (this_moment : Int) (fo : ufo_t) : Bool :=
  fo.addr != 0 && decide (this_moment - fo.timestamp ≤ P.EXPORT_EXPIRATION_TIME)

/-- The variables HP_bearing, HP_alt_diff, HP_alarm_level and HP_distance. -/
structure HighPriority where
  HP_bearing : Int
  HP_alt_diff : Int
  HP_alarm_level : Int
  HP_distance : ℚ
  deriving DecidableEq

/-- Initial values of the HP variables.  The source initialises the float
HP_distance with the literal 2147483647; a float has 24 significant bits and
holds the nearest value it can represent, 2147483648 = 2^31, which is the value
kept here.  It lies outside the range of int. -/
def HP_init (P : Platform) : HighPriority :=
  { HP_bearing := 0, HP_alt_diff := 0, HP_alarm_level := P.ALARM_LEVEL_NONE,
    HP_distance := 2147483648 }

/-- The first loop of NMEA_Export: total_objects. -/
def NMEA_Export_count (P : Platform) (this_moment : Int) (Container : List ufo_t) : Int :=
  Container.foldl (fun total_objects fo =>
    if isLive P this_moment fo then total_objects + 1 else total_objects) 0

/-- The PFLAA call for one entry. -/
def PFLAA_of (P : Platform) (ThisAircraft fo : ufo_t) : Sentence :=
  .PFLAA fo.alarm_level
    (f2i (P.rel_north fo.distance (f2i fo.bearing)))
    (f2i (P.rel_east fo.distance (f2i fo.bearing)))
    (f2i (P.fsub fo.altitude ThisAircraft.altitude))
    (if fo.addr_type > P.ADDR_TYPE_ANONYMOUS then P.ADDR_TYPE_ANONYMOUS else fo.addr_type)
    fo.addr fo.protocol (f2i fo.course) (f2i (P.knots_to_mps fo.speed))
    (ltrim (if !fo.stealth && !ThisAircraft.stealth then P.climb_rate fo.vs else []))
    fo.aircraft_type

/-- The TRAFFIC call for one entry. -/
def TRAFFIC_of (P : Platform) (fo : ufo_t) : Sentence :=
  .TRAFFIC fo.latitude fo.longitude fo.altitude fo.course (P.knots_to_mps fo.speed)
    fo.addr fo.protocol fo.aircraft_type fo.alarm_level

/-- One iteration of the second loop of NMEA_Export, on the HP variables and
the calls made so far. -/
def NMEA_Export_step (P : Platform) (settings : Settings) (ThisAircraft : ufo_t)
    (this_moment : Int) (acc : HighPriority × List Sentence) (fo : ufo_t) :
    HighPriority × List Sentence :=
  if isLive P this_moment fo then
    if settings.nmea_l then
      if fo.distance < P.ALARM_ZONE_NONE then
        (if fo.distance < acc.1.HP_distance then
            { HP_bearing := f2i fo.bearing,
              HP_alt_diff := f2i (P.fsub fo.altitude ThisAircraft.altitude),
              HP_alarm_level := fo.alarm_level,
              HP_distance := fo.distance }
          else acc.1,
         acc.2 ++ [PFLAA_of P ThisAircraft fo, TRAFFIC_of P fo])
      else acc
    else acc
  else acc

/-- The second loop of NMEA_Export. -/
def NMEA_Export_scan (P : Platform) (settings : Settings) (ThisAircraft : ufo_t)
    (this_moment : Int) (Container : List ufo_t) : HighPriority × List Sentence :=
  Container.foldl (NMEA_Export_step P settings ThisAircraft this_moment) (HP_init P, [])

/-- The PFLAU call, from total_objects and the HP variables. -/
def PFLAU_of (P : Platform) (total_objects : Int) (hp : HighPriority) : Sentence :=
  .PFLAU total_objects P.TX_STATUS_ON P.GNSS_STATUS_3D_MOVING P.POWER_STATUS_GOOD
    hp.HP_alarm_level (if hp.HP_bearing < 180 then hp.HP_bearing else hp.HP_bearing - 360)
    P.ALARM_TYPE_AIRCRAFT hp.HP_alt_diff (f2i hp.HP_distance)

/-- The MYSELF call. -/
def MYSELF_of (P : Platform) (ThisAircraft : ufo_t) : Sentence :=
  .MYSELF ThisAircraft.latitude ThisAircraft.longitude ThisAircraft.altitude
    ThisAircraft.course (P.knots_to_mps ThisAircraft.speed) ThisAircraft.addr
    ThisAircraft.aircraft_type

/-- The formatting calls of one NMEA_Export invocation, in program order; each
is followed by NMEA_add_checksum and NMEA_Out before the next one is made. -/
def NMEA_Export_sentences (P : Platform) (settings : Settings) (ThisAircraft : ufo_t)
    (this_moment : Int) (Container : List ufo_t) : List Sentence :=
  (NMEA_Export_scan P settings ThisAircraft this_moment Container).2
    ++ (if settings.nmea_l then
          [PFLAU_of P (NMEA_Export_count P this_moment Container)
            (NMEA_Export_scan P settings ThisAircraft this_moment Container).1]
        else [])
    ++ [MYSELF_of P ThisAircraft]

/-! ## Output channels and the TCP client slots -/

/-- Calls on the output collaborators, in program order.  A connection is
named by its number in the order of NmeaTCPServer.available() calls. -/
inductive Event where
  | serial_write (data : List Nat)
  | udp_transmit (port : Nat) (packet : List Nat)
  | bluetooth_write (data : List Nat)
  | client_print (c : Nat) (text : List Nat)
  | client_write (c : Nat) (data : List Nat)
  | client_read (c : Nat) (byte : Nat)
  | client_stop (c : Nat)
  deriving DecidableEq

/-- The record type of NmeaTCP[i]; client is none while the slot has never held
a connection. -/
structure NmeaTCP_t where
  client : Option Nat
  connect_ts : Int
  ack : Bool
  deriving DecidableEq

/-- What the network stack answers during one call: for the WiFiClient of each
connection its operator bool, connected() and the bytes waiting to be read, and
whether SoC->Bluetooth is present. -/
structure Net where
  truthy : Nat → Bool
  connected : Nat → Bool
  rx : Nat → List Nat
  bluetooth : Bool

/-- The expression NmeaTCP[i].client, converted to bool. -/
def clientBool (net : Net) : Option Nat → Bool
  | none => false
  | some c => net.truthy c

/-- The expression NmeaTCP[i].client.connected(). -/
def clientConnected (net : Net) : Option Nat → Bool
  | none => false
  | some c => net.connected c

/-- The globals of NMEAHelper.cpp and the packet buffer of WiFiHelper.cpp;
NmeaTCPServer counts the connections handed out by available(). -/
structure State where
  NmeaTCP : List NmeaTCP_t
  NmeaTCPServer : Nat
  NMEABuffer : List Nat
  UDPpacketBuffer : List Nat
  PGRMZ_TimeMarker : Nat

/-- The text PASS? -/
def PASS : List Nat := [80, 65, 83, 83, 63]

/-- The text AOK -/
def AOK : List Nat := [65, 79, 75]

/-- The NMEA_TCP case of NMEA_Out, over the slots from acc_ndx on. -/
def NMEA_Out_TCP (net : Net) (buf : List Nat) (nl : Bool) : List NmeaTCP_t → List Event
  | [] => []
  | s :: rest =>
    (match s.client with
      | some c =>
        if net.truthy c && net.connected c then
          if s.ack then
            Event.client_write c buf :: (if nl then [Event.client_write c [10]] else [])
          else []
        else []
      | none => [])
    ++ NMEA_Out_TCP net buf nl rest

/-- The function NMEA_Out(buf, size, nl), where buf stands for the size bytes
handed over; sizeof(UDPpacketBuffer) is 256. -/
def NMEA_Out (P : Platform) (settings : Settings) (net : Net) (st : State)
    (buf : List Nat) (nl : Bool) : State × List Event :=
  match settings.nmea_out with
  | .NMEA_UART =>
    (st, Event.serial_write buf :: (if nl then [Event.serial_write [10]] else []))
  | .NMEA_UDP =>
    let udp_size := if buf.length ≥ 256 then 256 - 1 else buf.length
    let b1 := writeAt st.UDPpacketBuffer 0 (buf.take udp_size)
    let b2 := if nl then writeAt b1 udp_size [10] else b1
    ({ st with UDPpacketBuffer := b2 },
      [Event.udp_transmit P.NMEA_UDP_PORT (b2.take (if nl then udp_size + 1 else udp_size))])
  | .NMEA_TCP => (st, NMEA_Out_TCP net buf nl st.NmeaTCP)
  | .NMEA_BLUETOOTH =>
    (st, if net.bluetooth then
        Event.bluetooth_write buf :: (if nl then [Event.bluetooth_write [10]] else [])
      else [])
  | .NMEA_OFF => (st, [])

/-- NMEABuffer after snprintf_P(NMEABuffer, sizeof(NMEABuffer), ...) followed by
NMEA_add_checksum(NMEABuffer, sizeof(NMEABuffer) - strlen(NMEABuffer)). -/
def NMEA_frame (P : Platform) (NMEABuffer : List Nat) (s : Sentence) : List Nat :=
  NMEA_add_checksum (writeAt NMEABuffer 0 (snprintf_bytes P.NMEA_BUFFER_SIZE (s.text P)))
    ((P.NMEA_BUFFER_SIZE + 2 ^ 32
        - strlen (writeAt NMEABuffer 0 (snprintf_bytes P.NMEA_BUFFER_SIZE (s.text P))))
      % 2 ^ 32)

/-- The NMEA_Out calls that a list of formatting calls leads to: each call is
paired with the strlen(NMEABuffer) bytes handed to NMEA_Out. -/
def NMEA_calls (P : Platform) : List Nat → List Sentence → List (Sentence × List Nat)
  | _, [] => []
  | NMEABuffer, s :: rest =>
    (s, cstr (NMEA_frame P NMEABuffer s)) :: NMEA_calls P (NMEA_frame P NMEABuffer s) rest

/-- One sentence: format, add the checksum, hand to NMEA_Out. -/
def NMEA_emit (P : Platform) (settings : Settings) (net : Net)
    (acc : State × List Event) (s : Sentence) : State × List Event :=
  ((NMEA_Out P settings net { acc.1 with NMEABuffer := NMEA_frame P acc.1.NMEABuffer s }
      (cstr (NMEA_frame P acc.1.NMEABuffer s)) false).1,
   acc.2 ++ (NMEA_Out P settings net { acc.1 with NMEABuffer := NMEA_frame P acc.1.NMEABuffer s }
      (cstr (NMEA_frame P acc.1.NMEABuffer s)) false).2)

/-- The function NMEA_Export. -/
def NMEA_Export (P : Platform) (settings : Settings) (net : Net) (ThisAircraft : ufo_t)
    (this_moment : Int) (Container : List ufo_t) (st : State) : State × List Event :=
  (NMEA_Export_sentences P settings ThisAircraft this_moment Container).foldl
    (NMEA_emit P settings net) (st, [])

/-- The NMEA_Out calls of one NMEA_Export invocation, each with the formatting
call it comes from. -/
def NMEA_Export_calls (P : Platform) (settings : Settings) (ThisAircraft : ufo_t)
    (this_moment : Int) (Container : List ufo_t) (NMEABuffer : List Nat) :
    List (Sentence × List Nat) :=
  NMEA_calls P NMEABuffer (NMEA_Export_sentences P settings ThisAircraft this_moment Container)

/-- The search for a free or disconnected slot in NMEA_loop, from slot i on,
for the pending connection c: none when the loop ends with i at
MAX_NMEATCP_CLIENTS. -/
def NMEA_loop_accept (net : Net) (now : Int) (c : Nat) :
    List NmeaTCP_t → Option (List NmeaTCP_t × List Event)
  | [] => none
  | s :: rest =>
    if !clientBool net s.client || !clientConnected net s.client then
      some ({ client := some c, connect_ts := now, ack := false } :: rest,
        (match s.client with
          | some old => if net.truthy old then [Event.client_stop old] else []
          | none => [])
        ++ [Event.client_print c PASS])
    else
      match NMEA_loop_accept net now c rest with
      | some (slots, ev) => some (s :: slots, ev)
      | none => none

/-- The loop that empties the input of a client before it is acknowledged. -/
def NMEA_loop_drain (c : Nat) : List Nat → List Event
  | [] => []
  | b :: rest => Event.client_read c b :: NMEA_loop_drain c rest

/-- The acknowledge loop of NMEA_loop, from slot i on. -/
def NMEA_loop_ack (P : Platform) (net : Net) (now : Int) :
    List NmeaTCP_t → List NmeaTCP_t × List Event
  | [] => ([], [])
  | s :: rest =>
    if clientBool net s.client && clientConnected net s.client && !s.ack
        && decide (s.connect_ts > 0) && decide (now - s.connect_ts ≥ P.NMEATCP_ACK_TIMEOUT) then
      match s.client with
      | some c =>
        ({ s with ack := true } :: (NMEA_loop_ack P net now rest).1,
          NMEA_loop_drain c (net.rx c) ++ [Event.client_print c AOK]
            ++ (NMEA_loop_ack P net now rest).2)
      | none => (s :: (NMEA_loop_ack P net now rest).1, (NMEA_loop_ack P net now rest).2)
    else (s :: (NMEA_loop_ack P net now rest).1, (NMEA_loop_ack P net now rest).2)

/-- What one NMEA_loop call reads from its surroundings; millis() and now() are
read once per call. -/
structure LoopInput where
  millis : Nat
  now : Int
  hasClient : Bool
  net : Net
  ThisAircraft : ufo_t

/-- The PGRMZ part of NMEA_loop. -/
def NMEA_loop_PGRMZ (P : Platform) (settings : Settings) (inp : LoopInput) (st : State) :
    State × List Event :=
  if settings.nmea_s && decide (inp.ThisAircraft.pressure_altitude ≠ 0)
      && decide ((inp.millis + 2 ^ 32 - st.PGRMZ_TimeMarker) % 2 ^ 32 > 1000) then
    ({ (NMEA_emit P settings inp.net (st, [])
          (.PGRMZ (constrain (f2i (P.meters_to_feet inp.ThisAircraft.pressure_altitude))
            (-1000) 60000))).1 with PGRMZ_TimeMarker := inp.millis },
      (NMEA_emit P settings inp.net (st, [])
          (.PGRMZ (constrain (f2i (P.meters_to_feet inp.ThisAircraft.pressure_altitude))
            (-1000) 60000))).2)
  else (st, [])

/-- The NMEA_TCP_SERVICE part of NMEA_loop. -/
def NMEA_loop_TCP (P : Platform) (settings : Settings) (inp : LoopInput) (st : State) :
    State × List Event :=
  if settings.nmea_out = .NMEA_TCP then
    let accepted : List NmeaTCP_t × Nat × List Event :=
      if inp.hasClient then
        match NMEA_loop_accept inp.net inp.now st.NmeaTCPServer st.NmeaTCP with
        | some (slots, ev) => (slots, st.NmeaTCPServer + 1, ev)
        | none => (st.NmeaTCP, st.NmeaTCPServer + 1, [Event.client_stop st.NmeaTCPServer])
      else (st.NmeaTCP, st.NmeaTCPServer, [])
    ({ st with
        NmeaTCP := (NMEA_loop_ack P inp.net inp.now accepted.1).1,
        NmeaTCPServer := accepted.2.1 },
      accepted.2.2 ++ (NMEA_loop_ack P inp.net inp.now accepted.1).2)
  else (st, [])

/-- The function NMEA_loop. -/
def NMEA_loop (P : Platform) (settings : Settings) (inp : LoopInput) (st : State) :
    State × List Event :=
  ((NMEA_loop_TCP P settings inp (NMEA_loop_PGRMZ P settings inp st).1).1,
    (NMEA_loop_PGRMZ P settings inp st).2
      ++ (NMEA_loop_TCP P settings inp (NMEA_loop_PGRMZ P settings inp st).1).2)

/-! ## Vocabulary for the statements -/

/-- The HP variables after the entry fo has been taken as the closest one. -/
def HP_of (P : Platform) (ThisAircraft fo : ufo_t) : HighPriority :=
  { HP_bearing := f2i fo.bearing,
    HP_alt_diff := f2i (P.fsub fo.altitude ThisAircraft.altitude),
    HP_alarm_level := fo.alarm_level,
    HP_distance := fo.distance }

/-- A live entry closer than ALARM_ZONE_NONE: the entries the second loop of
NMEA_Export formats and ranks. -/
def isShown (P : Platform) (this_moment : Int) (fo : ufo_t) : Bool :=
  isLive P this_moment fo && decide (fo.distance < P.ALARM_ZONE_NONE)

/-- The bearing argument of a PFLAU call. -/
def Sentence.bearingField : Sentence → Option Int
  | .PFLAU _ _ _ _ _ bearing _ _ _ => some bearing
  | _ => none

/-- A sample platform for evaluation: sample values for the header constants,
exact subtraction for fsub (used on values where a float subtraction does not
round), and stand-ins for the other float operations, on which none of the
evaluated fields depends. -/
def P0 : Platform :=
  { NMEA_BUFFER_SIZE := 128, EXPORT_EXPIRATION_TIME := 5, ALARM_ZONE_NONE := 10000,
    NMEATCP_ACK_TIMEOUT := 2, NMEA_UDP_PORT := 10110, ALARM_LEVEL_NONE := 0,
    ADDR_TYPE_ANONYMOUS := 3, TX_STATUS_ON := 1, GNSS_STATUS_3D_MOVING := 2,
    POWER_STATUS_GOOD := 1, ALARM_TYPE_AIRCRAFT := 2,
    fsub := fun a b => a - b, knots_to_mps := fun x => x, meters_to_feet := fun x => x,
    rel_north := fun _ _ => 0, rel_east := fun _ _ => 0,
    climb_rate := fun _ => [32, 32, 48, 46, 48], fmt_f := fun _ => [48] }

/-- Settings with every sentence class enabled and TCP output. -/
def S0 : Settings :=
  { nmea_out := .NMEA_TCP, nmea_g := true, nmea_l := true, nmea_s := true }

/-- An own-ship record at 500 m. -/
def own0 : ufo_t :=
  { addr := 1, protocol := .LEGACY, addr_type := 1, timestamp := 100, latitude := 47,
    longitude := 8, altitude := 500, pressure_altitude := 0, course := 90, speed := 100,
    vs := 0, distance := 0, bearing := 0, alarm_level := 0, aircraft_type := 1,
    stealth := false, no_track := false }

/-- A tracked object seen at time 100 with the given address, distance,
bearing, altitude and alarm level. -/
def target0 (addr : Nat) (distance bearing altitude : ℚ) (alarm_level : Int) : ufo_t :=
  { addr := addr, protocol := .LEGACY, addr_type := 1, timestamp := 100, latitude := 47,
    longitude := 8, altitude := altitude, pressure_altitude := 0, course := 0, speed := 0,
    vs := 0, distance := distance, bearing := bearing, alarm_level := alarm_level,
    aircraft_type := 1, stealth := false, no_track := false }

/-- The slot holds a connection that is still live. -/
def slotBusy (net : Net) (s : NmeaTCP_t) : Bool :=
  clientBool net s.client && clientConnected net s.client

/-- The condition under which the acknowledge loop of NMEA_loop handles a slot. -/
def ackDue (P : Platform) (net : Net) (now : Int) (s : NmeaTCP_t) : Bool :=
  clientBool net s.client && clientConnected net s.client && !s.ack
    && decide (s.connect_ts > 0) && decide (now - s.connect_ts ≥ P.NMEATCP_ACK_TIMEOUT)

/-- The slot as the acknowledge loop leaves it. -/
def ackSlot (P : Platform) (net : Net) (now : Int) (s : NmeaTCP_t) : NmeaTCP_t :=
  if ackDue P net now s then { s with ack := true } else s

/-- The event is a byte read from a client. -/
def Event.isRead : Event → Bool
  | .client_read _ _ => true
  | _ => false

/-- A network in which every connection is live and has sent the given bytes. -/
def net0 (rx : List Nat) : Net :=
  { truthy := fun _ => true, connected := fun _ => true, rx := fun _ => rx, bluetooth := false }

/-- A state with the given slots and connection count and zeroed buffers. -/
def state0 (slots : List NmeaTCP_t) (served : Nat) : State :=
  { NmeaTCP := slots, NmeaTCPServer := served, NMEABuffer := List.replicate 128 0,
    UDPpacketBuffer := List.replicate 256 0, PGRMZ_TimeMarker := 0 }

/-- One NMEA_loop call at the given time, with or without a pending client. -/
def loop0 (now : Int) (hasClient : Bool) (rx : List Nat) : LoopInput :=
  { millis := 0, now := now, hasClient := hasClient, net := net0 rx, ThisAircraft := own0 }

/-! ## Sequences of calls -/

/-- A call made by the main loop of the firmware: one NMEA_loop poll, or one
NMEA_Out call (NMEA_Export and the other producers make a series of them). -/
inductive Action where
  | loop (inp : LoopInput)
  | out (net : Net) (buf : List Nat) (nl : Bool)

/-- The effect of one call. -/
def step (P : Platform) (settings : Settings) (st : State) : Action → State × List Event
  | .loop inp => NMEA_loop P settings inp st
  | .out net buf nl => NMEA_Out P settings net st buf nl

/-- The state after a sequence of calls. -/
def runState (P : Platform) (settings : Settings) : State → List Action → State
  | st, [] => st
  | st, a :: rest => runState P settings (step P settings st a).1 rest

/-- The trace of a sequence of calls: each call with the events it produced. -/
def run (P : Platform) (settings : Settings) : State → List Action → List (Action × List Event)
  | _, [] => []
  | st, a :: rest =>
    (a, (step P settings st a).2) :: run P settings (step P settings st a).1 rest

/-- All events of a trace, in order. -/
def flat (tr : List (Action × List Event)) : List Event :=
  tr.flatMap Prod.snd

/-- The event sends bytes to the client c: a print or a write. -/
def Event.isTo (c : Nat) : Event → Bool
  | .client_print d _ => d == c
  | .client_write d _ => d == c
  | _ => false

/-- What has been sent to the client c, in order. -/
def sentTo (c : Nat) (evs : List Event) : List Event :=
  evs.filter (Event.isTo c)

/-- The three stages of what a client may have been sent: nothing; PASS? alone;
PASS?, then AOK, then written data only. -/
def Handshake (c : Nat) (msgs : List Event) : Prop :=
  msgs = [] ∨ msgs = [Event.client_print c PASS]
  ∨ ∃ ws, msgs = Event.client_print c PASS :: Event.client_print c AOK :: ws
      ∧ ∀ e ∈ ws, ∃ d, e = Event.client_write c d

/-- The connections held by the slots. -/
def clientsOf (slots : List NmeaTCP_t) : List Nat :=
  slots.filterMap (fun s => s.client)

/-- What the slots and the count of connections say about the events so far. -/
structure SlotInv (slots : List NmeaTCP_t) (served : Nat) (log : List Event) : Prop where
  bound : ∀ s ∈ slots, ∀ c, s.client = some c → c < served
  nodup : (clientsOf slots).Nodup
  fresh : ∀ c, served ≤ c → sentTo c log = []
  pending : ∀ s ∈ slots, ∀ c, s.client = some c → s.ack = false →
    sentTo c log = [Event.client_print c PASS]
  acked : ∀ s ∈ slots, ∀ c, s.client = some c → s.ack = true →
    ∃ ws, sentTo c log = Event.client_print c PASS :: Event.client_print c AOK :: ws
      ∧ ∀ e ∈ ws, ∃ d, e = Event.client_write c d
  shape : ∀ c, Handshake c (sentTo c log)

/-- What the slots say about the polls of the trace so far. -/
structure TimeInv (P : Platform) (slots : List NmeaTCP_t)
    (tr : List (Action × List Event)) : Prop where
  stamp : ∀ s ∈ slots, ∀ c, s.client = some c → ∀ x ∈ tr,
    Event.client_print c PASS ∈ x.2 → ∃ i, x.1 = Action.loop i ∧ i.now = s.connect_ts
  timing : ∀ c, ∀ x1 ∈ tr, ∀ x2 ∈ tr, Event.client_print c PASS ∈ x1.2 →
    Event.client_print c AOK ∈ x2.2 →
    ∃ i1 i2, x1.1 = Action.loop i1 ∧ x2.1 = Action.loop i2
      ∧ i2.now - i1.now ≥ P.NMEATCP_ACK_TIMEOUT

/-- What NMEA_Out in TCP mode is to write for one slot: the given bytes, and a
line feed when asked for, to the client of a slot that holds a live connection
and is acknowledged; nothing for any other slot. -/
def dispatchSlot (net : Net) (buf : List Nat) (nl : Bool) (s : NmeaTCP_t) : List Event :=
  if slotBusy net s && s.ack then
    match s.client with
    | some c => Event.client_write c buf :: (if nl then [Event.client_write c [10]] else [])
    | none => []
  else []

/-- The datagram for an input: its first min(size, 255) bytes, followed by a
line feed when asked for. -/
def udpPacket (buf : List Nat) (nl : Bool) : List Nat :=
  buf.take (min buf.length 255) ++ (if nl then [10] else [])

/-- The altitude argument of the PGRMZ call of NMEA_loop. -/
def PGRMZ_altitude (P : Platform) (inp : LoopInput) : Int :=
  constrain (f2i (P.meters_to_feet inp.ThisAircraft.pressure_altitude)) (-1000) 60000

/-- The climb-rate argument of a PFLAA call. -/
def Sentence.climbField : Sentence → Option (List Nat)
  | .PFLAA _ _ _ _ _ _ _ _ _ climb _ => some climb
  | _ => none

/-- White space as isspace sees it in the C locale. -/
def isspace (c : Nat) : Bool :=
  decide (c = 32 ∨ (9 ≤ c ∧ c ≤ 13))

/-- One NMEA_loop call at 2000 ms, time 5, with the given pressure altitude. -/
def loop1 (pressure_altitude : ℚ) : LoopInput :=
  { millis := 2000, now := 5, hasClient := false, net := net0 [],
    ThisAircraft := { own0 with pressure_altitude := pressure_altitude } }

/-- The k least significant digits of v in the given base, most significant
first. -/
def fixedDigits (base : Nat) : Nat → Nat → List Nat
  | 0, _ => []
  | k + 1, v => fixedDigits base k (v / base) ++ [v % base]

/-- A 24-bit value written with six uppercase hexadecimal digits. -/
def hexDigits6 (v : Nat) : List Nat :=
  [hexDigitUpper (v / 1048576 % 16), hexDigitUpper (v / 65536 % 16),
   hexDigitUpper (v / 4096 % 16), hexDigitUpper (v / 256 % 16),
   hexDigitUpper (v / 16 % 16), hexDigitUpper (v % 16)]

/-- Text of the conversion %f for a float whose value is an integer: the
integer, a point and six zeros. -/
def fmt_f_integral (q : ℚ) : List Nat :=
  fmt_d (f2i q) ++ [46, 48, 48, 48, 48, 48, 48]

/-- The sample platform with the %f text of integer-valued floats. -/
def P1 : Platform :=
  { P0 with fmt_f := fmt_f_integral }

/-- The sample own-ship record at rest. -/
def own1 : ufo_t :=
  { own0 with speed := 0 }

/-! ## The call sites of NMEA_add_checksum -/

/-- NMEABuffer after snprintf_P(NMEABuffer, sizeof(NMEABuffer), ...) for one
formatting call: the buffer that the next statement passes to
NMEA_add_checksum. -/
def NMEA_format (P : Platform) (NMEABuffer : List Nat) (s : Sentence) : List Nat :=
  writeAt NMEABuffer 0 (snprintf_bytes P.NMEA_BUFFER_SIZE (s.text P))

/-- The indices n at which the loop of NMEA_add_checksum reads buf[n]: n runs
from 1 while n < sentence_size - 1, the bound being computed in 32-bit unsigned
arithmetic. -/
def NMEA_checksum_reads (sentence_size : Nat) : List Nat :=
  (List.range ((sentence_size + 2 ^ 32 - 1) % 2 ^ 32 - 1)).map (fun k => k + 1)

/-- The buffers passed to NMEA_add_checksum by a series of formatting calls, in
program order; each call starts from the buffer that the one before left. -/
def NMEA_checksum_args (P : Platform) : List Nat → List Sentence → List (List Nat)
  | _, [] => []
  | NMEABuffer, s :: rest =>
    NMEA_format P NMEABuffer s :: NMEA_checksum_args P (NMEA_frame P NMEABuffer s) rest

/-- The buffers passed to NMEA_add_checksum by one NMEA_Export invocation. -/
def NMEA_Export_checksum_args (P : Platform) (settings : Settings) (ThisAircraft : ufo_t)
    (this_moment : Int) (Container : List ufo_t) (NMEABuffer : List Nat) : List (List Nat) :=
  NMEA_checksum_args P NMEABuffer
    (NMEA_Export_sentences P settings ThisAircraft this_moment Container)

/-- The buffers passed to NMEA_add_checksum by one NMEA_loop invocation: the
PGRMZ sentence when it is due, nothing otherwise. -/
def NMEA_loop_checksum_args (P : Platform) (settings : Settings) (inp : LoopInput)
    (st : State) : List (List Nat) :=
  if settings.nmea_s && decide (inp.ThisAircraft.pressure_altitude ≠ 0)
      && decide ((inp.millis + 2 ^ 32 - st.PGRMZ_TimeMarker) % 2 ^ 32 > 1000) then
    NMEA_checksum_args P st.NMEABuffer
      [.PGRMZ (constrain (f2i (P.meters_to_feet inp.ThisAircraft.pressure_altitude))
        (-1000) 60000)]
  else []

/-- Settings with every sentence class enabled and output on the serial port. -/
def S1 : Settings :=
  { nmea_out := .NMEA_UART, nmea_g := true, nmea_l := true, nmea_s := true }

/-- The first six bytes that an output call carries. -/
def Event.tag : Event → List Nat
  | .serial_write data => data.take 6
  | .udp_transmit _ packet => packet.take 6
  | .bluetooth_write data => data.take 6
  | .client_write _ data => data.take 6
  | _ => []

/-! ## Lemmas on C strings and the checksum loop -/

theorem xor_mod_256 (a b : Nat) : (a ^^^ b) % 256 = ((a % 256) ^^^ (b % 256)) := by
  have h : (256 : Nat) = 2 ^ 8 := by norm_num
  rw [h]
  apply Nat.eq_of_testBit_eq
  intro i
  simp only [Nat.testBit_mod_two_pow, Nat.testBit_xor]
  by_cases hi : i < 8 <;> simp [hi]

theorem foldl_xor_mod (bs : List Nat) (a : Nat) :
    bs.foldl (fun cs b => (cs ^^^ b) % 256) (a % 256)
      = (bs.foldl (fun x y => x ^^^ y) a) % 256 := by
  induction bs generalizing a with
  | nil => simp
  | cons b bs ih =>
    simp only [List.foldl_cons]
    rw [← ih (a ^^^ b)]
    congr 1
    rw [xor_mod_256 (a % 256) b, xor_mod_256 a b, Nat.mod_mod]

theorem foldl_range_getD (f : Nat → Nat → Nat) (l : List Nat) (n : Nat) (hn : n ≤ l.length)
    (a : Nat) :
    (List.range n).foldl (fun cs k => f cs (l.getD k 0)) a = (l.take n).foldl f a := by
  induction n with
  | zero => simp
  | succ n ih =>
    have hlt : n < l.length := hn
    rw [List.range_succ, List.foldl_append, ih (Nat.le_of_lt hlt), List.take_succ,
      List.foldl_append, List.getElem?_eq_getElem hlt]
    simp only [List.foldl_cons, List.foldl_nil, Option.toList, List.getD_eq_getElem l 0 hlt]

theorem strlen_le (buf : List Nat) : strlen buf ≤ buf.length := by
  unfold strlen
  exact (List.takeWhile_sublist _).length_le

theorem take_strlen (buf : List Nat) : buf.take (strlen buf) = cstr buf := by
  unfold strlen cstr
  induction buf with
  | nil => simp
  | cons b bs ih =>
    by_cases hb : (b != 0) = true
    · simp [List.takeWhile_cons, hb, ih]
    · simp [List.takeWhile_cons, hb]

theorem cstr_nonzero (buf : List Nat) : ∀ b ∈ cstr buf, (b != 0) = true := by
  intro b hb
  unfold cstr at hb
  exact List.mem_takeWhile_imp (p := fun b => b != 0) hb

theorem cstr_append (a rest : List Nat) (ha : ∀ b ∈ a, (b != 0) = true) :
    cstr (a ++ 0 :: rest) = a := by
  unfold cstr
  rw [List.takeWhile_append_of_pos ha]
  simp

theorem fmt_02X_byte (v : Nat) (hv : v < 256) :
    fmt_02X v = [hexDigitUpper (v / 16), hexDigitUpper (v % 16)] := by
  unfold fmt_02X natDigits
  by_cases h : v < 16
  · have h0 : v / 16 = 0 := Nat.div_eq_of_lt h
    have h1 : v % 16 = v := Nat.mod_eq_of_lt h
    simp [digitsAux, h, padZero, h0, h1, hexDigitUpper]
  · obtain ⟨w, rfl⟩ : ∃ w, v = w + 1 := ⟨v - 1, by omega⟩
    have h2 : (w + 1) / 16 < 16 := by omega
    simp [digitsAux, h, h2, padZero]

theorem hexDigitUpper_ne_zero (d : Nat) : (hexDigitUpper d != 0) = true := by
  unfold hexDigitUpper
  split <;> simp

theorem NMEA_checksum_lt (buf : List Nat) (n : Nat) : NMEA_checksum buf n < 256 := by
  unfold NMEA_checksum
  generalize (n + 2 ^ 32 - 1) % 2 ^ 32 - 1 = m
  induction m with
  | zero => simp
  | succ m _ =>
    rw [List.range_succ, List.foldl_append]
    simp only [List.foldl_cons, List.foldl_nil]
    exact Nat.mod_lt _ (by norm_num)

/-- The checksum loop computes the 8-bit XOR of the bytes at indices 1 to L - 2. -/
theorem NMEA_checksum_eq (buf : List Nat) (hL : 2 ≤ strlen buf) (h32 : strlen buf < 2 ^ 32) :
    NMEA_checksum buf (strlen buf)
      = xorBytes ((buf.take (strlen buf - 1)).drop 1) % 256 := by
  unfold NMEA_checksum xorBytes
  have hb : (strlen buf + 2 ^ 32 - 1) % 2 ^ 32 - 1 = strlen buf - 2 := by omega
  have hlen := strlen_le buf
  rw [hb]
  have h1 : ∀ k, buf.getD (k + 1) 0 = (buf.drop 1).getD k 0 := by
    intro k
    simp [List.getD_eq_getElem?_getD, List.getElem?_drop, Nat.add_comm]
  simp only [h1]
  rw [foldl_range_getD (fun cs b => (cs ^^^ b) % 256) (buf.drop 1) (strlen buf - 2)
    (by simp; omega) 0]
  rw [List.drop_take]
  have h2 : strlen buf - 1 - 1 = strlen buf - 2 := by omega
  rw [h2]
  exact foldl_xor_mod _ 0

/-- Shape of the buffer after NMEA_add_checksum when the limit leaves room for
the whole suffix. -/
theorem NMEA_add_checksum_shape (buf : List Nat) (limit : Nat)
    (hL : 2 ≤ strlen buf) (h32 : strlen buf < 2 ^ 32) (hlim : 5 ≤ limit) :
    NMEA_add_checksum buf limit
      = cstr buf ++
        [hexDigitUpper (xorBytes ((buf.take (strlen buf - 1)).drop 1) % 256 / 16),
         hexDigitUpper (xorBytes ((buf.take (strlen buf - 1)).drop 1) % 256 % 16),
         13, 10, 0] ++ buf.drop (strlen buf + 5) := by
  have hcs := NMEA_checksum_eq buf hL h32
  have hlt := NMEA_checksum_lt buf (strlen buf)
  have hfmt := fmt_02X_byte _ hlt
  have hbytes : snprintf_bytes limit (fmt_02X (NMEA_checksum buf (strlen buf)) ++ [13, 10])
      = [hexDigitUpper (NMEA_checksum buf (strlen buf) / 16),
         hexDigitUpper (NMEA_checksum buf (strlen buf) % 16), 13, 10, 0] := by
    unfold snprintf_bytes
    rw [hfmt, if_neg (by omega)]
    have : limit - 1 = 4 + (limit - 5) := by omega
    rw [this]
    simp [List.take_of_length_le]
  rw [← hcs, ← take_strlen]
  unfold NMEA_add_checksum writeAt
  simp only [hbytes]
  rfl

theorem take_drop_of_append (pre x tl : List Nat) (n : Nat) (hn : pre.length = n) :
    (pre ++ x ++ tl).take n = pre ∧ (pre ++ x ++ tl).drop n = x ++ tl := by
  subst hn
  simp

theorem length_cstr (buf : List Nat) : (cstr buf).length = strlen buf := rfl

theorem cstr_frame (pre : List Nat) (h1 h2 : Nat) (tl : List Nat)
    (hpre : ∀ b ∈ pre, (b != 0) = true) :
    cstr (pre ++ [hexDigitUpper h1, hexDigitUpper h2, 13, 10, 0] ++ tl)
      = pre ++ [hexDigitUpper h1, hexDigitUpper h2, 13, 10] := by
  have hnz : ∀ b ∈ pre ++ [hexDigitUpper h1, hexDigitUpper h2, 13, 10], (b != 0) = true := by
    intro b hb
    rw [List.mem_append] at hb
    rcases hb with hb | hb
    · exact hpre b hb
    · simp only [List.mem_cons, List.mem_singleton, List.not_mem_nil, or_false] at hb
      rcases hb with h | h | h | h
      · rw [h]; exact hexDigitUpper_ne_zero _
      · rw [h]; exact hexDigitUpper_ne_zero _
      · rw [h]; rfl
      · rw [h]; rfl
  have hsplit : pre ++ [hexDigitUpper h1, hexDigitUpper h2, 13, 10, 0] ++ tl
      = (pre ++ [hexDigitUpper h1, hexDigitUpper h2, 13, 10]) ++ 0 :: tl := by simp
  rw [hsplit]
  exact cstr_append _ tl hnz

/-- Claim C1. For a NUL-terminated sentence of length L, 2 ≤ L, in a 32-bit
address space, and a limit of at least 5, NMEA_add_checksum keeps the first L
bytes, stores after them two uppercase hexadecimal digits that encode the 8-bit
XOR of the bytes at indices 1 to L - 2, then CR, LF and the terminating NUL, so
that the sentence grows by exactly four bytes; bytes further on are untouched. -/
theorem NMEA_add_checksum_appends (buf : List Nat) (limit : Nat)
    (_hnul : strlen buf < buf.length) (h32 : strlen buf < 2 ^ 32)
    (hL : 2 ≤ strlen buf) (hlim : 5 ≤ limit) :
    (NMEA_add_checksum buf limit).take (strlen buf) = buf.take (strlen buf)
    ∧ ((NMEA_add_checksum buf limit).drop (strlen buf)).take 5
        = [hexDigitUpper (xorBytes ((buf.take (strlen buf - 1)).drop 1) % 256 / 16),
           hexDigitUpper (xorBytes ((buf.take (strlen buf - 1)).drop 1) % 256 % 16),
           13, 10, 0]
    ∧ strlen (NMEA_add_checksum buf limit) = strlen buf + 4
    ∧ (NMEA_add_checksum buf limit).drop (strlen buf + 5) = buf.drop (strlen buf + 5) := by
  have hr := NMEA_add_checksum_shape buf limit hL h32 hlim
  have hlen := length_cstr buf
  rw [hr]
  refine ⟨?_, ?_, ?_, ?_⟩
  · rw [take_strlen]
    exact (take_drop_of_append _ _ _ _ hlen).1
  · rw [(take_drop_of_append _ _ _ _ hlen).2]
    simp
  · show (cstr _).length = _
    rw [cstr_frame _ _ _ _ (cstr_nonzero buf)]
    simp [hlen]
  · have h5 : (cstr buf ++
        [hexDigitUpper (xorBytes ((buf.take (strlen buf - 1)).drop 1) % 256 / 16),
         hexDigitUpper (xorBytes ((buf.take (strlen buf - 1)).drop 1) % 256 % 16),
         13, 10, 0]).length
         = strlen buf + 5 := by
      simp [hlen]
    have h6 := (take_drop_of_append _ [] (buf.drop (strlen buf + 5)) _ h5).2
    simpa using h6

/-- Claim C1 at a concrete sentence. -/
theorem NMEA_add_checksum_appends_witness :
    (NMEA_add_checksum [36, 65, 66, 42, 0, 9, 9, 9, 9, 9] 6).take
        (strlen [36, 65, 66, 42, 0, 9, 9, 9, 9, 9]) = [36, 65, 66, 42]
    ∧ strlen (NMEA_add_checksum [36, 65, 66, 42, 0, 9, 9, 9, 9, 9] 6) = 8 :=
  have h := NMEA_add_checksum_appends [36, 65, 66, 42, 0, 9, 9, 9, 9, 9] 6
    (by decide) (by decide) (by decide) (by decide)
  ⟨h.1, h.2.2.1⟩

theorem foldl_xor_lt (bs : List Nat) (a : Nat) (ha : a < 256) (hbs : ∀ x ∈ bs, x < 256) :
    bs.foldl (fun x y => x ^^^ y) a < 256 := by
  induction bs generalizing a with
  | nil => simpa using ha
  | cons b bs ih =>
    simp only [List.foldl_cons]
    apply ih
    · have h8 : (256 : Nat) = 2 ^ 8 := by norm_num
      rw [h8]
      exact Nat.xor_lt_two_pow (by rw [← h8]; exact ha)
        (by rw [← h8]; exact hbs b (List.mem_cons_self _ _))
    · intro x hx
      exact hbs x (List.mem_cons_of_mem _ hx)

theorem hexVal_hexDigitUpper (d : Nat) (hd : d < 16) : hexVal (hexDigitUpper d) = some d := by
  unfold hexVal hexDigitUpper
  by_cases h : d < 10
  · have h1 : 48 ≤ 48 + d ∧ 48 + d ≤ 57 := by omega
    simp [h, h1]
  · have h1 : ¬ (48 ≤ 55 + d ∧ 55 + d ≤ 57) := by omega
    have h2 : 65 ≤ 55 + d ∧ 55 + d ≤ 70 := by omega
    simp [h, h1, h2]

theorem cstr_sentence (b tl : List Nat) (hb : ∀ x ∈ b, x ≠ 0) :
    cstr (36 :: b ++ 42 :: 0 :: tl) = 36 :: b ++ [42] := by
  have h : 36 :: b ++ 42 :: 0 :: tl = (36 :: b ++ [42]) ++ 0 :: tl := by simp
  rw [h]
  apply cstr_append
  intro x hx
  simp only [List.cons_append, List.mem_cons, List.mem_append, List.mem_singleton,
    List.not_mem_nil, or_false] at hx
  rcases hx with h | h | h
  · rw [h]; rfl
  · simpa using hb x h
  · rw [h]; rfl

/-- Claim C2. Round trip: for a body of bytes other than the asterisk and NUL,
the sentence made of a dollar sign, the body and an asterisk, framed by
NMEA_add_checksum with room for the suffix, is the same text followed by two
hexadecimal digits, CR and LF; the independent verifier accepts it, and the
two digits after the asterisk parse to the XOR of the body. -/
theorem NMEA_add_checksum_roundtrip (b tl : List Nat) (limit : Nat)
    (hb : ∀ x ∈ b, x ≠ 42 ∧ x ≠ 0 ∧ x < 256)
    (h32 : b.length + 2 < 2 ^ 32) (hlim : 5 ≤ limit) :
    nmeaVerify (cstr (NMEA_add_checksum (36 :: b ++ 42 :: 0 :: tl) limit)) = true
    ∧ parseChecksum (cstr (NMEA_add_checksum (36 :: b ++ 42 :: 0 :: tl) limit))
        = some (xorBytes b)
    ∧ sentenceBody (cstr (NMEA_add_checksum (36 :: b ++ 42 :: 0 :: tl) limit)) = b
    ∧ ∃ d1 d2, cstr (NMEA_add_checksum (36 :: b ++ 42 :: 0 :: tl) limit)
        = 36 :: b ++ [42, d1, d2, 13, 10] := by
  have hc := cstr_sentence b tl (fun x hx => (hb x hx).2.1)
  have hlen : strlen (36 :: b ++ 42 :: 0 :: tl) = b.length + 2 := by
    rw [← length_cstr, hc]; simp
  have hshape := NMEA_add_checksum_shape (36 :: b ++ 42 :: 0 :: tl) limit
    (by omega) (by omega) hlim
  have hslice : ((36 :: b ++ 42 :: 0 :: tl).take (strlen (36 :: b ++ 42 :: 0 :: tl) - 1)).drop 1
      = b := by
    rw [hlen]
    have : b.length + 2 - 1 = b.length + 1 := by omega
    rw [this]
    simp
  have hx : xorBytes b < 256 := foldl_xor_lt b 0 (by norm_num) (fun x hx => (hb x hx).2.2)
  rw [hslice, Nat.mod_eq_of_lt hx, hc] at hshape
  have hnz : ∀ x ∈ 36 :: b ++ [42], (x != 0) = true := by
    rw [← hc]; exact cstr_nonzero _
  have hs := cstr_frame (36 :: b ++ [42]) (xorBytes b / 16) (xorBytes b % 16)
    (List.drop (strlen (36 :: b ++ 42 :: 0 :: tl) + 5) (36 :: b ++ 42 :: 0 :: tl)) hnz
  rw [← hshape] at hs
  have hs2 : cstr (NMEA_add_checksum (36 :: b ++ 42 :: 0 :: tl) limit)
      = 36 :: (b ++ 42 :: [hexDigitUpper (xorBytes b / 16),
          hexDigitUpper (xorBytes b % 16), 13, 10]) := by
    rw [hs]; simp
  have hb42 : ∀ x ∈ b, (x != 42) = true := by
    intro x hx
    simpa using (hb x hx).1
  have hparse : parseChecksum (36 :: (b ++ 42 :: [hexDigitUpper (xorBytes b / 16),
          hexDigitUpper (xorBytes b % 16), 13, 10])) = some (xorBytes b) := by
    unfold parseChecksum
    have hd : List.dropWhile (fun x => x != 42) (36 :: (b ++ 42 :: [hexDigitUpper (xorBytes b / 16),
          hexDigitUpper (xorBytes b % 16), 13, 10]))
        = 42 :: [hexDigitUpper (xorBytes b / 16), hexDigitUpper (xorBytes b % 16), 13, 10] := by
      rw [List.dropWhile_cons_of_pos (by decide), List.dropWhile_append_of_pos hb42]
      simp [List.dropWhile_cons]
    rw [hd]
    simp only [hexVal_hexDigitUpper _ (show xorBytes b / 16 < 16 by omega),
      hexVal_hexDigitUpper _ (Nat.mod_lt _ (show 0 < 16 by norm_num))]
    congr 1
    omega
  have hbody : sentenceBody (36 :: (b ++ 42 :: [hexDigitUpper (xorBytes b / 16),
          hexDigitUpper (xorBytes b % 16), 13, 10])) = b := by
    unfold sentenceBody
    simp only [List.drop_succ_cons, List.drop_zero]
    rw [List.takeWhile_append_of_pos hb42]
    simp [List.takeWhile_cons]
  rw [hs2]
  refine ⟨?_, hparse, hbody, ⟨hexDigitUpper (xorBytes b / 16),
    hexDigitUpper (xorBytes b % 16), by simp⟩⟩
  unfold nmeaVerify
  rw [hparse, hbody]
  simp

/-- Claim C2 at the body AB. -/
theorem NMEA_add_checksum_roundtrip_witness :
    nmeaVerify (cstr (NMEA_add_checksum (36 :: [65, 66] ++ 42 :: 0 :: [9, 9, 9, 9, 9]) 6)) = true :=
  (NMEA_add_checksum_roundtrip [65, 66] [9, 9, 9, 9, 9] 6 (by decide) (by decide) (by decide)).1


/-! ## The scan of the tracking table -/

theorem NMEA_Export_step_eq (P : Platform) (settings : Settings) (ThisAircraft : ufo_t)
    (this_moment : Int) (acc : HighPriority × List Sentence) (fo : ufo_t) :
    NMEA_Export_step P settings ThisAircraft this_moment acc fo
      = if (settings.nmea_l && isShown P this_moment fo) = true then
          (if fo.distance < acc.1.HP_distance then HP_of P ThisAircraft fo else acc.1,
           acc.2 ++ [PFLAA_of P ThisAircraft fo, TRAFFIC_of P fo])
        else acc := by
  unfold NMEA_Export_step isShown HP_of
  by_cases h1 : isLive P this_moment fo = true <;> by_cases h2 : settings.nmea_l = true <;>
    by_cases h3 : fo.distance < P.ALARM_ZONE_NONE <;> simp [h1, h2, h3]

/-- Entries that are no closer than the current HP_distance leave the HP variables alone. -/
theorem scan_keep (P : Platform) (settings : Settings) (ThisAircraft : ufo_t)
    (this_moment : Int) (l : List ufo_t) (acc : HighPriority × List Sentence)
    (h : ∀ x ∈ l, isShown P this_moment x = true → acc.1.HP_distance ≤ x.distance) :
    (l.foldl (NMEA_Export_step P settings ThisAircraft this_moment) acc).1 = acc.1 := by
  induction l generalizing acc with
  | nil => rfl
  | cons x xs ih =>
    simp only [List.foldl_cons]
    have hx := h x (List.mem_cons_self _ _)
    have hstep : (NMEA_Export_step P settings ThisAircraft this_moment acc x).1 = acc.1 := by
      rw [NMEA_Export_step_eq]
      by_cases hc : (settings.nmea_l && isShown P this_moment x) = true
      · have hs : isShown P this_moment x = true := by
          simp only [Bool.and_eq_true] at hc; exact hc.2
        rw [if_pos hc]
        simp only
        rw [if_neg (not_lt.mpr (hx hs))]
      · rw [if_neg hc]
    rw [ih _ (by rw [hstep]; exact fun y hy => h y (List.mem_cons_of_mem _ hy)), hstep]

/-- While every ranked entry is farther than d, HP_distance stays above d. -/
theorem scan_above (P : Platform) (settings : Settings) (ThisAircraft : ufo_t)
    (this_moment : Int) (d : ℚ) (l : List ufo_t) (acc : HighPriority × List Sentence)
    (h0 : d < acc.1.HP_distance)
    (h : ∀ x ∈ l, isShown P this_moment x = true → d < x.distance) :
    d < (l.foldl (NMEA_Export_step P settings ThisAircraft this_moment) acc).1.HP_distance := by
  induction l generalizing acc with
  | nil => exact h0
  | cons x xs ih =>
    simp only [List.foldl_cons]
    apply ih
    · rw [NMEA_Export_step_eq]
      by_cases hc : (settings.nmea_l && isShown P this_moment x) = true
      · have hs : isShown P this_moment x = true := by
          simp only [Bool.and_eq_true] at hc; exact hc.2
        rw [if_pos hc]
        simp only
        by_cases hlt : x.distance < acc.1.HP_distance
        · rw [if_pos hlt]; exact h x (List.mem_cons_self _ _) hs
        · rw [if_neg hlt]; exact h0
      · rw [if_neg hc]; exact h0
    · exact fun y hy => h y (List.mem_cons_of_mem _ hy)

/-- The HP variables after the scan are those of the first closest ranked entry. -/
theorem scan_select (P : Platform) (settings : Settings) (ThisAircraft : ufo_t)
    (this_moment : Int) (pre post : List ufo_t) (e : ufo_t)
    (hl : settings.nmea_l = true) (hz : P.ALARM_ZONE_NONE ≤ 2147483647)
    (he : isShown P this_moment e = true)
    (hpre : ∀ x ∈ pre, isShown P this_moment x = true → e.distance < x.distance)
    (hpost : ∀ x ∈ post, isShown P this_moment x = true → e.distance ≤ x.distance) :
    (NMEA_Export_scan P settings ThisAircraft this_moment (pre ++ e :: post)).1
      = HP_of P ThisAircraft e := by
  unfold NMEA_Export_scan
  rw [List.foldl_append, List.foldl_cons]
  have hed : e.distance < P.ALARM_ZONE_NONE := by
    unfold isShown at he
    simp only [Bool.and_eq_true, decide_eq_true_eq] at he
    exact he.2
  have h1 := scan_above P settings ThisAircraft this_moment e.distance pre (HP_init P, [])
    (lt_of_lt_of_le hed (hz.trans (by show (2147483647 : ℚ) ≤ 2147483648; norm_num))) hpre
  have h2 : (NMEA_Export_step P settings ThisAircraft this_moment
      (pre.foldl (NMEA_Export_step P settings ThisAircraft this_moment) (HP_init P, [])) e).1
      = HP_of P ThisAircraft e := by
    rw [NMEA_Export_step_eq, if_pos (by simp [hl, he])]
    simp only
    rw [if_pos h1]
  rw [scan_keep P settings ThisAircraft this_moment post _ (by rw [h2]; exact hpost), h2]

/-- The calls made by the scan are the PFLAA and TRAFFIC calls of the ranked
entries, in table order. -/
theorem scan_sentences (P : Platform) (settings : Settings) (ThisAircraft : ufo_t)
    (this_moment : Int) (l : List ufo_t) (acc : HighPriority × List Sentence) :
    (l.foldl (NMEA_Export_step P settings ThisAircraft this_moment) acc).2
      = acc.2 ++ (l.filter (fun fo => settings.nmea_l && isShown P this_moment fo)).flatMap
          (fun fo => [PFLAA_of P ThisAircraft fo, TRAFFIC_of P fo]) := by
  induction l generalizing acc with
  | nil => simp
  | cons x xs ih =>
    simp only [List.foldl_cons]
    rw [ih, NMEA_Export_step_eq]
    by_cases hc : (settings.nmea_l && isShown P this_moment x) = true
    · rw [if_pos hc]
      simp only [List.filter_cons, hc, if_true, List.flatMap_cons, List.append_assoc]
    · rw [if_neg hc]
      simp only [List.filter_cons, hc]
      rfl

theorem NMEA_Export_count_eq (P : Platform) (this_moment : Int) (l : List ufo_t) (n : Int) :
    l.foldl (fun total_objects fo =>
      if isLive P this_moment fo then total_objects + 1 else total_objects) n
      = n + ((l.filter (isLive P this_moment)).length : Int) := by
  induction l generalizing n with
  | nil => simp
  | cons x xs ih =>
    simp only [List.foldl_cons]
    rw [ih]
    by_cases hx : isLive P this_moment x = true
    · rw [if_pos hx, List.filter_cons_of_pos hx]
      simp only [List.length_cons]
      push_cast
      ring
    · rw [if_neg hx, List.filter_cons_of_neg hx]

theorem flatMap_perTarget (P : Platform) (ThisAircraft : ufo_t) (l : List ufo_t) :
    ∀ s ∈ l.flatMap (fun fo => [PFLAA_of P ThisAircraft fo, TRAFFIC_of P fo]),
      s.isPerTarget = true ∧ s.isPFLAU = false := by
  intro s hs
  simp only [List.mem_flatMap, List.mem_cons, List.mem_singleton, List.not_mem_nil,
    or_false] at hs
  obtain ⟨fo, _, h | h⟩ := hs <;> rw [h] <;> exact ⟨rfl, rfl⟩

theorem filter_eq_nil_of_false {α : Type} (p : α → Bool) (l : List α)
    (h : ∀ x ∈ l, p x = false) : l.filter p = [] := by
  rw [List.filter_eq_nil_iff]
  intro x hx
  simp [h x hx]

theorem filter_eq_self_of_true {α : Type} (p : α → Bool) (l : List α)
    (h : ∀ x ∈ l, p x = true) : l.filter p = l := by
  rw [List.filter_eq_self]
  exact h

/-- The PFLAU calls of one NMEA_Export invocation. -/
theorem NMEA_Export_filter_PFLAU (P : Platform) (settings : Settings) (ThisAircraft : ufo_t)
    (this_moment : Int) (Container : List ufo_t) :
    (NMEA_Export_sentences P settings ThisAircraft this_moment Container).filter
        Sentence.isPFLAU
      = if settings.nmea_l then
          [PFLAU_of P ((Container.filter (isLive P this_moment)).length : Int)
            (NMEA_Export_scan P settings ThisAircraft this_moment Container).1]
        else [] := by
  have hcount : NMEA_Export_count P this_moment Container
      = ((Container.filter (isLive P this_moment)).length : Int) := by
    unfold NMEA_Export_count
    rw [NMEA_Export_count_eq]
    simp
  have hscan : (NMEA_Export_scan P settings ThisAircraft this_moment Container).2.filter
      Sentence.isPFLAU = [] := by
    unfold NMEA_Export_scan
    rw [scan_sentences]
    apply filter_eq_nil_of_false
    intro s hs
    simp only [List.nil_append] at hs
    exact (flatMap_perTarget P ThisAircraft _ s hs).2
  unfold NMEA_Export_sentences
  rw [List.filter_append, List.filter_append, hscan, hcount]
  by_cases hl : settings.nmea_l = true
  · simp [hl, PFLAU_of, MYSELF_of, Sentence.isPFLAU, List.filter_cons]
  · simp [hl, MYSELF_of, Sentence.isPFLAU, List.filter_cons]

/-- Claim C3, as amended. With traffic sentences enabled and ALARM_ZONE_NONE at
most 2147483647, and so below the initial HP_distance, let e be a live entry
closer than ALARM_ZONE_NONE that is strictly closer than every such entry before it in the
table and at least as close as every such entry after it.  Then the one PFLAU
call carries the alarm level of e, its bearing (rebased), its altitude
difference and its distance (truncated). -/
theorem NMEA_Export_priority_target (P : Platform) (settings : Settings)
    (ThisAircraft : ufo_t) (this_moment : Int) (pre post : List ufo_t) (e : ufo_t)
    (hl : settings.nmea_l = true) (hz : P.ALARM_ZONE_NONE ≤ 2147483647)
    (he : isLive P this_moment e = true) (hd : e.distance < P.ALARM_ZONE_NONE)
    (hpre : ∀ x ∈ pre, isLive P this_moment x = true → x.distance < P.ALARM_ZONE_NONE →
      e.distance < x.distance)
    (hpost : ∀ x ∈ post, isLive P this_moment x = true → x.distance < P.ALARM_ZONE_NONE →
      e.distance ≤ x.distance) :
    (NMEA_Export_sentences P settings ThisAircraft this_moment (pre ++ e :: post)).filter
        Sentence.isPFLAU
      = [Sentence.PFLAU (((pre ++ e :: post).filter (isLive P this_moment)).length : Int)
          P.TX_STATUS_ON P.GNSS_STATUS_3D_MOVING P.POWER_STATUS_GOOD e.alarm_level
          (if f2i e.bearing < 180 then f2i e.bearing else f2i e.bearing - 360)
          P.ALARM_TYPE_AIRCRAFT (f2i (P.fsub e.altitude ThisAircraft.altitude))
          (f2i e.distance)] := by
  have hsel := scan_select P settings ThisAircraft this_moment pre post e hl hz
    (by simp [isShown, he, hd])
    (fun x hx hs => by
      simp only [isShown, Bool.and_eq_true, decide_eq_true_eq] at hs
      exact hpre x hx hs.1 hs.2)
    (fun x hx hs => by
      simp only [isShown, Bool.and_eq_true, decide_eq_true_eq] at hs
      exact hpost x hx hs.1 hs.2)
  rw [NMEA_Export_filter_PFLAU, if_pos hl, hsel]
  rfl

/-- Claim C3, as amended, on a table of four live entries: the second and the
third tie at 1000 m, the fourth is beyond ALARM_ZONE_NONE. -/
theorem NMEA_Export_priority_target_witness :
    (NMEA_Export_sentences P0 S0 own0 100
        ([target0 10 3000 10 600 1] ++ target0 11 1000 90 600 2 ::
          [target0 12 1000 200 700 3, target0 13 20000 0 0 0])).filter Sentence.isPFLAU
      = [Sentence.PFLAU 4 1 2 1 2 90 2 100 1000] :=
  (NMEA_Export_priority_target P0 S0 own0 100 [target0 10 3000 10 600 1]
    [target0 12 1000 200 700 3, target0 13 20000 0 0 0] (target0 11 1000 90 600 2)
    rfl (by decide) (by decide) (by decide) (by decide) (by decide)).trans
    (by norm_num [P0, target0, own0, f2i, isLive])

/-- Claim C3 as stated fails: the only live entry, at 20000 m with alarm level
2, bearing 90 and 100 m above, has the minimum distance among the live entries,
yet PFLAU carries the default alarm level, bearing and altitude difference and
the conversion of the initial HP_distance, because the entry is not below
ALARM_ZONE_NONE. -/
theorem NMEA_Export_priority_counterexample :
    isLive P0 100 (target0 10 20000 90 600 2) = true
    ∧ (NMEA_Export_sentences P0 S0 own0 100 [target0 10 20000 90 600 2]).filter
        Sentence.isPFLAU
        = [Sentence.PFLAU 1 1 2 1 0 0 2 0 (f2i (HP_init P0).HP_distance)]
    ∧ (NMEA_Export_sentences P0 S0 own0 100 [target0 10 20000 90 600 2]).filter
        Sentence.isPFLAU ≠ [Sentence.PFLAU 1 1 2 1 2 90 2 100 20000] := by
  decide

theorem NMEA_calls_map_fst (P : Platform) (l : List Sentence) (buf : List Nat) :
    (NMEA_calls P buf l).map Prod.fst = l := by
  induction l generalizing buf with
  | nil => rfl
  | cons s rest ih => simp [NMEA_calls, ih]

theorem NMEA_emit_TCP (P : Platform) (settings : Settings) (net : Net)
    (hmode : settings.nmea_out = .NMEA_TCP) (acc : State × List Event) (s : Sentence) :
    NMEA_emit P settings net acc s
      = ({ acc.1 with NMEABuffer := NMEA_frame P acc.1.NMEABuffer s },
          acc.2 ++ NMEA_Out_TCP net (cstr (NMEA_frame P acc.1.NMEABuffer s)) false
            acc.1.NmeaTCP) := by
  unfold NMEA_emit NMEA_Out
  rw [hmode]

/-- In TCP mode the events of a series of sentences are those of the NMEA_Out
calls listed by NMEA_calls. -/
theorem NMEA_emit_foldl_TCP (P : Platform) (settings : Settings) (net : Net)
    (hmode : settings.nmea_out = .NMEA_TCP) (l : List Sentence) (acc : State × List Event) :
    (l.foldl (NMEA_emit P settings net) acc).2
      = acc.2 ++ (NMEA_calls P acc.1.NMEABuffer l).flatMap
          (fun x => NMEA_Out_TCP net x.2 false acc.1.NmeaTCP) := by
  induction l generalizing acc with
  | nil => simp [NMEA_calls]
  | cons s rest ih =>
    simp only [List.foldl_cons]
    rw [ih, NMEA_emit_TCP P settings net hmode]
    simp [NMEA_calls, List.flatMap_cons, List.append_assoc]

/-- In TCP mode the events of NMEA_Export are those of the NMEA_Out calls
listed by NMEA_Export_calls, in order. -/
theorem NMEA_Export_events_TCP (P : Platform) (settings : Settings) (net : Net)
    (hmode : settings.nmea_out = .NMEA_TCP) (ThisAircraft : ufo_t) (this_moment : Int)
    (Container : List ufo_t) (st : State) :
    (NMEA_Export P settings net ThisAircraft this_moment Container st).2
      = (NMEA_Export_calls P settings ThisAircraft this_moment Container st.NMEABuffer).flatMap
          (fun x => NMEA_Out_TCP net x.2 false st.NmeaTCP) := by
  unfold NMEA_Export NMEA_Export_calls
  rw [NMEA_emit_foldl_TCP P settings net hmode]
  rfl

/-- With traffic sentences enabled the list NMEA_Export_calls has exactly one
entry of the PFLAU format, and no PFLAA or TRAFFIC entry after it. -/
theorem NMEA_Export_calls_one_PFLAU (P : Platform) (settings : Settings) (ThisAircraft : ufo_t)
    (this_moment : Int) (Container : List ufo_t) (NMEABuffer : List Nat)
    (hl : settings.nmea_l = true) :
    ((NMEA_Export_calls P settings ThisAircraft this_moment Container NMEABuffer).filter
        (fun x => x.1.isPFLAU)).length = 1
    ∧ ∃ before p after,
        NMEA_Export_calls P settings ThisAircraft this_moment Container NMEABuffer
          = before ++ p :: after
        ∧ p.1.isPFLAU = true
        ∧ (∀ x ∈ before, x.1.isPFLAU = false)
        ∧ (∀ x ∈ after, x.1.isPFLAU = false ∧ x.1.isPerTarget = false) := by
  have hmap := NMEA_calls_map_fst P
    (NMEA_Export_sentences P settings ThisAircraft this_moment Container) NMEABuffer
  have hsent : NMEA_Export_sentences P settings ThisAircraft this_moment Container
      = (NMEA_Export_scan P settings ThisAircraft this_moment Container).2
        ++ (PFLAU_of P (NMEA_Export_count P this_moment Container)
            (NMEA_Export_scan P settings ThisAircraft this_moment Container).1
          :: [MYSELF_of P ThisAircraft]) := by
    unfold NMEA_Export_sentences
    rw [if_pos hl]
    simp
  have hscan : ∀ s ∈ (NMEA_Export_scan P settings ThisAircraft this_moment Container).2,
      s.isPFLAU = false := by
    intro s hs
    unfold NMEA_Export_scan at hs
    rw [scan_sentences] at hs
    simp only [List.nil_append] at hs
    exact (flatMap_perTarget P ThisAircraft _ s hs).2
  refine ⟨?_, ?_⟩
  · have hlen : ((NMEA_Export_calls P settings ThisAircraft this_moment Container
        NMEABuffer).filter (fun x => x.1.isPFLAU)).length
        = (((NMEA_Export_calls P settings ThisAircraft this_moment Container
            NMEABuffer).map Prod.fst).filter Sentence.isPFLAU).length := by
      rw [List.filter_map, List.length_map]
      rfl
    unfold NMEA_Export_calls at hlen ⊢
    rw [hlen, hmap, NMEA_Export_filter_PFLAU, if_pos hl]
    rfl
  · unfold NMEA_Export_calls
    rw [hsent] at hmap
    obtain ⟨l1, l2, hcalls, h1, h2⟩ := List.map_eq_append_iff.mp hmap
    obtain ⟨p, l3, hl2, hp, h3⟩ := List.map_eq_cons_iff.mp h2
    refine ⟨l1, p, l3, ?_, ?_, ?_, ?_⟩
    · rw [hsent, hcalls, hl2]
    · rw [hp]; rfl
    · intro x hx
      apply hscan
      rw [← h1]
      exact List.mem_map_of_mem _ hx
    · intro x hx
      have hm : x.1 ∈ [MYSELF_of P ThisAircraft] := by
        rw [← h3]
        exact List.mem_map_of_mem _ hx
      rw [List.mem_singleton] at hm
      rw [hm]
      exact ⟨rfl, rfl⟩

theorem scan_filter_live (P : Platform) (settings : Settings) (ThisAircraft : ufo_t)
    (this_moment : Int) (l : List ufo_t) (acc : HighPriority × List Sentence) :
    (l.filter (isLive P this_moment)).foldl
        (NMEA_Export_step P settings ThisAircraft this_moment) acc
      = l.foldl (NMEA_Export_step P settings ThisAircraft this_moment) acc := by
  induction l generalizing acc with
  | nil => rfl
  | cons x xs ih =>
    by_cases hx : isLive P this_moment x = true
    · rw [List.filter_cons_of_pos hx]
      simp only [List.foldl_cons]
      exact ih _
    · rw [List.filter_cons_of_neg hx]
      simp only [List.foldl_cons]
      have hstep : NMEA_Export_step P settings ThisAircraft this_moment acc x = acc := by
        unfold NMEA_Export_step
        rw [if_neg hx]
      rw [hstep]
      exact ih _

/-- Claim C5. For every table and time: total_objects is the number of entries
with a non-zero address and this_moment - timestamp at most
EXPORT_EXPIRATION_TIME, and it is the first field of the PFLAU call; the PFLAA
and TRAFFIC calls are exactly those of the live entries (those closer than
ALARM_ZONE_NONE, when traffic sentences are enabled), in table order, so none
is made for an entry with a zero address or an expired timestamp; and the
calls are the same as on the table with those entries removed. -/
theorem NMEA_Export_expiration (P : Platform) (settings : Settings) (ThisAircraft : ufo_t)
    (this_moment : Int) (Container : List ufo_t) :
    NMEA_Export_count P this_moment Container
      = ((Container.filter (fun fo => fo.addr != 0
          && decide (this_moment - fo.timestamp ≤ P.EXPORT_EXPIRATION_TIME))).length : Int)
    ∧ (NMEA_Export_sentences P settings ThisAircraft this_moment Container).filter
        Sentence.isPFLAU
      = (if settings.nmea_l then
          [PFLAU_of P ((Container.filter (fun fo => fo.addr != 0
              && decide (this_moment - fo.timestamp ≤ P.EXPORT_EXPIRATION_TIME))).length : Int)
            (NMEA_Export_scan P settings ThisAircraft this_moment Container).1]
        else [])
    ∧ (NMEA_Export_sentences P settings ThisAircraft this_moment Container).filter
        Sentence.isPerTarget
      = ((Container.filter (fun fo => fo.addr != 0
            && decide (this_moment - fo.timestamp ≤ P.EXPORT_EXPIRATION_TIME))).filter
          (fun fo => settings.nmea_l && decide (fo.distance < P.ALARM_ZONE_NONE))).flatMap
          (fun fo => [PFLAA_of P ThisAircraft fo, TRAFFIC_of P fo])
    ∧ NMEA_Export_sentences P settings ThisAircraft this_moment
        (Container.filter (fun fo => fo.addr != 0
          && decide (this_moment - fo.timestamp ≤ P.EXPORT_EXPIRATION_TIME)))
      = NMEA_Export_sentences P settings ThisAircraft this_moment Container := by
  have hlive : (fun fo : ufo_t => fo.addr != 0
      && decide (this_moment - fo.timestamp ≤ P.EXPORT_EXPIRATION_TIME))
      = isLive P this_moment := rfl
  rw [hlive]
  have hcount : ∀ l : List ufo_t, NMEA_Export_count P this_moment l
      = ((l.filter (isLive P this_moment)).length : Int) := by
    intro l
    unfold NMEA_Export_count
    rw [NMEA_Export_count_eq]
    simp
  refine ⟨hcount Container, NMEA_Export_filter_PFLAU P settings ThisAircraft this_moment
    Container, ?_, ?_⟩
  · have hscan : (NMEA_Export_scan P settings ThisAircraft this_moment Container).2.filter
        Sentence.isPerTarget
        = (NMEA_Export_scan P settings ThisAircraft this_moment Container).2 := by
      apply filter_eq_self_of_true
      intro s hs
      unfold NMEA_Export_scan at hs
      rw [scan_sentences] at hs
      simp only [List.nil_append] at hs
      exact (flatMap_perTarget P ThisAircraft _ s hs).1
    have hrest : ((if settings.nmea_l then
          [PFLAU_of P (NMEA_Export_count P this_moment Container)
            (NMEA_Export_scan P settings ThisAircraft this_moment Container).1]
        else []) ++ [MYSELF_of P ThisAircraft]).filter Sentence.isPerTarget = [] := by
      apply filter_eq_nil_of_false
      intro s hs
      by_cases hl : settings.nmea_l = true
      · simp only [hl, if_true, List.cons_append, List.nil_append, List.mem_cons,
          List.mem_singleton, List.not_mem_nil, or_false] at hs
        rcases hs with h | h <;> rw [h] <;> rfl
      · rw [if_neg hl, List.nil_append, List.mem_singleton] at hs
        rw [hs]; rfl
    unfold NMEA_Export_sentences
    rw [List.append_assoc, List.filter_append, hrest, hscan, List.append_nil]
    unfold NMEA_Export_scan
    rw [scan_sentences, List.nil_append, List.filter_filter]
    congr 1
    apply List.filter_congr
    intro x _
    unfold isShown
    cases settings.nmea_l <;> cases isLive P this_moment x <;> simp
  · unfold NMEA_Export_sentences
    have h1 : NMEA_Export_scan P settings ThisAircraft this_moment
        (Container.filter (isLive P this_moment))
        = NMEA_Export_scan P settings ThisAircraft this_moment Container := by
      unfold NMEA_Export_scan
      exact scan_filter_live P settings ThisAircraft this_moment Container _
    have h2 : NMEA_Export_count P this_moment (Container.filter (isLive P this_moment))
        = NMEA_Export_count P this_moment Container := by
      rw [hcount, hcount, List.filter_filter]
      simp
    rw [h1, h2]

/-- Claim C6. When the priority target is the entry e (ranked as in claim C3)
and its bearing b, as an int, satisfies 0 ≤ b < 360, the bearing field of the
PFLAU call is b when b < 180 and b - 360 otherwise; it lies in [-180, 180) and
differs from b by a multiple of 360. -/
theorem NMEA_Export_bearing_rebase (P : Platform) (settings : Settings)
    (ThisAircraft : ufo_t) (this_moment : Int) (pre post : List ufo_t) (e : ufo_t)
    (hl : settings.nmea_l = true) (hz : P.ALARM_ZONE_NONE ≤ 2147483647)
    (he : isLive P this_moment e = true) (hd : e.distance < P.ALARM_ZONE_NONE)
    (hpre : ∀ x ∈ pre, isLive P this_moment x = true → x.distance < P.ALARM_ZONE_NONE →
      e.distance < x.distance)
    (hpost : ∀ x ∈ post, isLive P this_moment x = true → x.distance < P.ALARM_ZONE_NONE →
      e.distance ≤ x.distance)
    (hb0 : 0 ≤ f2i e.bearing) (hb1 : f2i e.bearing < 360) :
    ((NMEA_Export_sentences P settings ThisAircraft this_moment (pre ++ e :: post)).filter
        Sentence.isPFLAU).map Sentence.bearingField
      = [some (if f2i e.bearing < 180 then f2i e.bearing else f2i e.bearing - 360)]
    ∧ -180 ≤ (if f2i e.bearing < 180 then f2i e.bearing else f2i e.bearing - 360)
    ∧ (if f2i e.bearing < 180 then f2i e.bearing else f2i e.bearing - 360) < 180
    ∧ ((if f2i e.bearing < 180 then f2i e.bearing else f2i e.bearing - 360)
        - f2i e.bearing) % 360 = 0 := by
  have hsel := scan_select P settings ThisAircraft this_moment pre post e hl hz
    (by simp [isShown, he, hd])
    (fun x hx hs => by
      simp only [isShown, Bool.and_eq_true, decide_eq_true_eq] at hs
      exact hpre x hx hs.1 hs.2)
    (fun x hx hs => by
      simp only [isShown, Bool.and_eq_true, decide_eq_true_eq] at hs
      exact hpost x hx hs.1 hs.2)
  refine ⟨?_, ?_, ?_, ?_⟩
  · rw [NMEA_Export_filter_PFLAU, if_pos hl, hsel]
    rfl
  · split <;> omega
  · split <;> omega
  · split <;> omega

/-- Claim C6 at the bearings 0, 90, 180 and 359, which give 0, 90, -180 and -1. -/
theorem NMEA_Export_bearing_rebase_witness :
    ((NMEA_Export_sentences P0 S0 own0 100 ([] ++ target0 11 1000 0 600 2 :: [])).filter
        Sentence.isPFLAU).map Sentence.bearingField = [some 0]
    ∧ ((NMEA_Export_sentences P0 S0 own0 100 ([] ++ target0 11 1000 90 600 2 :: [])).filter
        Sentence.isPFLAU).map Sentence.bearingField = [some 90]
    ∧ ((NMEA_Export_sentences P0 S0 own0 100 ([] ++ target0 11 1000 180 600 2 :: [])).filter
        Sentence.isPFLAU).map Sentence.bearingField = [some (-180)]
    ∧ ((NMEA_Export_sentences P0 S0 own0 100 ([] ++ target0 11 1000 359 600 2 :: [])).filter
        Sentence.isPFLAU).map Sentence.bearingField = [some (-1)] :=
  ⟨(NMEA_Export_bearing_rebase P0 S0 own0 100 [] [] (target0 11 1000 0 600 2)
      rfl (by decide) (by decide) (by decide) (by decide) (by decide)
      (by decide) (by decide)).1.trans (by decide),
   (NMEA_Export_bearing_rebase P0 S0 own0 100 [] [] (target0 11 1000 90 600 2)
      rfl (by decide) (by decide) (by decide) (by decide) (by decide)
      (by decide) (by decide)).1.trans (by decide),
   (NMEA_Export_bearing_rebase P0 S0 own0 100 [] [] (target0 11 1000 180 600 2)
      rfl (by decide) (by decide) (by decide) (by decide) (by decide)
      (by decide) (by decide)).1.trans (by decide),
   (NMEA_Export_bearing_rebase P0 S0 own0 100 [] [] (target0 11 1000 359 600 2)
      rfl (by decide) (by decide) (by decide) (by decide) (by decide)
      (by decide) (by decide)).1.trans (by decide)⟩

/-! ## The TCP client slots: one NMEA_loop call -/

theorem NMEA_Out_slots (P : Platform) (settings : Settings) (net : Net) (st : State)
    (buf : List Nat) (nl : Bool) :
    (NMEA_Out P settings net st buf nl).1.NmeaTCP = st.NmeaTCP
    ∧ (NMEA_Out P settings net st buf nl).1.NmeaTCPServer = st.NmeaTCPServer := by
  unfold NMEA_Out
  cases settings.nmea_out <;> exact ⟨rfl, rfl⟩

theorem NMEA_emit_slots (P : Platform) (settings : Settings) (net : Net)
    (acc : State × List Event) (s : Sentence) :
    (NMEA_emit P settings net acc s).1.NmeaTCP = acc.1.NmeaTCP
    ∧ (NMEA_emit P settings net acc s).1.NmeaTCPServer = acc.1.NmeaTCPServer := by
  unfold NMEA_emit
  exact NMEA_Out_slots P settings net _ _ _

theorem NMEA_loop_PGRMZ_slots (P : Platform) (settings : Settings) (inp : LoopInput)
    (st : State) :
    (NMEA_loop_PGRMZ P settings inp st).1.NmeaTCP = st.NmeaTCP
    ∧ (NMEA_loop_PGRMZ P settings inp st).1.NmeaTCPServer = st.NmeaTCPServer := by
  unfold NMEA_loop_PGRMZ
  split
  · exact NMEA_emit_slots P settings inp.net (st, []) _
  · exact ⟨rfl, rfl⟩

theorem NMEA_loop_accept_none (net : Net) (now : Int) (c : Nat) (slots : List NmeaTCP_t)
    (hall : ∀ s ∈ slots, slotBusy net s = true) :
    NMEA_loop_accept net now c slots = none := by
  induction slots with
  | nil => rfl
  | cons t rest ih =>
    have ht : slotBusy net t = true := hall t (List.mem_cons_self _ _)
    have hf : ¬ (!clientBool net t.client || !clientConnected net t.client) = true := by
      unfold slotBusy at ht
      cases h1 : clientBool net t.client <;> cases h2 : clientConnected net t.client <;>
        simp [h1, h2] at ht ⊢
    unfold NMEA_loop_accept
    rw [if_neg hf, ih (fun s hs => hall s (List.mem_cons_of_mem _ hs))]

/-- A slot that holds a live connection is not touched by the search. -/
theorem NMEA_loop_accept_busy (net : Net) (now : Int) (c : Nat) (slots slots1 : List NmeaTCP_t)
    (ev : List Event) (h : NMEA_loop_accept net now c slots = some (slots1, ev))
    (i : Nat) (s : NmeaTCP_t) (hi : slots[i]? = some s) (hbusy : slotBusy net s = true) :
    slots1[i]? = some s := by
  induction slots generalizing i slots1 ev with
  | nil => simp at hi
  | cons t rest ih =>
    unfold NMEA_loop_accept at h
    by_cases hf : (!clientBool net t.client || !clientConnected net t.client) = true
    · rw [if_pos hf] at h
      simp only [Option.some.injEq, Prod.mk.injEq] at h
      cases i with
      | zero =>
        simp only [List.getElem?_cons_zero, Option.some.injEq] at hi
        subst hi
        unfold slotBusy at hbusy
        cases h1 : clientBool net t.client <;> cases h2 : clientConnected net t.client <;>
          simp [h1, h2] at hbusy hf
      | succ k =>
        rw [← h.1]
        simpa using hi
    · rw [if_neg hf] at h
      cases hrec : NMEA_loop_accept net now c rest with
      | none => rw [hrec] at h; simp at h
      | some r =>
        obtain ⟨r1, r2⟩ := r
        rw [hrec] at h
        simp only [Option.some.injEq, Prod.mk.injEq] at h
        rw [← h.1]
        cases i with
        | zero => simpa using hi
        | succ k =>
          simp only [List.getElem?_cons_succ] at hi ⊢
          exact ih r1 r2 hrec k hi

theorem NMEA_loop_ack_slots (P : Platform) (net : Net) (now : Int) (slots : List NmeaTCP_t) :
    (NMEA_loop_ack P net now slots).1 = slots.map (ackSlot P net now) := by
  induction slots with
  | nil => rfl
  | cons s rest ih =>
    unfold NMEA_loop_ack
    by_cases hd : ackDue P net now s = true
    · have hd2 := hd
      unfold ackDue at hd2
      rw [if_pos hd2]
      cases hc : s.client with
      | none =>
        unfold ackDue at hd
        rw [hc] at hd
        simp [clientBool] at hd
      | some c =>
        simp only [List.map_cons, ih]
        unfold ackSlot
        rw [if_pos hd, hc]
    · have hd2 := hd
      unfold ackDue at hd2
      rw [if_neg hd2]
      simp only [List.map_cons, ih]
      unfold ackSlot
      rw [if_neg hd]

theorem ackSlot_client_ts (P : Platform) (net : Net) (now : Int) (s : NmeaTCP_t) :
    (ackSlot P net now s).client = s.client
    ∧ (ackSlot P net now s).connect_ts = s.connect_ts := by
  unfold ackSlot
  split <;> exact ⟨rfl, rfl⟩

theorem NMEA_Out_TCP_writes (net : Net) (buf : List Nat) (nl : Bool) (slots : List NmeaTCP_t) :
    ∀ e ∈ NMEA_Out_TCP net buf nl slots, ∃ s ∈ slots, ∃ c d,
      s.client = some c ∧ s.ack = true ∧ net.truthy c = true ∧ net.connected c = true
      ∧ e = Event.client_write c d := by
  induction slots with
  | nil => intro e he; simp [NMEA_Out_TCP] at he
  | cons s rest ih =>
    intro e he
    unfold NMEA_Out_TCP at he
    rw [List.mem_append] at he
    rcases he with he | he
    · cases hc : s.client with
      | none => rw [hc] at he; simp at he
      | some c =>
        rw [hc] at he
        by_cases h1 : (net.truthy c && net.connected c) = true
        · by_cases h2 : s.ack = true
          · simp only [h1, h2, if_true] at he
            have h3 : net.truthy c = true ∧ net.connected c = true := by
              simpa using h1
            cases nl with
            | true =>
              simp only [if_true, List.mem_cons, List.mem_singleton, List.not_mem_nil,
                or_false] at he
              rcases he with he | he
              · exact ⟨s, List.mem_cons_self _ _, c, buf, hc, h2, h3.1, h3.2, he⟩
              · exact ⟨s, List.mem_cons_self _ _, c, [10], hc, h2, h3.1, h3.2, he⟩
            | false =>
              simp only [Bool.false_eq_true, if_false, List.mem_singleton] at he
              exact ⟨s, List.mem_cons_self _ _, c, buf, hc, h2, h3.1, h3.2, he⟩
          · simp [h1, h2] at he
        · simp [h1] at he
    · obtain ⟨t, ht, hrest⟩ := ih e he
      exact ⟨t, List.mem_cons_of_mem _ ht, hrest⟩

/-- In TCP mode every event of the PGRMZ part is a write to a client. -/
theorem NMEA_loop_PGRMZ_writes (P : Platform) (settings : Settings) (inp : LoopInput)
    (st : State) (hmode : settings.nmea_out = .NMEA_TCP) :
    ∀ e ∈ (NMEA_loop_PGRMZ P settings inp st).2, ∃ s ∈ st.NmeaTCP, ∃ c d,
      s.client = some c ∧ s.ack = true ∧ inp.net.truthy c = true
      ∧ inp.net.connected c = true ∧ e = Event.client_write c d := by
  intro e he
  unfold NMEA_loop_PGRMZ at he
  split at he
  · unfold NMEA_emit NMEA_Out at he
    rw [hmode] at he
    simp only [List.nil_append] at he
    exact NMEA_Out_TCP_writes inp.net _ _ _ e he
  · simp at he

theorem NMEA_loop_drain_reads (c : Nat) (rx : List Nat) :
    ∀ e ∈ NMEA_loop_drain c rx, ∃ b, e = Event.client_read c b := by
  induction rx with
  | nil => intro e he; simp [NMEA_loop_drain] at he
  | cons b rest ih =>
    intro e he
    unfold NMEA_loop_drain at he
    rw [List.mem_cons] at he
    rcases he with he | he
    · exact ⟨b, he⟩
    · exact ih e he

/-- Every event of the acknowledge loop is a read from, or AOK printed to, the
client of a slot that was due. -/
theorem NMEA_loop_ack_events (P : Platform) (net : Net) (now : Int) (slots : List NmeaTCP_t) :
    ∀ e ∈ (NMEA_loop_ack P net now slots).2, ∃ s ∈ slots, ∃ c,
      s.client = some c ∧ ackDue P net now s = true
      ∧ ((∃ b, e = Event.client_read c b) ∨ e = Event.client_print c AOK) := by
  induction slots with
  | nil => intro e he; simp [NMEA_loop_ack] at he
  | cons s rest ih =>
    intro e he
    unfold NMEA_loop_ack at he
    by_cases hd : ackDue P net now s = true
    · have hd2 := hd
      unfold ackDue at hd2
      rw [if_pos hd2] at he
      cases hc : s.client with
      | none =>
        unfold ackDue at hd
        rw [hc] at hd
        simp [clientBool] at hd
      | some c =>
        have he2 : e ∈ NMEA_loop_drain c (net.rx c) ++ [Event.client_print c AOK]
            ++ (NMEA_loop_ack P net now rest).2 := by
          revert he
          rw [hc]
          exact fun h => h
        rw [List.mem_append, List.mem_append, List.mem_singleton] at he2
        rcases he2 with (he2 | he2) | he2
        · exact ⟨s, List.mem_cons_self _ _, c, hc, hd,
            Or.inl (NMEA_loop_drain_reads c _ e he2)⟩
        · exact ⟨s, List.mem_cons_self _ _, c, hc, hd, Or.inr he2⟩
        · obtain ⟨t, ht, hrest⟩ := ih e he2
          exact ⟨t, List.mem_cons_of_mem _ ht, hrest⟩
    · have hd2 := hd
      unfold ackDue at hd2
      rw [if_neg hd2] at he
      obtain ⟨t, ht, hrest⟩ := ih e he
      exact ⟨t, List.mem_cons_of_mem _ ht, hrest⟩

theorem PASS_ne_AOK : PASS ≠ AOK := by decide

/-- Unfolding of NMEA_loop in TCP mode with a pending client and a free slot. -/
theorem NMEA_loop_eq_accept (P : Platform) (settings : Settings) (inp : LoopInput) (st : State)
    (hmode : settings.nmea_out = .NMEA_TCP) (hc : inp.hasClient = true)
    (slots1 : List NmeaTCP_t) (ev : List Event)
    (h : NMEA_loop_accept inp.net inp.now st.NmeaTCPServer st.NmeaTCP = some (slots1, ev)) :
    (NMEA_loop P settings inp st).1.NmeaTCP = slots1.map (ackSlot P inp.net inp.now)
    ∧ (NMEA_loop P settings inp st).1.NmeaTCPServer = st.NmeaTCPServer + 1
    ∧ (NMEA_loop P settings inp st).2
        = (NMEA_loop_PGRMZ P settings inp st).2
          ++ (ev ++ (NMEA_loop_ack P inp.net inp.now slots1).2) := by
  have hs := NMEA_loop_PGRMZ_slots P settings inp st
  unfold NMEA_loop NMEA_loop_TCP
  simp only [hmode, if_true, hc, hs.1, hs.2, h, NMEA_loop_ack_slots]
  exact ⟨trivial, trivial, trivial⟩

/-- Unfolding of NMEA_loop in TCP mode with a pending client and no free slot. -/
theorem NMEA_loop_eq_reject (P : Platform) (settings : Settings) (inp : LoopInput) (st : State)
    (hmode : settings.nmea_out = .NMEA_TCP) (hc : inp.hasClient = true)
    (h : NMEA_loop_accept inp.net inp.now st.NmeaTCPServer st.NmeaTCP = none) :
    (NMEA_loop P settings inp st).1.NmeaTCP = st.NmeaTCP.map (ackSlot P inp.net inp.now)
    ∧ (NMEA_loop P settings inp st).1.NmeaTCPServer = st.NmeaTCPServer + 1
    ∧ (NMEA_loop P settings inp st).2
        = (NMEA_loop_PGRMZ P settings inp st).2
          ++ ([Event.client_stop st.NmeaTCPServer]
            ++ (NMEA_loop_ack P inp.net inp.now st.NmeaTCP).2) := by
  have hs := NMEA_loop_PGRMZ_slots P settings inp st
  unfold NMEA_loop NMEA_loop_TCP
  simp only [hmode, if_true, hc, hs.1, hs.2, h, NMEA_loop_ack_slots]
  exact ⟨trivial, trivial, trivial⟩

/-- Unfolding of NMEA_loop in TCP mode with no pending client. -/
theorem NMEA_loop_eq_idle (P : Platform) (settings : Settings) (inp : LoopInput) (st : State)
    (hmode : settings.nmea_out = .NMEA_TCP) (hc : inp.hasClient = false) :
    (NMEA_loop P settings inp st).1.NmeaTCP = st.NmeaTCP.map (ackSlot P inp.net inp.now)
    ∧ (NMEA_loop P settings inp st).1.NmeaTCPServer = st.NmeaTCPServer
    ∧ (NMEA_loop P settings inp st).2
        = (NMEA_loop_PGRMZ P settings inp st).2
          ++ ([] ++ (NMEA_loop_ack P inp.net inp.now st.NmeaTCP).2) := by
  have hs := NMEA_loop_PGRMZ_slots P settings inp st
  unfold NMEA_loop NMEA_loop_TCP
  simp only [hmode, if_true, hc, hs.1, hs.2, NMEA_loop_ack_slots, Bool.false_eq_true,
    if_false, List.nil_append]
  exact ⟨trivial, trivial, trivial⟩

/-- Claim C10. In TCP mode, when a client is pending and every slot holds a
live connection, one NMEA_loop call stops the new connection, prints PASS? to
no client, and keeps the client and connect_ts of every slot. -/
theorem NMEA_loop_rejects_when_full (P : Platform) (settings : Settings) (inp : LoopInput)
    (st : State) (hmode : settings.nmea_out = .NMEA_TCP) (hc : inp.hasClient = true)
    (hall : ∀ s ∈ st.NmeaTCP,
      (clientBool inp.net s.client && clientConnected inp.net s.client) = true) :
    Event.client_stop st.NmeaTCPServer ∈ (NMEA_loop P settings inp st).2
    ∧ (∀ c, Event.client_print c PASS ∉ (NMEA_loop P settings inp st).2)
    ∧ (NMEA_loop P settings inp st).1.NmeaTCP.map (fun s => (s.client, s.connect_ts))
        = st.NmeaTCP.map (fun s => (s.client, s.connect_ts)) := by
  have hnone := NMEA_loop_accept_none inp.net inp.now st.NmeaTCPServer st.NmeaTCP hall
  obtain ⟨h1, _, h3⟩ := NMEA_loop_eq_reject P settings inp st hmode hc hnone
  refine ⟨?_, ?_, ?_⟩
  · rw [h3]
    exact List.mem_append_right _ (List.mem_append_left _ (List.mem_singleton.mpr rfl))
  · intro c hmem
    rw [h3, List.mem_append, List.mem_append, List.mem_singleton] at hmem
    rcases hmem with hmem | hmem | hmem
    · obtain ⟨_, _, _, _, _, _, _, _, he⟩ :=
        NMEA_loop_PGRMZ_writes P settings inp st hmode _ hmem
      cases he
    · cases hmem
    · obtain ⟨_, _, _, _, _, he⟩ := NMEA_loop_ack_events P inp.net inp.now _ _ hmem
      rcases he with ⟨_, he⟩ | he
      · cases he
      · simp only [Event.client_print.injEq] at he
        exact PASS_ne_AOK he.2
  · rw [h1, List.map_map]
    apply List.map_congr_left
    intro s _
    simp only [Function.comp_apply, (ackSlot_client_ts P inp.net inp.now s).1,
      (ackSlot_client_ts P inp.net inp.now s).2]

/-- Claim C10 on two slots that both hold live connections. -/
theorem NMEA_loop_rejects_when_full_witness :
    Event.client_stop 2 ∈ (NMEA_loop P0 S0 (loop0 50 true [])
        (state0 [{ client := some 0, connect_ts := 10, ack := true },
                 { client := some 1, connect_ts := 49, ack := false }] 2)).2 :=
  (NMEA_loop_rejects_when_full P0 S0 (loop0 50 true [])
    (state0 [{ client := some 0, connect_ts := 10, ack := true },
             { client := some 1, connect_ts := 49, ack := false }] 2)
    rfl rfl (by decide)).1

/-- The acknowledge loop empties the input of a due slot and then prints AOK. -/
theorem NMEA_loop_ack_events_at (P : Platform) (net : Net) (now : Int)
    (slots : List NmeaTCP_t) (i : Nat) (s : NmeaTCP_t) (c : Nat)
    (hi : slots[i]? = some s) (hc : s.client = some c) (hd : ackDue P net now s = true) :
    ∃ before after, (NMEA_loop_ack P net now slots).2
      = before ++ (NMEA_loop_drain c (net.rx c) ++ [Event.client_print c AOK]) ++ after := by
  induction slots generalizing i with
  | nil => simp at hi
  | cons t rest ih =>
    cases i with
    | zero =>
      simp only [List.getElem?_cons_zero, Option.some.injEq] at hi
      subst hi
      have hd2 := hd
      unfold ackDue at hd2
      refine ⟨[], (NMEA_loop_ack P net now rest).2, ?_⟩
      rw [NMEA_loop_ack, if_pos hd2, hc]
      simp
    | succ k =>
      simp only [List.getElem?_cons_succ] at hi
      obtain ⟨b, a, hba⟩ := ih k hi
      rw [NMEA_loop_ack]
      by_cases hdt : ackDue P net now t = true
      · have hd2 := hdt
        unfold ackDue at hd2
        rw [if_pos hd2]
        cases hct : t.client with
        | none =>
          unfold ackDue at hdt
          rw [hct] at hdt
          simp [clientBool] at hdt
        | some d =>
          refine ⟨NMEA_loop_drain d (net.rx d) ++ [Event.client_print d AOK] ++ b, a, ?_⟩
          simp only [hba, List.append_assoc]
      · have hd2 := hdt
        unfold ackDue at hd2
        rw [if_neg hd2]
        exact ⟨b, a, hba⟩

theorem NMEA_Out_TCP_rx (net : Net) (rx : Nat → List Nat) (buf : List Nat) (nl : Bool)
    (slots : List NmeaTCP_t) :
    NMEA_Out_TCP { net with rx := rx } buf nl slots = NMEA_Out_TCP net buf nl slots := by
  induction slots with
  | nil => rfl
  | cons s rest ih =>
    unfold NMEA_Out_TCP
    rw [ih]

theorem NMEA_Out_rx (P : Platform) (settings : Settings) (net : Net) (rx : Nat → List Nat)
    (st : State) (buf : List Nat) (nl : Bool) :
    NMEA_Out P settings { net with rx := rx } st buf nl = NMEA_Out P settings net st buf nl := by
  unfold NMEA_Out
  rw [NMEA_Out_TCP_rx]

theorem NMEA_loop_PGRMZ_rx (P : Platform) (settings : Settings) (inp : LoopInput)
    (rx : Nat → List Nat) (st : State) :
    NMEA_loop_PGRMZ P settings { inp with net := { inp.net with rx := rx } } st
      = NMEA_loop_PGRMZ P settings inp st := by
  unfold NMEA_loop_PGRMZ NMEA_emit
  simp only [NMEA_Out_rx]

theorem clientBool_rx (net : Net) (rx : Nat → List Nat) (x : Option Nat) :
    clientBool { net with rx := rx } x = clientBool net x
    ∧ clientConnected { net with rx := rx } x = clientConnected net x := by
  cases x <;> exact ⟨rfl, rfl⟩

theorem NMEA_loop_accept_rx (net : Net) (rx : Nat → List Nat) (now : Int) (c : Nat)
    (slots : List NmeaTCP_t) :
    NMEA_loop_accept { net with rx := rx } now c slots = NMEA_loop_accept net now c slots := by
  induction slots with
  | nil => rfl
  | cons s rest ih =>
    unfold NMEA_loop_accept
    rw [ih, (clientBool_rx net rx s.client).1, (clientBool_rx net rx s.client).2]

theorem ackDue_rx (P : Platform) (net : Net) (rx : Nat → List Nat) (now : Int)
    (s : NmeaTCP_t) :
    ackDue P { net with rx := rx } now s = ackDue P net now s := by
  unfold ackDue
  rw [(clientBool_rx net rx s.client).1, (clientBool_rx net rx s.client).2]

theorem NMEA_loop_drain_filter (c : Nat) (rx : List Nat) :
    (NMEA_loop_drain c rx).filter (fun e => !e.isRead) = [] := by
  apply filter_eq_nil_of_false
  intro e he
  obtain ⟨b, hb⟩ := NMEA_loop_drain_reads c rx e he
  rw [hb]
  rfl

/-- Apart from the reads themselves, the acknowledge loop does not depend on
what the clients have sent. -/
theorem NMEA_loop_ack_rx (P : Platform) (net : Net) (rx : Nat → List Nat) (now : Int)
    (slots : List NmeaTCP_t) :
    (NMEA_loop_ack P { net with rx := rx } now slots).1 = (NMEA_loop_ack P net now slots).1
    ∧ (NMEA_loop_ack P { net with rx := rx } now slots).2.filter (fun e => !e.isRead)
        = (NMEA_loop_ack P net now slots).2.filter (fun e => !e.isRead) := by
  refine ⟨?_, ?_⟩
  · rw [NMEA_loop_ack_slots, NMEA_loop_ack_slots]
    apply List.map_congr_left
    intro s _
    unfold ackSlot
    rw [ackDue_rx]
  · induction slots with
    | nil => rfl
    | cons s rest ih =>
      have hdrx := ackDue_rx P net rx now s
      unfold NMEA_loop_ack
      by_cases hd : ackDue P net now s = true
      · have hd2 := hd
        unfold ackDue at hd2
        have hd3 := hdrx.trans hd
        unfold ackDue at hd3
        rw [if_pos hd2, if_pos hd3]
        cases hc : s.client with
        | none => simp only [ih]
        | some c =>
          simp only [List.filter_append, NMEA_loop_drain_filter, ih]
      · have hd2 := hd
        unfold ackDue at hd2
        have hd3 : ¬ ackDue P { net with rx := rx } now s = true := by rw [hdrx]; exact hd
        unfold ackDue at hd3
        rw [if_neg hd2, if_neg hd3]
        exact ih

theorem NMEA_loop_TCP_rx (P : Platform) (settings : Settings) (inp : LoopInput)
    (rx : Nat → List Nat) (st : State) :
    (NMEA_loop_TCP P settings { inp with net := { inp.net with rx := rx } } st).1
      = (NMEA_loop_TCP P settings inp st).1
    ∧ (NMEA_loop_TCP P settings { inp with net := { inp.net with rx := rx } } st).2.filter
        (fun e => !e.isRead)
      = (NMEA_loop_TCP P settings inp st).2.filter (fun e => !e.isRead) := by
  unfold NMEA_loop_TCP
  by_cases hmode : settings.nmea_out = .NMEA_TCP
  · simp only [hmode, if_true, NMEA_loop_accept_rx, List.filter_append]
    exact ⟨by rw [(NMEA_loop_ack_rx P inp.net rx inp.now _).1],
      by rw [(NMEA_loop_ack_rx P inp.net rx inp.now _).2]⟩
  · simp only [hmode, if_false]
    exact ⟨trivial, trivial⟩

/-- Claim C8, as amended. In TCP mode, a slot that holds a live connection c,
is not acknowledged, has a connect_ts above 0 and now - connect_ts at least
NMEATCP_ACK_TIMEOUT, is acknowledged by one NMEA_loop call: its ack flag is
set, its client and connect_ts are kept, and the events contain the reads of
all bytes c had sent followed by AOK printed to c.  The state after the call
and every event other than the reads are the same whatever the clients had
sent. -/
theorem NMEA_loop_acknowledges (P : Platform) (settings : Settings) (inp : LoopInput)
    (st : State) (hmode : settings.nmea_out = .NMEA_TCP)
    (i : Nat) (s : NmeaTCP_t) (c : Nat) (hi : st.NmeaTCP[i]? = some s)
    (hc : s.client = some c) (htruthy : inp.net.truthy c = true)
    (hconn : inp.net.connected c = true) (hack : s.ack = false)
    (hts : 0 < s.connect_ts) (hto : inp.now - s.connect_ts ≥ P.NMEATCP_ACK_TIMEOUT) :
    (NMEA_loop P settings inp st).1.NmeaTCP[i]? = some { s with ack := true }
    ∧ (∃ before after, (NMEA_loop P settings inp st).2
        = before ++ (NMEA_loop_drain c (inp.net.rx c) ++ [Event.client_print c AOK]) ++ after)
    ∧ ∀ rx : Nat → List Nat,
        (NMEA_loop P settings { inp with net := { inp.net with rx := rx } } st).1
          = (NMEA_loop P settings inp st).1
        ∧ (NMEA_loop P settings { inp with net := { inp.net with rx := rx } } st).2.filter
            (fun e => !e.isRead)
          = (NMEA_loop P settings inp st).2.filter (fun e => !e.isRead) := by
  have hbusy : slotBusy inp.net s = true := by
    unfold slotBusy
    rw [hc]
    simp [clientBool, clientConnected, htruthy, hconn]
  have hdue : ackDue P inp.net inp.now s = true := by
    unfold ackDue
    rw [hc]
    simp [clientBool, clientConnected, htruthy, hconn, hack, hts]
    exact hto
  have key : ∃ slots1 ev, (NMEA_loop P settings inp st).1.NmeaTCP
        = slots1.map (ackSlot P inp.net inp.now)
      ∧ (NMEA_loop P settings inp st).2 = (NMEA_loop_PGRMZ P settings inp st).2
          ++ (ev ++ (NMEA_loop_ack P inp.net inp.now slots1).2)
      ∧ slots1[i]? = some s := by
    by_cases hcl : inp.hasClient = true
    · cases hacc : NMEA_loop_accept inp.net inp.now st.NmeaTCPServer st.NmeaTCP with
      | none =>
        obtain ⟨h1, _, h3⟩ := NMEA_loop_eq_reject P settings inp st hmode hcl hacc
        exact ⟨_, _, h1, h3, hi⟩
      | some r =>
        obtain ⟨slots1, ev⟩ := r
        obtain ⟨h1, _, h3⟩ := NMEA_loop_eq_accept P settings inp st hmode hcl slots1 ev hacc
        exact ⟨_, _, h1, h3,
          NMEA_loop_accept_busy inp.net inp.now _ _ slots1 ev hacc i s hi hbusy⟩
    · have hcl2 : inp.hasClient = false := by simpa using hcl
      obtain ⟨h1, _, h3⟩ := NMEA_loop_eq_idle P settings inp st hmode hcl2
      exact ⟨_, _, h1, h3, hi⟩
  obtain ⟨slots1, ev, h1, h3, hs1⟩ := key
  refine ⟨?_, ?_, ?_⟩
  · rw [h1, List.getElem?_map, hs1]
    simp [ackSlot, hdue]
  · obtain ⟨b, a, hba⟩ := NMEA_loop_ack_events_at P inp.net inp.now slots1 i s c hs1 hc hdue
    refine ⟨(NMEA_loop_PGRMZ P settings inp st).2 ++ ev ++ b, a, ?_⟩
    rw [h3, hba]
    simp only [List.append_assoc]
  · intro rx
    have hp := NMEA_loop_PGRMZ_rx P settings inp rx st
    have ht := NMEA_loop_TCP_rx P settings inp rx (NMEA_loop_PGRMZ P settings inp st).1
    unfold NMEA_loop
    rw [hp]
    refine ⟨ht.1, ?_⟩
    simp only [List.filter_append]
    rw [ht.2]

/-- Claim C8, as amended, on a slot connected at time 10 and polled at time 12. -/
theorem NMEA_loop_acknowledges_witness :
    (NMEA_loop P0 S0 (loop0 12 false [7, 8])
        (state0 [{ client := some 0, connect_ts := 10, ack := false }] 1)).1.NmeaTCP[0]?
      = some { client := some 0, connect_ts := 10, ack := true } :=
  (NMEA_loop_acknowledges P0 S0 (loop0 12 false [7, 8])
    (state0 [{ client := some 0, connect_ts := 10, ack := false }] 1) rfl 0
    { client := some 0, connect_ts := 10, ack := false } 0 rfl rfl rfl rfl rfl
    (by decide) (by decide)).1

/-- Claim C8 as stated fails for the connect timestamp 0: the slot holds a live
connection, is not acknowledged and now - connect_ts is 10, above the timeout of
2, yet the call prints nothing and leaves the ack flag clear. -/
theorem NMEA_loop_acknowledges_counterexample :
    slotBusy (net0 [7, 8]) { client := some 0, connect_ts := 0, ack := false } = true
    ∧ (10 : Int) - 0 ≥ P0.NMEATCP_ACK_TIMEOUT
    ∧ (NMEA_loop P0 S0 (loop0 10 false [7, 8])
        (state0 [{ client := some 0, connect_ts := 0, ack := false }] 1)).1.NmeaTCP
      = [{ client := some 0, connect_ts := 0, ack := false }]
    ∧ (NMEA_loop P0 S0 (loop0 10 false [7, 8])
        (state0 [{ client := some 0, connect_ts := 0, ack := false }] 1)).2 = [] := by
  decide

/-! ## The TCP client slots: sequences of calls -/

theorem sentTo_append (c : Nat) (a b : List Event) :
    sentTo c (a ++ b) = sentTo c a ++ sentTo c b := by
  unfold sentTo
  exact List.filter_append a b

theorem sentTo_eq_nil (c : Nat) (evs : List Event) (h : ∀ e ∈ evs, Event.isTo c e = false) :
    sentTo c evs = [] :=
  filter_eq_nil_of_false _ _ h

theorem mem_sentTo (c : Nat) (evs : List Event) (e : Event) :
    e ∈ sentTo c evs ↔ e ∈ evs ∧ Event.isTo c e = true := by
  unfold sentTo
  exact List.mem_filter

theorem mem_clientsOf (slots : List NmeaTCP_t) (c : Nat) :
    c ∈ clientsOf slots ↔ ∃ s ∈ slots, s.client = some c := by
  unfold clientsOf
  simp [List.mem_filterMap]

theorem clientsOf_cons (s : NmeaTCP_t) (rest : List NmeaTCP_t) :
    clientsOf (s :: rest)
      = (match s.client with | some c => [c] | none => []) ++ clientsOf rest := by
  unfold clientsOf
  cases h : s.client <;> simp [List.filterMap_cons, h]

theorem clientsOf_append (a b : List NmeaTCP_t) :
    clientsOf (a ++ b) = clientsOf a ++ clientsOf b := by
  unfold clientsOf
  exact List.filterMap_append _ _ _

theorem clientsOf_map_ackSlot (P : Platform) (net : Net) (now : Int) (slots : List NmeaTCP_t) :
    clientsOf (slots.map (ackSlot P net now)) = clientsOf slots := by
  induction slots with
  | nil => rfl
  | cons s rest ih =>
    rw [List.map_cons, clientsOf_cons, clientsOf_cons, ih,
      (ackSlot_client_ts P net now s).1]

/-- Two slots that hold the same connection are the same slot. -/
theorem slot_unique (slots : List NmeaTCP_t) (hnd : (clientsOf slots).Nodup)
    (s t : NmeaTCP_t) (hs : s ∈ slots) (ht : t ∈ slots) (c : Nat)
    (hsc : s.client = some c) (htc : t.client = some c) : s = t := by
  induction slots with
  | nil => cases hs
  | cons u rest ih =>
    rw [clientsOf_cons] at hnd
    have hrest : (clientsOf rest).Nodup := (List.nodup_append.mp hnd).2.1
    have hu : ∀ v ∈ rest, v.client = some c → u.client = some c → False := by
      intro v hv hvc huc
      rw [huc] at hnd
      have hdis := (List.nodup_append.mp hnd).2.2
      exact hdis (List.mem_singleton.mpr rfl) ((mem_clientsOf rest c).mpr ⟨v, hv, hvc⟩)
    rcases List.mem_cons.mp hs with hs | hs <;> rcases List.mem_cons.mp ht with ht | ht
    · rw [hs, ht]
    · exact absurd (hu t ht htc (hs ▸ hsc)) id
    · exact absurd (hu s hs hsc (ht ▸ htc)) id
    · exact ih hrest hs ht

/-- Writes to the clients of acknowledged slots keep the slot invariant. -/
theorem SlotInv_writes (slots : List NmeaTCP_t) (served : Nat) (log ev : List Event)
    (hev : ∀ e ∈ ev, ∃ s ∈ slots, ∃ c d,
      s.client = some c ∧ s.ack = true ∧ e = Event.client_write c d)
    (inv : SlotInv slots served log) : SlotInv slots served (log ++ ev) := by
  have hA : ∀ c, ∀ e ∈ sentTo c ev, ∃ d, e = Event.client_write c d := by
    intro c e he
    obtain ⟨hmem, hto⟩ := (mem_sentTo c ev e).mp he
    obtain ⟨_, _, c1, d, _, _, rfl⟩ := hev e hmem
    simp only [Event.isTo, beq_iff_eq] at hto
    exact ⟨d, by rw [hto]⟩
  have hB : ∀ c, (∀ s ∈ slots, s.client = some c → s.ack = false) → sentTo c ev = [] := by
    intro c hc
    apply sentTo_eq_nil
    intro e he
    obtain ⟨s, hs, c1, d, hsc, hack, rfl⟩ := hev e he
    by_cases hcc : c1 = c
    · rw [hcc] at hsc
      rw [hc s hs hsc] at hack
      cases hack
    · simp [Event.isTo, hcc]
  refine ⟨inv.bound, inv.nodup, ?_, ?_, ?_, ?_⟩
  · intro c hc
    rw [sentTo_append, inv.fresh c hc, hB c, List.append_nil]
    intro s hs hsc
    exact absurd (inv.bound s hs c hsc) (not_lt.mpr hc)
  · intro s hs c hsc hack
    rw [sentTo_append, inv.pending s hs c hsc hack, hB c, List.append_nil]
    intro t ht htc
    rw [slot_unique slots inv.nodup t s ht hs c htc hsc]
    exact hack
  · intro s hs c hsc hack
    obtain ⟨ws, hws, hall⟩ := inv.acked s hs c hsc hack
    refine ⟨ws ++ sentTo c ev, ?_, ?_⟩
    · rw [sentTo_append, hws]
      rfl
    · intro e he
      rcases List.mem_append.mp he with he | he
      · exact hall e he
      · exact hA c e he
  · intro c
    by_cases hex : ∃ s ∈ slots, s.client = some c ∧ s.ack = true
    · obtain ⟨s, hs, hsc, hack⟩ := hex
      obtain ⟨ws, hws, hall⟩ := inv.acked s hs c hsc hack
      refine Or.inr (Or.inr ⟨ws ++ sentTo c ev, ?_, ?_⟩)
      · rw [sentTo_append, hws]
        rfl
      · intro e he
        rcases List.mem_append.mp he with he | he
        · exact hall e he
        · exact hA c e he
    · rw [sentTo_append, hB c, List.append_nil]
      · exact inv.shape c
      · intro s hs hsc
        by_cases hack : s.ack = true
        · exact absurd ⟨s, hs, hsc, hack⟩ hex
        · simpa using hack

/-- The events of the acknowledge loop that go to a client held by no due slot. -/
theorem NMEA_loop_ack_sentTo_nil (P : Platform) (net : Net) (now : Int)
    (slots : List NmeaTCP_t) (c : Nat)
    (h : ∀ s ∈ slots, s.client = some c → ackDue P net now s = false) :
    sentTo c (NMEA_loop_ack P net now slots).2 = [] := by
  apply sentTo_eq_nil
  intro e he
  obtain ⟨s, hs, c1, hsc, hdue, hkind⟩ := NMEA_loop_ack_events P net now slots e he
  by_cases hcc : c1 = c
  · rw [hcc] at hsc
    rw [h s hs hsc] at hdue
    cases hdue
  · rcases hkind with ⟨b, rfl⟩ | rfl
    · rfl
    · simp [Event.isTo, hcc]

theorem sentTo_drain (c d : Nat) (rx : List Nat) : sentTo c (NMEA_loop_drain d rx) = [] := by
  apply sentTo_eq_nil
  intro e he
  obtain ⟨b, rfl⟩ := NMEA_loop_drain_reads d rx e he
  rfl

/-- The events of the acknowledge loop that go to the client of a due slot. -/
theorem NMEA_loop_ack_sentTo_due (P : Platform) (net : Net) (now : Int)
    (slots : List NmeaTCP_t) (hnd : (clientsOf slots).Nodup) (s : NmeaTCP_t) (c : Nat)
    (hs : s ∈ slots) (hsc : s.client = some c) (hdue : ackDue P net now s = true) :
    sentTo c (NMEA_loop_ack P net now slots).2 = [Event.client_print c AOK] := by
  induction slots with
  | nil => cases hs
  | cons t rest ih =>
    rw [clientsOf_cons] at hnd
    have hrest : (clientsOf rest).Nodup := (List.nodup_append.mp hnd).2.1
    by_cases htc : t.client = some c
    · have hts : t = s := slot_unique (t :: rest) (by rw [clientsOf_cons]; exact hnd) t s
        (List.mem_cons_self _ _) hs c htc hsc
      have hnot : c ∉ clientsOf rest := by
        intro hmem
        rw [htc] at hnd
        exact (List.nodup_append.mp hnd).2.2 (List.mem_singleton.mpr rfl) hmem
      have hnil : sentTo c (NMEA_loop_ack P net now rest).2 = [] := by
        apply NMEA_loop_ack_sentTo_nil
        intro u hu huc
        exact absurd ((mem_clientsOf rest c).mpr ⟨u, hu, huc⟩) hnot
      have hd2 : ackDue P net now t = true := by rw [hts]; exact hdue
      unfold ackDue at hd2
      rw [NMEA_loop_ack, if_pos hd2, htc]
      simp only [sentTo_append, sentTo_drain, hnil, List.nil_append, List.append_nil]
      simp [sentTo, Event.isTo]
    · have hs2 : s ∈ rest := by
        rcases List.mem_cons.mp hs with h | h
        · rw [h] at hsc; exact absurd hsc htc
        · exact h
      have hih := ih hrest hs2
      rw [NMEA_loop_ack]
      by_cases hdt : ackDue P net now t = true
      · have hd2 := hdt
        unfold ackDue at hd2
        rw [if_pos hd2]
        cases htd : t.client with
        | none => exact hih
        | some d =>
          have hdc : d ≠ c := by
            intro h; rw [h] at htd; exact htc htd
          simp only [sentTo_append, sentTo_drain, hih, List.nil_append]
          simp [sentTo, Event.isTo, hdc]
      · have hd2 := hdt
        unfold ackDue at hd2
        rw [if_neg hd2]
        exact hih

theorem ackDue_ack (P : Platform) (net : Net) (now : Int) (s : NmeaTCP_t)
    (h : ackDue P net now s = true) : s.ack = false := by
  unfold ackDue at h
  simp only [Bool.and_eq_true, Bool.not_eq_true'] at h
  exact h.1.1.2

theorem ackSlot_ack (P : Platform) (net : Net) (now : Int) (s : NmeaTCP_t) :
    (ackSlot P net now s).ack = (s.ack || ackDue P net now s) := by
  unfold ackSlot
  by_cases h : ackDue P net now s = true
  · rw [if_pos h, h]; simp
  · rw [if_neg h]
    have : ackDue P net now s = false := by simpa using h
    rw [this]; simp

/-- The acknowledge loop keeps the slot invariant. -/
theorem SlotInv_ack (P : Platform) (net : Net) (now : Int) (slots : List NmeaTCP_t)
    (served : Nat) (log : List Event) (inv : SlotInv slots served log) :
    SlotInv (slots.map (ackSlot P net now)) served
      (log ++ (NMEA_loop_ack P net now slots).2) := by
  have hnone : ∀ c, (∀ s ∈ slots, s.client ≠ some c) →
      sentTo c (NMEA_loop_ack P net now slots).2 = [] := by
    intro c hc
    apply NMEA_loop_ack_sentTo_nil
    intro s hs hsc
    exact absurd hsc (hc s hs)
  have hnot : ∀ s ∈ slots, ∀ c, s.client = some c → ackDue P net now s = false →
      sentTo c (NMEA_loop_ack P net now slots).2 = [] := by
    intro s hs c hsc hdue
    apply NMEA_loop_ack_sentTo_nil
    intro t ht htc
    rw [slot_unique slots inv.nodup t s ht hs c htc hsc]
    exact hdue
  have hslot : ∀ s ∈ slots, ∀ c, s.client = some c →
      ((ackSlot P net now s).ack = false →
        sentTo c (log ++ (NMEA_loop_ack P net now slots).2) = [Event.client_print c PASS])
      ∧ ((ackSlot P net now s).ack = true →
        ∃ ws, sentTo c (log ++ (NMEA_loop_ack P net now slots).2)
            = Event.client_print c PASS :: Event.client_print c AOK :: ws
          ∧ ∀ e ∈ ws, ∃ d, e = Event.client_write c d) := by
    intro s hs c hsc
    rw [ackSlot_ack, sentTo_append]
    by_cases hdue : ackDue P net now s = true
    · have hack := ackDue_ack P net now s hdue
      rw [NMEA_loop_ack_sentTo_due P net now slots inv.nodup s c hs hsc hdue,
        inv.pending s hs c hsc hack, hdue]
      refine ⟨fun h => by simp at h, fun _ => ⟨[], rfl, fun e he => by cases he⟩⟩
    · have hdue2 : ackDue P net now s = false := by simpa using hdue
      rw [hnot s hs c hsc hdue2, hdue2, List.append_nil, Bool.or_false]
      exact ⟨inv.pending s hs c hsc, inv.acked s hs c hsc⟩
  refine ⟨?_, ?_, ?_, ?_, ?_, ?_⟩
  · intro s1 hs1 c hc
    obtain ⟨s, hs, rfl⟩ := List.mem_map.mp hs1
    rw [(ackSlot_client_ts P net now s).1] at hc
    exact inv.bound s hs c hc
  · rw [clientsOf_map_ackSlot]
    exact inv.nodup
  · intro c hc
    rw [sentTo_append, inv.fresh c hc, hnone c, List.append_nil]
    intro s hs hsc
    exact absurd (inv.bound s hs c hsc) (not_lt.mpr hc)
  · intro s1 hs1 c hc hack
    obtain ⟨s, hs, rfl⟩ := List.mem_map.mp hs1
    rw [(ackSlot_client_ts P net now s).1] at hc
    exact (hslot s hs c hc).1 hack
  · intro s1 hs1 c hc hack
    obtain ⟨s, hs, rfl⟩ := List.mem_map.mp hs1
    rw [(ackSlot_client_ts P net now s).1] at hc
    exact (hslot s hs c hc).2 hack
  · intro c
    by_cases hex : ∃ s ∈ slots, s.client = some c
    · obtain ⟨s, hs, hsc⟩ := hex
      cases hack : (ackSlot P net now s).ack with
      | false => exact Or.inr (Or.inl ((hslot s hs c hsc).1 hack))
      | true => exact Or.inr (Or.inr ((hslot s hs c hsc).2 hack))
    · rw [sentTo_append, hnone c, List.append_nil]
      · exact inv.shape c
      · intro s hs hsc
        exact hex ⟨s, hs, hsc⟩

/-- The shape of a successful search for a slot. -/
theorem NMEA_loop_accept_split (net : Net) (now : Int) (c : Nat)
    (slots slots1 : List NmeaTCP_t) (ev : List Event)
    (h : NMEA_loop_accept net now c slots = some (slots1, ev)) :
    ∃ before old after stops, slots = before ++ old :: after
      ∧ slots1 = before ++ { client := some c, connect_ts := now, ack := false } :: after
      ∧ ev = stops ++ [Event.client_print c PASS]
      ∧ ∀ e ∈ stops, ∃ d, e = Event.client_stop d := by
  induction slots generalizing slots1 ev with
  | nil => simp [NMEA_loop_accept] at h
  | cons t rest ih =>
    rw [NMEA_loop_accept] at h
    by_cases hf : (!clientBool net t.client || !clientConnected net t.client) = true
    · rw [if_pos hf] at h
      simp only [Option.some.injEq, Prod.mk.injEq] at h
      refine ⟨[], t, rest, _, rfl, h.1.symm, h.2.symm, ?_⟩
      intro e he
      cases htc : t.client with
      | none => rw [htc] at he; cases he
      | some old =>
        rw [htc] at he
        by_cases hto : net.truthy old = true
        · simp only [hto, if_true, List.mem_singleton] at he
          exact ⟨old, he⟩
        · simp [hto] at he
    · rw [if_neg hf] at h
      cases hrec : NMEA_loop_accept net now c rest with
      | none => rw [hrec] at h; simp at h
      | some r =>
        obtain ⟨r1, r2⟩ := r
        rw [hrec] at h
        simp only [Option.some.injEq, Prod.mk.injEq] at h
        obtain ⟨b, old, a, stops, h1, h2, h3, h4⟩ := ih r1 r2 hrec
        refine ⟨t :: b, old, a, stops, ?_, ?_, ?_, h4⟩
        · rw [h1]; rfl
        · rw [← h.1, h2]; rfl
        · rw [← h.2, h3]

theorem sentTo_stops (c : Nat) (stops : List Event)
    (h : ∀ e ∈ stops, ∃ d, e = Event.client_stop d) : sentTo c stops = [] := by
  apply sentTo_eq_nil
  intro e he
  obtain ⟨d, rfl⟩ := h e he
  rfl

theorem sentTo_PASS (c n : Nat) :
    sentTo c [Event.client_print n PASS] = if n = c then [Event.client_print n PASS] else [] := by
  by_cases h : n = c <;> simp [sentTo, Event.isTo, h]

/-- Placing the next connection in a slot keeps the slot invariant. -/
theorem SlotInv_accept (before after : List NmeaTCP_t) (old : NmeaTCP_t) (now : Int)
    (served : Nat) (log stops : List Event)
    (hstops : ∀ e ∈ stops, ∃ d, e = Event.client_stop d)
    (inv : SlotInv (before ++ old :: after) served log) :
    SlotInv (before ++ { client := some served, connect_ts := now, ack := false } :: after)
      (served + 1) (log ++ (stops ++ [Event.client_print served PASS])) := by
  have hsent : ∀ c, sentTo c (log ++ (stops ++ [Event.client_print served PASS]))
      = sentTo c log ++ (if served = c then [Event.client_print served PASS] else []) := by
    intro c
    rw [sentTo_append, sentTo_append, sentTo_stops c stops hstops, sentTo_PASS, List.nil_append]
  have hmem : ∀ s, s ∈ before ++ { client := some served, connect_ts := now, ack := false }
        :: after →
      s = { client := some served, connect_ts := now, ack := false }
      ∨ s ∈ before ++ old :: after := by
    intro s hs
    rcases List.mem_append.mp hs with h | h
    · exact Or.inr (List.mem_append_left _ h)
    · rcases List.mem_cons.mp h with h | h
      · exact Or.inl h
      · exact Or.inr (List.mem_append_right _ (List.mem_cons_of_mem _ h))
  have hne : ∀ s ∈ before ++ old :: after, ∀ c, s.client = some c → ¬ served = c := by
    intro s hs c hsc h
    have := inv.bound s hs c hsc
    omega
  refine ⟨?_, ?_, ?_, ?_, ?_, ?_⟩
  · intro s hs c hsc
    rcases hmem s hs with h | h
    · rw [h] at hsc
      simp only [Option.some.injEq] at hsc
      omega
    · exact Nat.lt_succ_of_lt (inv.bound s h c hsc)
  · have hnd := inv.nodup
    rw [clientsOf_append, clientsOf_cons] at hnd ⊢
    simp only [List.singleton_append]
    rw [List.nodup_middle, List.nodup_cons]
    refine ⟨?_, ?_⟩
    · intro hin
      rcases List.mem_append.mp hin with h | h
      · obtain ⟨s, hs, hsc⟩ := (mem_clientsOf before served).mp h
        exact hne s (List.mem_append_left _ hs) served hsc rfl
      · obtain ⟨s, hs, hsc⟩ := (mem_clientsOf after served).mp h
        exact hne s (List.mem_append_right _ (List.mem_cons_of_mem _ hs)) served hsc rfl
    · apply List.Nodup.sublist _ hnd
      apply List.Sublist.append (List.Sublist.refl _)
      exact List.sublist_append_right _ _
  · intro c hc
    rw [hsent, inv.fresh c (by omega), if_neg (by omega)]
    rfl
  · intro s hs c hsc hack
    rcases hmem s hs with h | h
    · rw [h] at hsc
      simp only [Option.some.injEq] at hsc
      rw [hsent, ← hsc, inv.fresh served (le_refl _), if_pos rfl]
      rfl
    · rw [hsent, if_neg (hne s h c hsc), List.append_nil]
      exact inv.pending s h c hsc hack
  · intro s hs c hsc hack
    rcases hmem s hs with h | h
    · rw [h] at hack
      cases hack
    · rw [hsent, if_neg (hne s h c hsc), List.append_nil]
      exact inv.acked s h c hsc hack
  · intro c
    rw [hsent]
    by_cases h : served = c
    · rw [if_pos h, ← h, inv.fresh served (le_refl _)]
      exact Or.inr (Or.inl rfl)
    · rw [if_neg h, List.append_nil]
      exact inv.shape c

/-- Turning the next connection away keeps the slot invariant. -/
theorem SlotInv_reject (slots : List NmeaTCP_t) (served : Nat) (log : List Event)
    (inv : SlotInv slots served log) :
    SlotInv slots (served + 1) (log ++ [Event.client_stop served]) := by
  have hsent : ∀ c, sentTo c (log ++ [Event.client_stop served]) = sentTo c log := by
    intro c
    rw [sentTo_append]
    simp [sentTo, Event.isTo]
  refine ⟨?_, inv.nodup, ?_, ?_, ?_, ?_⟩
  · intro s hs c hsc
    exact Nat.lt_succ_of_lt (inv.bound s hs c hsc)
  · intro c hc
    rw [hsent]
    exact inv.fresh c (by omega)
  · intro s hs c hsc hack
    rw [hsent]
    exact inv.pending s hs c hsc hack
  · intro s hs c hsc hack
    rw [hsent]
    exact inv.acked s hs c hsc hack
  · intro c
    rw [hsent]
    exact inv.shape c

theorem flat_append (tr : List (Action × List Event)) (a : Action) (ev : List Event) :
    flat (tr ++ [(a, ev)]) = flat tr ++ ev := by
  unfold flat
  simp [List.flatMap_append]

theorem mem_flat (tr : List (Action × List Event)) (x : Action × List Event) (e : Event)
    (hx : x ∈ tr) (he : e ∈ x.2) : e ∈ flat tr := by
  unfold flat
  exact List.mem_flatMap.mpr ⟨x, hx, he⟩

/-- A connection that was printed PASS? in the trace has been served. -/
theorem printed_lt_served (slots : List NmeaTCP_t) (served : Nat)
    (tr : List (Action × List Event)) (inv : SlotInv slots served (flat tr))
    (x : Action × List Event) (hx : x ∈ tr) (c : Nat) (text : List Nat)
    (he : Event.client_print c text ∈ x.2) : c < served := by
  by_contra hge
  have hnil := inv.fresh c (not_lt.mp hge)
  have hmem : Event.client_print c text ∈ sentTo c (flat tr) :=
    (mem_sentTo c _ _).mpr ⟨mem_flat tr x _ hx he, by simp [Event.isTo]⟩
  rw [hnil] at hmem
  cases hmem

theorem ackDue_timeout (P : Platform) (net : Net) (now : Int) (s : NmeaTCP_t)
    (h : ackDue P net now s = true) : now - s.connect_ts ≥ P.NMEATCP_ACK_TIMEOUT := by
  unfold ackDue at h
  simp only [Bool.and_eq_true, decide_eq_true_eq] at h
  exact h.2

/-- One poll keeps the time invariant. -/
theorem TimeInv_poll (P : Platform) (slots slots1 : List NmeaTCP_t) (served : Nat)
    (tr : List (Action × List Event)) (inp : LoopInput) (ev : List Event)
    (sinv : SlotInv slots served (flat tr)) (tinv : TimeInv P slots tr)
    (hslots1 : ∀ s1 ∈ slots1, s1 ∈ slots
      ∨ s1 = { client := some served, connect_ts := inp.now, ack := false })
    (hE1 : ∀ c, Event.client_print c PASS ∈ ev → c = served)
    (hE2 : ∀ c, Event.client_print c AOK ∈ ev →
      ∃ s1 ∈ slots1, s1.client = some c ∧ ackDue P inp.net inp.now s1 = true) :
    TimeInv P (slots1.map (ackSlot P inp.net inp.now)) (tr ++ [(Action.loop inp, ev)]) := by
  refine ⟨?_, ?_⟩
  · intro s2 hs2 c hc x hx hpass
    obtain ⟨s1, hs1, rfl⟩ := List.mem_map.mp hs2
    rw [(ackSlot_client_ts P inp.net inp.now s1).1] at hc
    rw [(ackSlot_client_ts P inp.net inp.now s1).2]
    rcases List.mem_append.mp hx with hx | hx
    · have hlt := printed_lt_served slots served tr sinv x hx c PASS hpass
      rcases hslots1 s1 hs1 with h | h
      · exact tinv.stamp s1 h c hc x hx hpass
      · rw [h] at hc
        simp only [Option.some.injEq] at hc
        omega
    · rw [List.mem_singleton] at hx
      rw [hx] at hpass ⊢
      have hcs := hE1 c hpass
      rcases hslots1 s1 hs1 with h | h
      · have := sinv.bound s1 h c hc
        omega
      · exact ⟨inp, rfl, by rw [h]⟩
  · intro c x1 hx1 x2 hx2 hpass haok
    rcases List.mem_append.mp hx1 with hx1 | hx1 <;>
      rcases List.mem_append.mp hx2 with hx2 | hx2
    · exact tinv.timing c x1 hx1 x2 hx2 hpass haok
    · rw [List.mem_singleton] at hx2
      rw [hx2] at haok ⊢
      have hlt := printed_lt_served slots served tr sinv x1 hx1 c PASS hpass
      obtain ⟨s1, hs1, hsc, hdue⟩ := hE2 c haok
      rcases hslots1 s1 hs1 with h | h
      · obtain ⟨i1, hi1, hnow⟩ := tinv.stamp s1 h c hsc x1 hx1 hpass
        refine ⟨i1, inp, hi1, rfl, ?_⟩
        rw [hnow]
        exact ackDue_timeout P inp.net inp.now s1 hdue
      · rw [h] at hsc
        simp only [Option.some.injEq] at hsc
        omega
    · rw [List.mem_singleton] at hx1
      rw [hx1] at hpass
      have hcs := hE1 c hpass
      have hlt := printed_lt_served slots served tr sinv x2 hx2 c AOK haok
      omega
    · rw [List.mem_singleton] at hx1 hx2
      rw [hx1] at hpass ⊢
      rw [hx2] at haok ⊢
      have hcs := hE1 c hpass
      obtain ⟨s1, hs1, hsc, hdue⟩ := hE2 c haok
      rcases hslots1 s1 hs1 with h | h
      · have := sinv.bound s1 h c hsc
        omega
      · refine ⟨inp, inp, rfl, rfl, ?_⟩
        have hto := ackDue_timeout P inp.net inp.now s1 hdue
        rw [h] at hto
        exact hto

/-- A call that prints nothing keeps the time invariant. -/
theorem TimeInv_quiet (P : Platform) (slots : List NmeaTCP_t)
    (tr : List (Action × List Event)) (a : Action) (ev : List Event)
    (tinv : TimeInv P slots tr) (hev : ∀ e ∈ ev, ∀ c text, e ≠ Event.client_print c text) :
    TimeInv P slots (tr ++ [(a, ev)]) := by
  refine ⟨?_, ?_⟩
  · intro s hs c hc x hx hpass
    rcases List.mem_append.mp hx with hx | hx
    · exact tinv.stamp s hs c hc x hx hpass
    · rw [List.mem_singleton] at hx
      rw [hx] at hpass
      exact absurd rfl (hev _ hpass c PASS)
  · intro c x1 hx1 x2 hx2 hpass haok
    rcases List.mem_append.mp hx1 with hx1 | hx1
    · rcases List.mem_append.mp hx2 with hx2 | hx2
      · exact tinv.timing c x1 hx1 x2 hx2 hpass haok
      · rw [List.mem_singleton] at hx2
        rw [hx2] at haok
        exact absurd rfl (hev _ haok c AOK)
    · rw [List.mem_singleton] at hx1
      rw [hx1] at hpass
      exact absurd rfl (hev _ hpass c PASS)

/-- One poll, split into its PGRMZ events, the events of the search for a slot
and the events of the acknowledge loop, keeps both invariants. -/
theorem poll_inv (P : Platform) (inp : LoopInput) (slots slots1 : List NmeaTCP_t)
    (served served1 : Nat) (tr : List (Action × List Event)) (evP evA : List Event)
    (sinv : SlotInv slots served (flat tr)) (tinv : TimeInv P slots tr)
    (hP : ∀ e ∈ evP, ∃ s ∈ slots, ∃ c d,
      s.client = some c ∧ s.ack = true ∧ e = Event.client_write c d)
    (hA : SlotInv slots served (flat tr ++ evP) →
      SlotInv slots1 served1 (flat tr ++ evP ++ evA))
    (hA1 : ∀ c text, Event.client_print c text ∈ evA → c = served ∧ text = PASS)
    (hslots1 : ∀ s1 ∈ slots1, s1 ∈ slots
      ∨ s1 = { client := some served, connect_ts := inp.now, ack := false }) :
    SlotInv (slots1.map (ackSlot P inp.net inp.now)) served1
        (flat (tr ++ [(Action.loop inp,
          evP ++ (evA ++ (NMEA_loop_ack P inp.net inp.now slots1).2))]))
    ∧ TimeInv P (slots1.map (ackSlot P inp.net inp.now))
        (tr ++ [(Action.loop inp,
          evP ++ (evA ++ (NMEA_loop_ack P inp.net inp.now slots1).2))]) := by
  have hprint : ∀ c text, Event.client_print c text
        ∈ evP ++ (evA ++ (NMEA_loop_ack P inp.net inp.now slots1).2) →
      (c = served ∧ text = PASS)
      ∨ (text = AOK ∧ ∃ s1 ∈ slots1, s1.client = some c
          ∧ ackDue P inp.net inp.now s1 = true) := by
    intro c text hmem
    rcases List.mem_append.mp hmem with h | h
    · obtain ⟨_, _, _, _, _, _, he⟩ := hP _ h
      cases he
    · rcases List.mem_append.mp h with h | h
      · exact Or.inl (hA1 c text h)
      · obtain ⟨s1, hs1, c1, hsc, hdue, hkind⟩ := NMEA_loop_ack_events P inp.net inp.now _ _ h
        rcases hkind with ⟨_, he⟩ | he
        · cases he
        · simp only [Event.client_print.injEq] at he
          rw [← he.1] at hsc
          exact Or.inr ⟨he.2, s1, hs1, hsc, hdue⟩
  refine ⟨?_, ?_⟩
  · rw [flat_append, ← List.append_assoc, ← List.append_assoc]
    exact SlotInv_ack P inp.net inp.now slots1 served1 _
      (hA (SlotInv_writes slots served (flat tr) evP hP sinv))
  · apply TimeInv_poll P slots slots1 served tr inp _ sinv tinv hslots1
    · intro c hmem
      rcases hprint c PASS hmem with h | h
      · exact h.1
      · exact absurd h.1 PASS_ne_AOK
    · intro c hmem
      rcases hprint c AOK hmem with h | h
      · exact absurd h.2.symm PASS_ne_AOK
      · exact h.2

/-- One NMEA_loop call in TCP mode keeps both invariants. -/
theorem step_loop_inv (P : Platform) (settings : Settings) (inp : LoopInput) (st : State)
    (tr : List (Action × List Event)) (hmode : settings.nmea_out = .NMEA_TCP)
    (sinv : SlotInv st.NmeaTCP st.NmeaTCPServer (flat tr)) (tinv : TimeInv P st.NmeaTCP tr) :
    SlotInv (NMEA_loop P settings inp st).1.NmeaTCP (NMEA_loop P settings inp st).1.NmeaTCPServer
        (flat (tr ++ [(Action.loop inp, (NMEA_loop P settings inp st).2)]))
    ∧ TimeInv P (NMEA_loop P settings inp st).1.NmeaTCP
        (tr ++ [(Action.loop inp, (NMEA_loop P settings inp st).2)]) := by
  have hP : ∀ e ∈ (NMEA_loop_PGRMZ P settings inp st).2, ∃ s ∈ st.NmeaTCP, ∃ c d,
      s.client = some c ∧ s.ack = true ∧ e = Event.client_write c d := by
    intro e he
    obtain ⟨s, hs, c, d, h1, h2, _, _, h5⟩ := NMEA_loop_PGRMZ_writes P settings inp st hmode e he
    exact ⟨s, hs, c, d, h1, h2, h5⟩
  by_cases hcl : inp.hasClient = true
  · cases hacc : NMEA_loop_accept inp.net inp.now st.NmeaTCPServer st.NmeaTCP with
    | none =>
      obtain ⟨h1, h2, h3⟩ := NMEA_loop_eq_reject P settings inp st hmode hcl hacc
      rw [h1, h2, h3]
      apply poll_inv P inp st.NmeaTCP st.NmeaTCP st.NmeaTCPServer (st.NmeaTCPServer + 1) tr _ _
        sinv tinv hP
      · intro inv1
        exact SlotInv_reject _ _ _ inv1
      · intro c text hmem
        rw [List.mem_singleton] at hmem
        cases hmem
      · exact fun s1 hs1 => Or.inl hs1
    | some r =>
      obtain ⟨slots1, ev⟩ := r
      obtain ⟨h1, h2, h3⟩ := NMEA_loop_eq_accept P settings inp st hmode hcl slots1 ev hacc
      obtain ⟨before, old, after, stops, hs0, hs1, hev, hstops⟩ :=
        NMEA_loop_accept_split inp.net inp.now st.NmeaTCPServer st.NmeaTCP slots1 ev hacc
      rw [h1, h2, h3]
      apply poll_inv P inp st.NmeaTCP slots1 st.NmeaTCPServer (st.NmeaTCPServer + 1) tr _ _
        sinv tinv hP
      · intro inv1
        rw [hs0] at inv1
        rw [hs1, hev]
        exact SlotInv_accept before after old inp.now st.NmeaTCPServer _ stops hstops inv1
      · intro c text hmem
        rw [hev] at hmem
        rcases List.mem_append.mp hmem with h | h
        · obtain ⟨d, hd⟩ := hstops _ h
          cases hd
        · rw [List.mem_singleton] at h
          simp only [Event.client_print.injEq] at h
          exact h
      · intro s1 hmem
        rw [hs1] at hmem
        rw [hs0]
        rcases List.mem_append.mp hmem with h | h
        · exact Or.inl (List.mem_append_left _ h)
        · rcases List.mem_cons.mp h with h | h
          · exact Or.inr h
          · exact Or.inl (List.mem_append_right _ (List.mem_cons_of_mem _ h))
  · have hcl2 : inp.hasClient = false := by simpa using hcl
    obtain ⟨h1, h2, h3⟩ := NMEA_loop_eq_idle P settings inp st hmode hcl2
    rw [h1, h2, h3]
    apply poll_inv P inp st.NmeaTCP st.NmeaTCP st.NmeaTCPServer st.NmeaTCPServer tr _ _
      sinv tinv hP
    · intro inv1
      rw [List.append_nil]
      exact inv1
    · intro c text hmem
      cases hmem
    · exact fun s1 hs1 => Or.inl hs1

/-- One call in TCP mode keeps both invariants. -/
theorem step_inv (P : Platform) (settings : Settings) (a : Action) (st : State)
    (tr : List (Action × List Event)) (hmode : settings.nmea_out = .NMEA_TCP)
    (sinv : SlotInv st.NmeaTCP st.NmeaTCPServer (flat tr)) (tinv : TimeInv P st.NmeaTCP tr) :
    SlotInv (step P settings st a).1.NmeaTCP (step P settings st a).1.NmeaTCPServer
        (flat (tr ++ [(a, (step P settings st a).2)]))
    ∧ TimeInv P (step P settings st a).1.NmeaTCP (tr ++ [(a, (step P settings st a).2)]) := by
  cases a with
  | loop inp => exact step_loop_inv P settings inp st tr hmode sinv tinv
  | out net buf nl =>
    have hout : step P settings st (Action.out net buf nl)
        = (st, NMEA_Out_TCP net buf nl st.NmeaTCP) := by
      unfold step NMEA_Out
      rw [hmode]
    rw [hout]
    have hW := NMEA_Out_TCP_writes net buf nl st.NmeaTCP
    refine ⟨?_, ?_⟩
    · rw [flat_append]
      apply SlotInv_writes _ _ _ _ _ sinv
      intro e he
      obtain ⟨s, hs, c, d, h1, h2, _, _, h5⟩ := hW e he
      exact ⟨s, hs, c, d, h1, h2, h5⟩
    · apply TimeInv_quiet P _ tr _ _ tinv
      intro e he c text heq
      obtain ⟨_, _, _, _, _, _, _, _, h5⟩ := hW e he
      rw [heq] at h5
      cases h5

/-- Every sequence of calls in TCP mode keeps both invariants. -/
theorem run_inv (P : Platform) (settings : Settings) (hmode : settings.nmea_out = .NMEA_TCP)
    (acts : List Action) (st : State) (tr : List (Action × List Event))
    (sinv : SlotInv st.NmeaTCP st.NmeaTCPServer (flat tr)) (tinv : TimeInv P st.NmeaTCP tr) :
    SlotInv (runState P settings st acts).NmeaTCP (runState P settings st acts).NmeaTCPServer
        (flat (tr ++ run P settings st acts))
    ∧ TimeInv P (runState P settings st acts).NmeaTCP (tr ++ run P settings st acts) := by
  induction acts generalizing st tr with
  | nil =>
    simp only [run, runState, List.append_nil]
    exact ⟨sinv, tinv⟩
  | cons a rest ih =>
    obtain ⟨s1, t1⟩ := step_inv P settings a st tr hmode sinv tinv
    have h := ih (step P settings st a).1 (tr ++ [(a, (step P settings st a).2)]) s1 t1
    simp only [run, runState]
    rw [List.append_assoc] at h
    exact h

theorem clientsOf_empty (slots : List NmeaTCP_t) (h : ∀ s ∈ slots, s.client = none) :
    clientsOf slots = [] := by
  induction slots with
  | nil => rfl
  | cons s rest ih =>
    rw [clientsOf_cons, h s (List.mem_cons_self _ _),
      ih (fun t ht => h t (List.mem_cons_of_mem _ ht))]
    rfl

/-- Claim C7. In TCP mode, from a state in which no slot holds a connection,
after any sequence of NMEA_loop polls and NMEA_Out calls, what has been sent to
a connection c is nothing, or PASS? alone, or PASS?, then AOK, then written
data only: no data is written to c before AOK was printed to it.  And when
PASS? was printed to c in one call and AOK in another (or the same), both calls
are polls and the time of the second is at least NMEATCP_ACK_TIMEOUT after the
time of the first. -/
theorem NMEA_TCP_handshake_gate (P : Platform) (settings : Settings)
    (hmode : settings.nmea_out = .NMEA_TCP) (st0 : State)
    (hempty : ∀ s ∈ st0.NmeaTCP, s.client = none) (acts : List Action) (c : Nat) :
    (sentTo c (flat (run P settings st0 acts)) = []
      ∨ sentTo c (flat (run P settings st0 acts)) = [Event.client_print c PASS]
      ∨ ∃ ws, sentTo c (flat (run P settings st0 acts))
            = Event.client_print c PASS :: Event.client_print c AOK :: ws
          ∧ ∀ e ∈ ws, ∃ d, e = Event.client_write c d)
    ∧ ∀ x1 ∈ run P settings st0 acts, ∀ x2 ∈ run P settings st0 acts,
        Event.client_print c PASS ∈ x1.2 → Event.client_print c AOK ∈ x2.2 →
        ∃ i1 i2, x1.1 = Action.loop i1 ∧ x2.1 = Action.loop i2
          ∧ i2.now - i1.now ≥ P.NMEATCP_ACK_TIMEOUT := by
  have sinv0 : SlotInv st0.NmeaTCP st0.NmeaTCPServer (flat []) := by
    refine ⟨?_, ?_, ?_, ?_, ?_, ?_⟩
    · intro s hs d hd
      rw [hempty s hs] at hd
      cases hd
    · rw [clientsOf_empty _ hempty]
      exact List.nodup_nil
    · intro d _
      rfl
    · intro s hs d hd
      rw [hempty s hs] at hd
      cases hd
    · intro s hs d hd
      rw [hempty s hs] at hd
      cases hd
    · intro d
      exact Or.inl rfl
  have tinv0 : TimeInv P st0.NmeaTCP [] := by
    refine ⟨?_, ?_⟩
    · intro s hs d hd x hx
      cases hx
    · intro d x1 hx1
      cases hx1
  obtain ⟨sinv, tinv⟩ := run_inv P settings hmode acts st0 [] sinv0 tinv0
  rw [List.nil_append] at sinv tinv
  exact ⟨sinv.shape c, tinv.timing c⟩

/-- Claim C7 on a session: a client is accepted at time 10, a sentence is sent
(and not forwarded), the poll at time 12 acknowledges the client, and the next
sentence is forwarded. -/
theorem NMEA_TCP_handshake_gate_witness :
    (sentTo 0 (flat (run P0 S0 (state0 [{ client := none, connect_ts := 0, ack := false }] 0)
        [Action.loop (loop0 10 true []), Action.out (net0 []) [36, 88] false,
         Action.loop (loop0 12 false []), Action.out (net0 []) [36, 89] false])) = []
      ∨ sentTo 0 (flat (run P0 S0
          (state0 [{ client := none, connect_ts := 0, ack := false }] 0)
        [Action.loop (loop0 10 true []), Action.out (net0 []) [36, 88] false,
         Action.loop (loop0 12 false []), Action.out (net0 []) [36, 89] false]))
          = [Event.client_print 0 PASS]
      ∨ ∃ ws, sentTo 0 (flat (run P0 S0
          (state0 [{ client := none, connect_ts := 0, ack := false }] 0)
        [Action.loop (loop0 10 true []), Action.out (net0 []) [36, 88] false,
         Action.loop (loop0 12 false []), Action.out (net0 []) [36, 89] false]))
            = Event.client_print 0 PASS :: Event.client_print 0 AOK :: ws
          ∧ ∀ e ∈ ws, ∃ d, e = Event.client_write 0 d)
    ∧ sentTo 0 (flat (run P0 S0 (state0 [{ client := none, connect_ts := 0, ack := false }] 0)
        [Action.loop (loop0 10 true []), Action.out (net0 []) [36, 88] false,
         Action.loop (loop0 12 false []), Action.out (net0 []) [36, 89] false]))
      = [Event.client_print 0 PASS, Event.client_print 0 AOK, Event.client_write 0 [36, 89]] :=
  ⟨(NMEA_TCP_handshake_gate P0 S0 rfl
      (state0 [{ client := none, connect_ts := 0, ack := false }] 0) (by decide)
      [Action.loop (loop0 10 true []), Action.out (net0 []) [36, 88] false,
       Action.loop (loop0 12 false []), Action.out (net0 []) [36, 89] false] 0).1,
    by decide⟩

/-! ## The transport dispatcher -/

theorem NMEA_Out_TCP_eq_dispatch (net : Net) (buf : List Nat) (nl : Bool)
    (slots : List NmeaTCP_t) :
    NMEA_Out_TCP net buf nl slots = slots.flatMap (dispatchSlot net buf nl) := by
  induction slots with
  | nil => rfl
  | cons s rest ih =>
    rw [NMEA_Out_TCP, ih, List.flatMap_cons]
    congr 1
    unfold dispatchSlot slotBusy
    cases hc : s.client with
    | none => simp [clientBool]
    | some c =>
      cases h1 : net.truthy c <;> cases h2 : net.connected c <;> cases h3 : s.ack <;>
        simp [clientBool, clientConnected, h1, h2]

/-- Claim C11. For every slot array, byte sequence and newline flag, NMEA_Out in
TCP mode leaves the whole state, and so every slot, as it was, and its events
are, slot by slot in index order: for a slot that holds a live connection and
is acknowledged, one write of the given bytes to its client, followed by a write
of a line feed exactly when the flag is set; for a slot that is not
acknowledged or whose connection is not live, nothing. -/
theorem NMEA_Out_TCP_targets (P : Platform) (settings : Settings) (net : Net) (st : State)
    (buf : List Nat) (nl : Bool) (hmode : settings.nmea_out = .NMEA_TCP) :
    (NMEA_Out P settings net st buf nl).1 = st
    ∧ (NMEA_Out P settings net st buf nl).2 = st.NmeaTCP.flatMap (dispatchSlot net buf nl)
    ∧ (∀ s ∈ st.NmeaTCP, ∀ c, s.client = some c → net.truthy c = true →
        net.connected c = true → s.ack = true →
        dispatchSlot net buf nl s
          = Event.client_write c buf :: (if nl then [Event.client_write c [10]] else []))
    ∧ (∀ s ∈ st.NmeaTCP,
        (s.ack = false ∨ clientBool net s.client = false
          ∨ clientConnected net s.client = false) →
        dispatchSlot net buf nl s = []) := by
  have hout : NMEA_Out P settings net st buf nl = (st, NMEA_Out_TCP net buf nl st.NmeaTCP) := by
    unfold NMEA_Out
    rw [hmode]
  rw [hout]
  refine ⟨rfl, NMEA_Out_TCP_eq_dispatch net buf nl st.NmeaTCP, ?_, ?_⟩
  · intro s _ c hc h1 h2 h3
    unfold dispatchSlot slotBusy
    rw [hc]
    simp [clientBool, clientConnected, h1, h2, h3]
  · intro s _ h
    unfold dispatchSlot slotBusy
    rcases h with h | h | h <;> simp [h]

/-- Claim C11 on three slots: acknowledged and live, live but not acknowledged,
and empty. -/
theorem NMEA_Out_TCP_targets_witness :
    (NMEA_Out P0 S0 (net0 []) (state0
        [{ client := some 0, connect_ts := 10, ack := true },
         { client := some 1, connect_ts := 11, ack := false },
         { client := none, connect_ts := 0, ack := false }] 2) [36, 88] true).2
      = [Event.client_write 0 [36, 88], Event.client_write 0 [10]] :=
  (NMEA_Out_TCP_targets P0 S0 (net0 []) (state0
        [{ client := some 0, connect_ts := 10, ack := true },
         { client := some 1, connect_ts := 11, ack := false },
         { client := none, connect_ts := 0, ack := false }] 2) [36, 88] true rfl).2.1.trans
    (by decide)

theorem NMEA_Out_UDP_eq (P : Platform) (settings : Settings) (net : Net) (st : State)
    (buf : List Nat) (nl : Bool) (hmode : settings.nmea_out = .NMEA_UDP) :
    (NMEA_Out P settings net st buf nl).2
        = [Event.udp_transmit P.NMEA_UDP_PORT (udpPacket buf nl)]
    ∧ (NMEA_Out P settings net st buf nl).1.UDPpacketBuffer
        = udpPacket buf nl ++ st.UDPpacketBuffer.drop (udpPacket buf nl).length := by
  have hsize : (if buf.length ≥ 256 then 256 - 1 else buf.length) = min buf.length 255 := by
    split <;> omega
  have htl : (buf.take (min buf.length 255)).length = min buf.length 255 := by
    rw [List.length_take]
    omega
  have hb1 : writeAt st.UDPpacketBuffer 0 (buf.take (min buf.length 255))
      = buf.take (min buf.length 255) ++ st.UDPpacketBuffer.drop (min buf.length 255) := by
    unfold writeAt
    rw [htl]
    simp
  have h1 := take_drop_of_append (buf.take (min buf.length 255)) []
    (st.UDPpacketBuffer.drop (min buf.length 255)) (min buf.length 255) htl
  simp only [List.append_nil, List.nil_append] at h1
  have hb2 : writeAt (buf.take (min buf.length 255)
        ++ st.UDPpacketBuffer.drop (min buf.length 255)) (min buf.length 255) [10]
      = buf.take (min buf.length 255) ++ [10]
        ++ st.UDPpacketBuffer.drop (min buf.length 255 + 1) := by
    unfold writeAt
    rw [h1.1]
    congr 1
    have h2 : (buf.take (min buf.length 255)
        ++ st.UDPpacketBuffer.drop (min buf.length 255)).drop (min buf.length 255 + [10].length)
        = (st.UDPpacketBuffer.drop (min buf.length 255)).drop 1 := by
      rw [← List.drop_drop]
      rw [h1.2]
      rfl
    rw [h2, List.drop_drop]
  unfold NMEA_Out udpPacket
  rw [hmode]
  simp only [hsize, hb1]
  cases nl with
  | true =>
    simp only [if_true, hb2, List.length_append, htl, List.length_singleton]
    have h3 := take_drop_of_append (buf.take (min buf.length 255) ++ [10]) []
      (st.UDPpacketBuffer.drop (min buf.length 255 + 1)) (min buf.length 255 + 1)
      (by simp [htl])
    simp only [List.append_nil, List.nil_append] at h3
    rw [h3.1]
    constructor <;> first | rfl | trivial
  | false =>
    simp only [Bool.false_eq_true, if_false, List.append_nil, htl]
    rw [h1.1]
    constructor <;> first | rfl | trivial

theorem length_udpPacket (buf : List Nat) (nl : Bool) :
    (udpPacket buf nl).length = min buf.length 255 + (if nl then 1 else 0) := by
  unfold udpPacket
  have htl : (buf.take (min buf.length 255)).length = min buf.length 255 := by
    rw [List.length_take]
    omega
  cases nl <;> simp [htl]

/-- Claim C12. For every input and newline flag, NMEA_Out in UDP mode, on a
packet buffer of 256 bytes, hands WiFi_transmit_UDP one packet: the first
min(size, 255) input bytes, followed by a line feed exactly when the flag is
set.  Its length is min(size, 255) plus 1 for the line feed, at most 256.  The
packet buffer keeps its 256 bytes: it holds the packet, and its bytes after the
packet are unchanged, so nothing is stored outside it. -/
theorem NMEA_Out_UDP_packet (P : Platform) (settings : Settings) (net : Net) (st : State)
    (buf : List Nat) (nl : Bool) (hmode : settings.nmea_out = .NMEA_UDP)
    (hcap : st.UDPpacketBuffer.length = 256) :
    (NMEA_Out P settings net st buf nl).2
      = [Event.udp_transmit P.NMEA_UDP_PORT
          (buf.take (min buf.length 255) ++ (if nl then [10] else []))]
    ∧ (buf.take (min buf.length 255) ++ (if nl then [10] else [])).length
        = min buf.length 255 + (if nl then 1 else 0)
    ∧ (buf.take (min buf.length 255) ++ (if nl then [10] else [])).length ≤ 256
    ∧ (NMEA_Out P settings net st buf nl).1.UDPpacketBuffer.length = 256
    ∧ (NMEA_Out P settings net st buf nl).1.UDPpacketBuffer
        = (buf.take (min buf.length 255) ++ (if nl then [10] else []))
          ++ st.UDPpacketBuffer.drop
              (buf.take (min buf.length 255) ++ (if nl then [10] else [])).length := by
  have heq := NMEA_Out_UDP_eq P settings net st buf nl hmode
  have hlen := length_udpPacket buf nl
  have hle : (udpPacket buf nl).length ≤ 256 := by
    rw [hlen]
    split <;> omega
  refine ⟨heq.1, hlen, hle, ?_, heq.2⟩
  rw [heq.2, List.length_append, List.length_drop, hcap]
  omega

/-- Claim C12 on an input of 300 bytes with a line feed. -/
theorem NMEA_Out_UDP_packet_witness :
    (List.take (min (List.replicate 300 65).length 255) (List.replicate 300 65)
        ++ (if true = true then [10] else [])).length ≤ 256
    ∧ (NMEA_Out P0 { S0 with nmea_out := .NMEA_UDP } (net0 []) (state0 [] 0)
        (List.replicate 300 65) true).1.UDPpacketBuffer.length = 256 :=
  have h := NMEA_Out_UDP_packet P0 { S0 with nmea_out := .NMEA_UDP } (net0 []) (state0 [] 0)
    (List.replicate 300 65) true rfl (List.length_replicate 256 0)
  ⟨h.2.2.1, h.2.2.2.1⟩

/-! ## The PFLAU fields in particular tables -/

/-- Claim C14. With traffic sentences enabled and ALARM_ZONE_NONE at most
2147483647, and so below the initial HP_distance, on a table whose only live
entry e is closer than
ALARM_ZONE_NONE, the PFLAU call reports total_objects 1, the alarm level of e,
its bearing (rebased), its altitude minus the own-ship altitude, truncated, and
its distance, truncated. -/
theorem NMEA_Export_single_target (P : Platform) (settings : Settings)
    (ThisAircraft : ufo_t) (this_moment : Int) (pre post : List ufo_t) (e : ufo_t)
    (hl : settings.nmea_l = true) (hz : P.ALARM_ZONE_NONE ≤ 2147483647)
    (he : isLive P this_moment e = true) (hd : e.distance < P.ALARM_ZONE_NONE)
    (hpre : ∀ x ∈ pre, isLive P this_moment x = false)
    (hpost : ∀ x ∈ post, isLive P this_moment x = false) :
    (NMEA_Export_sentences P settings ThisAircraft this_moment (pre ++ e :: post)).filter
        Sentence.isPFLAU
      = [Sentence.PFLAU 1 P.TX_STATUS_ON P.GNSS_STATUS_3D_MOVING P.POWER_STATUS_GOOD
          e.alarm_level
          (if f2i e.bearing < 180 then f2i e.bearing else f2i e.bearing - 360)
          P.ALARM_TYPE_AIRCRAFT (f2i (P.fsub e.altitude ThisAircraft.altitude))
          (f2i e.distance)] := by
  have hsel := scan_select P settings ThisAircraft this_moment pre post e hl hz
    (by simp [isShown, he, hd])
    (fun x hx hs => by simp [isShown, hpre x hx] at hs)
    (fun x hx hs => by simp [isShown, hpost x hx] at hs)
  have hcount : ((pre ++ e :: post).filter (isLive P this_moment)).length = 1 := by
    rw [List.filter_append, List.filter_cons_of_pos he,
      filter_eq_nil_of_false _ pre hpre, filter_eq_nil_of_false _ post hpost]
    rfl
  rw [NMEA_Export_filter_PFLAU, if_pos hl, hsel, hcount]
  rfl

/-- Claim C14 on the entry at 1000 m, bearing 90, altitude 600 m, alarm level 2,
next to an entry with a zero address and an expired one, with the own ship at
500 m: the fields are 1, 2, 90, 100 and 1000. -/
theorem NMEA_Export_single_target_witness :
    (NMEA_Export_sentences P0 S0 own0 100
        ([target0 0 50 0 0 3] ++ target0 11259375 1000 90 600 2 ::
          [{ target0 12 70 10 0 1 with timestamp := 1 }])).filter Sentence.isPFLAU
      = [Sentence.PFLAU 1 1 2 1 2 90 2 100 1000] :=
  (NMEA_Export_single_target P0 S0 own0 100 [target0 0 50 0 0 3]
    [{ target0 12 70 10 0 1 with timestamp := 1 }] (target0 11259375 1000 90 600 2)
    rfl (by decide) (by decide) (by decide) (by decide) (by decide)).trans
    (by norm_num [P0, target0, own0, f2i])

/-- Claim C17. Whenever NMEA_loop emits a PGRMZ sentence (nmea_s set, a
non-zero pressure altitude, more than 1000 ms since the last one), the sentence
is the PGRMZ call with the altitude a, a is between -1000 and 60000, equal to
the pressure altitude converted to feet and truncated when that lies in the
range, -1000 when it lies below and 60000 when it lies above, and the text is
$PGRMZ, then a in decimal, then the fixed tags f and 3 and the asterisk. -/
theorem NMEA_loop_PGRMZ_clamp (P : Platform) (settings : Settings) (inp : LoopInput)
    (st : State) (hs : settings.nmea_s = true)
    (hp : inp.ThisAircraft.pressure_altitude ≠ 0)
    (ht : (inp.millis + 2 ^ 32 - st.PGRMZ_TimeMarker) % 2 ^ 32 > 1000) :
    (NMEA_loop_PGRMZ P settings inp st).2
      = (NMEA_emit P settings inp.net (st, []) (.PGRMZ (PGRMZ_altitude P inp))).2
    ∧ (NMEA_loop_PGRMZ P settings inp st).1.NMEABuffer
      = NMEA_frame P st.NMEABuffer (.PGRMZ (PGRMZ_altitude P inp))
    ∧ -1000 ≤ PGRMZ_altitude P inp ∧ PGRMZ_altitude P inp ≤ 60000
    ∧ (-1000 ≤ f2i (P.meters_to_feet inp.ThisAircraft.pressure_altitude) →
        f2i (P.meters_to_feet inp.ThisAircraft.pressure_altitude) ≤ 60000 →
        PGRMZ_altitude P inp = f2i (P.meters_to_feet inp.ThisAircraft.pressure_altitude))
    ∧ (f2i (P.meters_to_feet inp.ThisAircraft.pressure_altitude) < -1000 →
        PGRMZ_altitude P inp = -1000)
    ∧ (60000 < f2i (P.meters_to_feet inp.ThisAircraft.pressure_altitude) →
        PGRMZ_altitude P inp = 60000)
    ∧ (Sentence.PGRMZ (PGRMZ_altitude P inp)).text P
      = [36, 80, 71, 82, 77, 90, 44] ++ fmt_d (PGRMZ_altitude P inp) ++ [44, 102, 44, 51, 42] := by
  have hcond : (settings.nmea_s && decide (inp.ThisAircraft.pressure_altitude ≠ 0)
      && decide ((inp.millis + 2 ^ 32 - st.PGRMZ_TimeMarker) % 2 ^ 32 > 1000)) = true := by
    rw [hs, decide_eq_true hp, decide_eq_true ht]
    rfl
  have hloop : NMEA_loop_PGRMZ P settings inp st
      = ({ (NMEA_emit P settings inp.net (st, []) (.PGRMZ (PGRMZ_altitude P inp))).1 with
            PGRMZ_TimeMarker := inp.millis },
          (NMEA_emit P settings inp.net (st, []) (.PGRMZ (PGRMZ_altitude P inp))).2) := by
    unfold NMEA_loop_PGRMZ PGRMZ_altitude
    rw [if_pos hcond]
  have hbuf : (NMEA_emit P settings inp.net (st, []) (.PGRMZ (PGRMZ_altitude P inp))).1.NMEABuffer
      = NMEA_frame P st.NMEABuffer (.PGRMZ (PGRMZ_altitude P inp)) := by
    unfold NMEA_emit NMEA_Out
    cases settings.nmea_out <;> rfl
  rw [hloop]
  refine ⟨rfl, hbuf, ?_, ?_, ?_, ?_, ?_, rfl⟩
  · unfold PGRMZ_altitude constrain
    split
    · exact le_refl _
    · split <;> omega
  · unfold PGRMZ_altitude constrain
    split
    · norm_num
    · split <;> omega
  · intro h1 h2
    unfold PGRMZ_altitude constrain
    rw [if_neg (by omega), if_neg (by omega)]
  · intro h1
    unfold PGRMZ_altitude constrain
    rw [if_pos h1]
  · intro h1
    unfold PGRMZ_altitude constrain
    rw [if_neg (by omega), if_pos h1]

/-- Claim C17 at the pressure altitudes 100 and 70000 (in the unit that the
sample platform passes through unchanged). -/
theorem NMEA_loop_PGRMZ_clamp_witness :
    PGRMZ_altitude P0 (loop1 100) = 100 ∧ PGRMZ_altitude P0 (loop1 70000) ≤ 60000 :=
  ⟨((NMEA_loop_PGRMZ_clamp P0 S0 (loop1 100) (state0 [] 0)
      rfl (by decide) (by decide)).2.2.2.2.1 (by decide) (by decide)).trans (by decide),
   (NMEA_loop_PGRMZ_clamp P0 S0 (loop1 70000) (state0 [] 0)
      rfl (by decide) (by decide)).2.2.2.1⟩

theorem ltrim_head (s : List Nat) : ∀ c rest, ltrim s = c :: rest → isspace c = false := by
  induction s with
  | nil => intro c rest h; simp [ltrim] at h
  | cons x xs ih =>
    intro c rest h
    unfold ltrim at h
    by_cases hx : x = 32 ∨ (9 ≤ x ∧ x ≤ 13)
    · rw [if_pos hx] at h
      exact ih c rest h
    · rw [if_neg hx] at h
      simp only [List.cons.injEq] at h
      rw [← h.1]
      unfold isspace
      exact decide_eq_false hx

/-- Every PFLAA call of NMEA_Export is the PFLAA call of a live table entry. -/
theorem NMEA_Export_PFLAA_origin (P : Platform) (settings : Settings) (ThisAircraft : ufo_t)
    (this_moment : Int) (Container : List ufo_t) (s : Sentence)
    (hs : s ∈ NMEA_Export_sentences P settings ThisAircraft this_moment Container)
    (hf : s.climbField ≠ none) :
    ∃ fo ∈ Container, isLive P this_moment fo = true ∧ s = PFLAA_of P ThisAircraft fo := by
  unfold NMEA_Export_sentences NMEA_Export_scan at hs
  rw [scan_sentences] at hs
  simp only [List.nil_append, List.mem_append, List.mem_flatMap, List.mem_filter,
    List.mem_cons, List.mem_singleton, List.not_mem_nil, or_false] at hs
  rcases hs with (⟨fo, ⟨hfo, hsh⟩, h | h⟩ | h) | h
  · refine ⟨fo, hfo, ?_, h⟩
    unfold isShown at hsh
    simp only [Bool.and_eq_true] at hsh
    exact hsh.2.1
  · rw [h] at hf
    exact absurd rfl hf
  · by_cases hl : settings.nmea_l = true
    · rw [if_pos hl, List.mem_singleton] at h
      rw [h] at hf
      exact absurd rfl hf
    · rw [if_neg hl] at h
      cases h
  · rw [h] at hf
    exact absurd rfl hf

/-- Claim C19. Every PFLAA call of NMEA_Export comes from a live table entry fo,
and its climb-rate field is empty whenever the stealth flag of fo or of the own
ship is set; it is the string stored by dtostrf, without its leading white
space, when both flags are clear; so it is non-empty only when both flags are
clear, and it never starts with white space. -/
theorem NMEA_Export_stealth_climb (P : Platform) (settings : Settings) (ThisAircraft : ufo_t)
    (this_moment : Int) (Container : List ufo_t) (s : Sentence) (field : List Nat)
    (hs : s ∈ NMEA_Export_sentences P settings ThisAircraft this_moment Container)
    (hf : s.climbField = some field) :
    ∃ fo ∈ Container, isLive P this_moment fo = true ∧ s = PFLAA_of P ThisAircraft fo
      ∧ (fo.stealth = true ∨ ThisAircraft.stealth = true → field = [])
      ∧ (fo.stealth = false → ThisAircraft.stealth = false →
          field = ltrim (P.climb_rate fo.vs))
      ∧ (field ≠ [] → fo.stealth = false ∧ ThisAircraft.stealth = false)
      ∧ (∀ c rest, field = c :: rest → isspace c = false) := by
  obtain ⟨fo, hfo, hlive, hsfo⟩ := NMEA_Export_PFLAA_origin P settings ThisAircraft
    this_moment Container s hs (by rw [hf]; exact fun h => by cases h)
  have hfield : field
      = ltrim (if !fo.stealth && !ThisAircraft.stealth then P.climb_rate fo.vs else []) := by
    rw [hsfo] at hf
    simp only [PFLAA_of, Sentence.climbField, Option.some.injEq] at hf
    exact hf.symm
  refine ⟨fo, hfo, hlive, hsfo, ?_, ?_, ?_, ?_⟩
  · intro h
    rw [hfield]
    rcases h with h | h <;> simp [h, ltrim]
  · intro h1 h2
    rw [hfield]
    simp [h1, h2]
  · intro hne
    cases h1 : fo.stealth <;> cases h2 : ThisAircraft.stealth <;>
      simp [hfield, h1, h2, ltrim] at hne ⊢
  · intro c rest hc
    rw [hfield] at hc
    exact ltrim_head _ c rest hc

/-- Claim C19 on a table with a stealth target and an open one: the PFLAA call
of the stealth target has an empty climb-rate field. -/
theorem NMEA_Export_stealth_climb_witness :
    ∃ fo ∈ [{ target0 10 3000 10 600 1 with stealth := true }, target0 11 1000 90 600 2],
      isLive P0 100 fo = true
      ∧ PFLAA_of P0 own0 { target0 10 3000 10 600 1 with stealth := true }
          = PFLAA_of P0 own0 fo :=
  (NMEA_Export_stealth_climb P0 S0 own0 100
    [{ target0 10 3000 10 600 1 with stealth := true }, target0 11 1000 90 600 2]
    (PFLAA_of P0 own0 { target0 10 3000 10 600 1 with stealth := true }) []
    (by
      unfold NMEA_Export_sentences NMEA_Export_scan
      rw [scan_sentences]
      apply List.mem_append_left
      apply List.mem_append_left
      rw [List.nil_append, List.filter_cons_of_pos (by decide), List.flatMap_cons]
      exact List.mem_append_left _ (List.mem_cons_self _ _))
    rfl).imp (fun _ h => ⟨h.1, h.2.1, h.2.2.1⟩)

/-! ## The sentence buffer -/

theorem strlen_append_zero (a rest : List Nat) (ha : ∀ b ∈ a, (b != 0) = true) :
    strlen (a ++ 0 :: rest) = a.length := by
  rw [← length_cstr, cstr_append a rest ha]

theorem strlen_append_le (a rest : List Nat) : strlen (a ++ 0 :: rest) ≤ a.length := by
  induction a with
  | nil => simp [strlen]
  | cons x xs ih =>
    unfold strlen at ih ⊢
    by_cases hx : (x != 0) = true
    · simp only [List.cons_append, List.takeWhile_cons, hx, if_true, List.length_cons]
      omega
    · simp only [List.cons_append, List.takeWhile_cons, hx]
      simp

theorem length_snprintf_bytes (limit : Nat) (text : List Nat) :
    (snprintf_bytes limit text).length ≤ limit := by
  unfold snprintf_bytes
  split
  · simp
  · rw [List.length_append, List.length_take, List.length_singleton]
    omega

theorem length_writeAt (buf : List Nat) (off : Nat) (bytes : List Nat)
    (h : off + bytes.length ≤ buf.length) : (writeAt buf off bytes).length = buf.length := by
  unfold writeAt
  simp only [List.length_append, List.length_take, List.length_drop]
  omega

/-- NMEABuffer after the snprintf_P call of a sentence: the text, cut to the
capacity less one, then NUL, then what the buffer held before. -/
theorem snprintf_NMEABuffer (size : Nat) (buf text : List Nat) (hsize : 0 < size) :
    writeAt buf 0 (snprintf_bytes size text)
      = text.take (size - 1) ++ 0 :: buf.drop ((text.take (size - 1)).length + 1) := by
  unfold writeAt snprintf_bytes
  rw [if_neg (by omega)]
  simp

/-- Claim C20. The limit that every call site passes to NMEA_add_checksum, all
of which go through NMEA_frame, is sizeof(NMEABuffer) - strlen(NMEABuffer), with
no wrap-around, and the sentence is then shorter than the buffer.  And for
every buffer of capacity C that holds a sentence of length L < C, the call with
limit C - L keeps the capacity C, keeps the bytes at offsets below L, and stores
at offset L a run of at most C - L bytes, the terminating NUL included: nothing
is stored at or beyond offset C. -/
theorem NMEA_add_checksum_in_bounds (P : Platform) (NMEABuffer : List Nat) (s : Sentence)
    (buf : List Nat)
    (hcap : NMEABuffer.length = P.NMEA_BUFFER_SIZE) (hsize : 0 < P.NMEA_BUFFER_SIZE)
    (h32 : P.NMEA_BUFFER_SIZE < 2 ^ 32) (hL : strlen buf < buf.length) :
    (strlen (writeAt NMEABuffer 0 (snprintf_bytes P.NMEA_BUFFER_SIZE (s.text P)))
        < P.NMEA_BUFFER_SIZE
      ∧ (writeAt NMEABuffer 0 (snprintf_bytes P.NMEA_BUFFER_SIZE (s.text P))).length
        = P.NMEA_BUFFER_SIZE
      ∧ NMEA_frame P NMEABuffer s
        = NMEA_add_checksum (writeAt NMEABuffer 0 (snprintf_bytes P.NMEA_BUFFER_SIZE (s.text P)))
            (P.NMEA_BUFFER_SIZE
              - strlen (writeAt NMEABuffer 0 (snprintf_bytes P.NMEA_BUFFER_SIZE (s.text P))))
      ∧ (NMEA_frame P NMEABuffer s).length = P.NMEA_BUFFER_SIZE)
    ∧ (NMEA_add_checksum buf (buf.length - strlen buf)).length = buf.length
    ∧ (NMEA_add_checksum buf (buf.length - strlen buf)).take (strlen buf)
        = buf.take (strlen buf)
    ∧ ∃ stored : List Nat, stored.length ≤ buf.length - strlen buf
        ∧ NMEA_add_checksum buf (buf.length - strlen buf)
          = buf.take (strlen buf) ++ stored ++ buf.drop (strlen buf + stored.length) := by
  have key : ∀ b : List Nat, strlen b < b.length →
      (NMEA_add_checksum b (b.length - strlen b)).length = b.length
      ∧ (NMEA_add_checksum b (b.length - strlen b)).take (strlen b) = b.take (strlen b)
      ∧ ∃ stored : List Nat, stored.length ≤ b.length - strlen b
          ∧ NMEA_add_checksum b (b.length - strlen b)
            = b.take (strlen b) ++ stored ++ b.drop (strlen b + stored.length) := by
    intro b hb
    have hw := length_snprintf_bytes (b.length - strlen b)
      (fmt_02X (NMEA_checksum b (strlen b)) ++ [13, 10])
    have htake : (b.take (strlen b)).length = strlen b := by
      rw [List.length_take]; omega
    refine ⟨?_, ?_, ⟨_, hw, rfl⟩⟩
    · unfold NMEA_add_checksum
      exact length_writeAt b _ _ (by omega)
    · unfold NMEA_add_checksum writeAt
      exact (take_drop_of_append _ _ _ _ htake).1
  have hb1 := snprintf_NMEABuffer P.NMEA_BUFFER_SIZE NMEABuffer (s.text P) hsize
  have hlen1 : (writeAt NMEABuffer 0 (snprintf_bytes P.NMEA_BUFFER_SIZE (s.text P))).length
      = P.NMEA_BUFFER_SIZE := by
    have hw := length_snprintf_bytes P.NMEA_BUFFER_SIZE (s.text P)
    exact (length_writeAt NMEABuffer 0 _ (by omega)).trans hcap
  have hstr : strlen (writeAt NMEABuffer 0 (snprintf_bytes P.NMEA_BUFFER_SIZE (s.text P)))
      < P.NMEA_BUFFER_SIZE := by
    rw [hb1]
    have h1 := strlen_append_le ((s.text P).take (P.NMEA_BUFFER_SIZE - 1))
      (NMEABuffer.drop (((s.text P).take (P.NMEA_BUFFER_SIZE - 1)).length + 1))
    have h2 : ((s.text P).take (P.NMEA_BUFFER_SIZE - 1)).length ≤ P.NMEA_BUFFER_SIZE - 1 := by
      rw [List.length_take]; omega
    omega
  have hframe : NMEA_frame P NMEABuffer s
      = NMEA_add_checksum (writeAt NMEABuffer 0 (snprintf_bytes P.NMEA_BUFFER_SIZE (s.text P)))
          (P.NMEA_BUFFER_SIZE
            - strlen (writeAt NMEABuffer 0 (snprintf_bytes P.NMEA_BUFFER_SIZE (s.text P)))) := by
    unfold NMEA_frame
    congr 1
    omega
  refine ⟨⟨hstr, hlen1, hframe, ?_⟩, key buf hL⟩
  rw [hframe]
  have h := (key (writeAt NMEABuffer 0 (snprintf_bytes P.NMEA_BUFFER_SIZE (s.text P)))
    (by omega)).1
  rw [hlen1] at h
  exact h

/-- Claim C20 on a buffer of 8 bytes that holds a sentence of 6: two bytes are
stored, a digit and the NUL. -/
theorem NMEA_add_checksum_in_bounds_witness :
    (NMEA_add_checksum [36, 65, 66, 67, 68, 42, 0, 9] (8 - 6)).length = 8
    ∧ (NMEA_frame P0 (List.replicate 128 0) (.PGRMZ 100)).length = 128 :=
  have h := NMEA_add_checksum_in_bounds P0 (List.replicate 128 0) (.PGRMZ 100)
    [36, 65, 66, 67, 68, 42, 0, 9] (List.length_replicate 128 0) (by decide) (by decide)
    (by decide)
  ⟨h.2.1, h.1.2.2.2⟩

/-- Claim C18, as amended. When the formatted text of a sentence does not fit
the buffer (its length is at least the capacity), snprintf_P keeps its first
capacity - 1 bytes, NMEA_add_checksum is called with the limit 1 and stores
only the terminating NUL, and the bytes handed to NMEA_Out are those first
capacity - 1 bytes of the text: no checksum digits and no CR LF follow. -/
theorem NMEA_frame_truncated (P : Platform) (NMEABuffer : List Nat) (s : Sentence)
    (hsize : 0 < P.NMEA_BUFFER_SIZE) (h32 : P.NMEA_BUFFER_SIZE < 2 ^ 32)
    (hlong : P.NMEA_BUFFER_SIZE ≤ (s.text P).length)
    (hnz : ∀ b ∈ s.text P, b ≠ 0) :
    strlen (writeAt NMEABuffer 0 (snprintf_bytes P.NMEA_BUFFER_SIZE (s.text P)))
      = P.NMEA_BUFFER_SIZE - 1
    ∧ (P.NMEA_BUFFER_SIZE + 2 ^ 32
        - strlen (writeAt NMEABuffer 0 (snprintf_bytes P.NMEA_BUFFER_SIZE (s.text P))))
      % 2 ^ 32 = 1
    ∧ cstr (NMEA_frame P NMEABuffer s) = (s.text P).take (P.NMEA_BUFFER_SIZE - 1)
    ∧ (cstr (NMEA_frame P NMEABuffer s)).length = P.NMEA_BUFFER_SIZE - 1 := by
  have hb1 := snprintf_NMEABuffer P.NMEA_BUFFER_SIZE NMEABuffer (s.text P) hsize
  have hplen : ((s.text P).take (P.NMEA_BUFFER_SIZE - 1)).length = P.NMEA_BUFFER_SIZE - 1 := by
    rw [List.length_take]; omega
  have hpnz : ∀ b ∈ (s.text P).take (P.NMEA_BUFFER_SIZE - 1), (b != 0) = true := by
    intro b hb
    simpa using hnz b (List.mem_of_mem_take hb)
  have hstr : strlen (writeAt NMEABuffer 0 (snprintf_bytes P.NMEA_BUFFER_SIZE (s.text P)))
      = P.NMEA_BUFFER_SIZE - 1 := by
    rw [hb1, strlen_append_zero _ _ hpnz, hplen]
  have hlim : (P.NMEA_BUFFER_SIZE + 2 ^ 32
        - strlen (writeAt NMEABuffer 0 (snprintf_bytes P.NMEA_BUFFER_SIZE (s.text P))))
      % 2 ^ 32 = 1 := by
    rw [hstr]; omega
  have hframe : NMEA_frame P NMEABuffer s
      = (s.text P).take (P.NMEA_BUFFER_SIZE - 1)
        ++ 0 :: NMEABuffer.drop (((s.text P).take (P.NMEA_BUFFER_SIZE - 1)).length + 1) := by
    unfold NMEA_frame
    rw [hlim]
    unfold NMEA_add_checksum
    simp only [hstr]
    have hone : ∀ text : List Nat, snprintf_bytes 1 text = [0] := by
      intro text
      simp [snprintf_bytes]
    rw [hone, hb1]
    unfold writeAt
    have h := take_drop_of_append ((s.text P).take (P.NMEA_BUFFER_SIZE - 1)) [0]
      (NMEABuffer.drop (((s.text P).take (P.NMEA_BUFFER_SIZE - 1)).length + 1))
      (P.NMEA_BUFFER_SIZE - 1) hplen
    have h2 := take_drop_of_append ((s.text P).take (P.NMEA_BUFFER_SIZE - 1) ++ [0]) []
      (NMEABuffer.drop (((s.text P).take (P.NMEA_BUFFER_SIZE - 1)).length + 1))
      (P.NMEA_BUFFER_SIZE - 1 + [0].length) (by simp [hplen])
    simp only [List.append_assoc, List.singleton_append, List.nil_append] at h h2
    rw [h.1, h2.2]
    simp
  have hc : cstr (NMEA_frame P NMEABuffer s) = (s.text P).take (P.NMEA_BUFFER_SIZE - 1) := by
    rw [hframe]
    exact cstr_append _ _ hpnz
  exact ⟨hstr, hlim, hc, by rw [hc, hplen]⟩

/-- Claim C18, as amended, on the PFLAU call of an empty table in a buffer of 24
bytes: the first 23 bytes of the text are handed over. -/
theorem NMEA_frame_truncated_witness :
    cstr (NMEA_frame { P0 with NMEA_BUFFER_SIZE := 24 } (List.replicate 24 0)
        (PFLAU_of P0 0 (HP_init P0)))
      = [36, 80, 70, 76, 65, 85, 44, 48, 44, 49, 44, 50, 44, 49, 44, 48, 44, 48, 44, 50, 44,
          48, 44] :=
  (NMEA_frame_truncated { P0 with NMEA_BUFFER_SIZE := 24 } (List.replicate 24 0)
    (PFLAU_of P0 0 (HP_init P0)) (by decide) (by decide) (by decide) (by decide)).2.2.1.trans
    (by decide)

/-- Claim C18 as stated fails: in a buffer of 24 bytes the PFLAU text of an
empty table, 34 bytes long, is cut to 23 bytes, and these 23 bytes are all that
is handed to NMEA_Out; the last of them is a comma, no asterisk, checksum digit,
CR or LF is among them, and a receiver's check rejects them. -/
theorem NMEA_frame_truncated_counterexample :
    ((PFLAU_of P0 0 (HP_init P0)).text { P0 with NMEA_BUFFER_SIZE := 24 }).length = 34
    ∧ NMEA_calls { P0 with NMEA_BUFFER_SIZE := 24 } (List.replicate 24 0)
        [PFLAU_of P0 0 (HP_init P0)]
      = [(PFLAU_of P0 0 (HP_init P0),
          [36, 80, 70, 76, 65, 85, 44, 48, 44, 49, 44, 50, 44, 49, 44, 48, 44, 48, 44, 50, 44,
            48, 44])]
    ∧ nmeaVerify [36, 80, 70, 76, 65, 85, 44, 48, 44, 49, 44, 50, 44, 49, 44, 48, 44, 48, 44,
        50, 44, 48, 44] = false := by
  decide

/-! ## Decimal and hexadecimal conversions -/

theorem digitsAux_acc (b : Nat) (fuel v : Nat) (acc : List Nat) :
    digitsAux b fuel v acc = digitsAux b fuel v [] ++ acc := by
  induction fuel generalizing v acc with
  | zero => simp [digitsAux]
  | succ f ih =>
    unfold digitsAux
    by_cases h : v < b
    · simp [h]
    · rw [if_neg h, if_neg h, ih (v / b) ((v % b) :: acc), ih (v / b) [v % b]]
      simp

theorem digitsAux_lt (b : Nat) (hb : 0 < b) (fuel v : Nat) (acc : List Nat) :
    ∀ d ∈ digitsAux b fuel v acc, d < b ∨ d ∈ acc := by
  induction fuel generalizing v acc with
  | zero => intro d hd; exact Or.inr hd
  | succ f ih =>
    intro d hd
    unfold digitsAux at hd
    by_cases h : v < b
    · rw [if_pos h] at hd
      rcases List.mem_cons.mp hd with hd | hd
      · exact Or.inl (hd ▸ h)
      · exact Or.inr hd
    · rw [if_neg h] at hd
      rcases ih (v / b) _ d hd with h1 | h1
      · exact Or.inl h1
      · rcases List.mem_cons.mp h1 with h2 | h2
        · exact Or.inl (h2 ▸ Nat.mod_lt v hb)
        · exact Or.inr h2

theorem natDigits_lt (b : Nat) (hb : 0 < b) (v : Nat) : ∀ d ∈ natDigits b v, d < b := by
  intro d hd
  rcases digitsAux_lt b hb (v + 1) v [] d hd with h | h
  · exact h
  · cases h

theorem natDigits_ne_nil (b v : Nat) : natDigits b v ≠ [] := by
  unfold natDigits digitsAux
  by_cases h : v < b
  · rw [if_pos h]; exact List.cons_ne_nil _ _
  · rw [if_neg h, digitsAux_acc]
    simp

theorem fixedDigits_zero (b k : Nat) : fixedDigits b k 0 = List.replicate k 0 := by
  induction k with
  | zero => rfl
  | succ k ih =>
    unfold fixedDigits
    rw [Nat.zero_div, ih, Nat.zero_mod]
    exact (List.replicate_succ' k 0).symm

/-- The digits found by repeated division, padded with zeros, are the k least
significant digits when the value is below base ^ k. -/
theorem digitsAux_fixed (b : Nat) (hb : 2 ≤ b) (k : Nat) :
    ∀ v fuel, v < b ^ (k + 1) → v < fuel →
      List.replicate (k + 1 - (digitsAux b fuel v []).length) 0 ++ digitsAux b fuel v []
        = fixedDigits b (k + 1) v := by
  induction k with
  | zero =>
    intro v fuel hv hf
    obtain ⟨f, rfl⟩ : ∃ f, fuel = f + 1 := ⟨fuel - 1, by omega⟩
    have hvb : v < b := by simpa using hv
    unfold digitsAux
    rw [if_pos hvb]
    simp [fixedDigits, Nat.mod_eq_of_lt hvb]
  | succ k ih =>
    intro v fuel hv hf
    obtain ⟨f, rfl⟩ : ∃ f, fuel = f + 1 := ⟨fuel - 1, by omega⟩
    unfold digitsAux
    by_cases hvb : v < b
    · rw [if_pos hvb]
      have h0 : v / b = 0 := Nat.div_eq_of_lt hvb
      rw [fixedDigits, h0, fixedDigits_zero, Nat.mod_eq_of_lt hvb]
      simp
    · rw [if_neg hvb, digitsAux_acc]
      have hdiv : v / b < b ^ (k + 1) := by
        apply Nat.div_lt_of_lt_mul
        rw [← pow_succ']
        exact hv
      have hlt : v / b < f := by
        have : v / b < v := Nat.div_lt_self (by omega) (by omega)
        omega
      have hih := ih (v / b) f hdiv hlt
      rw [fixedDigits, ← hih, List.length_append, List.length_singleton]
      have hsub : k + 1 + 1 - ((digitsAux b f (v / b) []).length + 1)
          = k + 1 - (digitsAux b f (v / b) []).length := by omega
      rw [hsub, List.append_assoc]

theorem fmt_06X_six (v : Nat) (hv : v < 2 ^ 24) : fmt_06X v = hexDigits6 v := by
  have h32 : v % 2 ^ 32 = v := Nat.mod_eq_of_lt (by omega)
  have hfix := digitsAux_fixed 16 (by norm_num) 5 v (v + 1) (by norm_num at hv ⊢; omega)
    (by omega)
  have hpad : padZero 6 ((digitsAux 16 (v + 1) v []).map hexDigitUpper)
      = (List.replicate (5 + 1 - (digitsAux 16 (v + 1) v []).length) 0
          ++ digitsAux 16 (v + 1) v []).map hexDigitUpper := by
    unfold padZero
    rw [List.map_append, List.map_replicate, List.length_map]
    rfl
  unfold fmt_06X natDigits
  rw [h32, hpad, hfix]
  simp [fixedDigits, hexDigits6, Nat.div_div_eq_div_mul]

theorem hexDigitUpper_range (d : Nat) (hd : d < 16) :
    (48 ≤ hexDigitUpper d ∧ hexDigitUpper d ≤ 57)
    ∨ (65 ≤ hexDigitUpper d ∧ hexDigitUpper d ≤ 70) := by
  unfold hexDigitUpper
  split <;> omega

/-- The text of %d consists of decimal digits, after a minus sign for a negative
value, and ends with a digit. -/
theorem fmt_d_chars (v : Int) :
    (∀ c ∈ fmt_d v, c = 45 ∨ (48 ≤ c ∧ c ≤ 57))
    ∧ ∃ init d, fmt_d v = init ++ [d] ∧ 48 ≤ d ∧ d ≤ 57 := by
  have hdig : ∀ n : Nat, ∀ c ∈ (natDigits 10 n).map (fun d => 48 + d), 48 ≤ c ∧ c ≤ 57 := by
    intro n c hc
    obtain ⟨d, hd, rfl⟩ := List.mem_map.mp hc
    have := natDigits_lt 10 (by norm_num) n d hd
    omega
  have hlast : ∀ n : Nat, ∃ init d, (natDigits 10 n).map (fun d => 48 + d) = init ++ [d]
      ∧ 48 ≤ d ∧ d ≤ 57 := by
    intro n
    have hne : (natDigits 10 n).map (fun d => 48 + d) ≠ [] := by
      simpa using natDigits_ne_nil 10 n
    refine ⟨_, _, (List.dropLast_append_getLast hne).symm, ?_⟩
    exact hdig n _ (List.getLast_mem hne)
  unfold fmt_d
  by_cases hneg : v < 0
  · rw [if_pos hneg]
    refine ⟨?_, ?_⟩
    · intro c hc
      rcases List.mem_cons.mp hc with hc | hc
      · exact Or.inl hc
      · exact Or.inr (hdig _ c hc)
    · obtain ⟨init, d, h, hd⟩ := hlast (-v).toNat
      exact ⟨45 :: init, d, by rw [h]; rfl, hd⟩
  · rw [if_neg hneg]
    exact ⟨fun c hc => Or.inr (hdig _ c hc), hlast v.toNat⟩
/-! ## The call-sign field and the sentences without an asterisk -/

theorem hexDigits6_chars (v : Nat) :
    ∀ c ∈ hexDigits6 v, (48 ≤ c ∧ c ≤ 57) ∨ (65 ≤ c ∧ c ≤ 70) := by
  intro c hc
  unfold hexDigits6 at hc
  simp only [List.mem_cons, List.mem_singleton, List.not_mem_nil, or_false] at hc
  rcases hc with h | h | h | h | h | h <;> rw [h] <;>
    exact hexDigitUpper_range _ (Nat.mod_lt _ (by norm_num))

/-- Claim C15, as amended. For a tracked object with an address below 2^24, the
text of its PFLAA call has, right after its only exclamation mark and up to the
next comma, the call sign: the entry of NMEA_CallSign_Prefix for the protocol,
an underscore, and the address in six uppercase hexadecimal digits.  The table
maps LEGACY, OGNTP, P3I, ADSB_1090, ADSB_UAT and FANET to FLR, OGN, PAW, ADS,
UAT and FAN. -/
theorem PFLAA_call_sign (P : Platform) (ThisAircraft fo : ufo_t) (haddr : fo.addr < 2 ^ 24) :
    (∃ before after, (PFLAA_of P ThisAircraft fo).text P
        = before ++ [33]
          ++ (NMEA_CallSign_Prefix fo.protocol ++ [95] ++ hexDigits6 fo.addr)
          ++ [44] ++ after
      ∧ 33 ∉ before)
    ∧ NMEA_CallSign_Prefix .LEGACY = [70, 76, 82]
    ∧ NMEA_CallSign_Prefix .OGNTP = [79, 71, 78]
    ∧ NMEA_CallSign_Prefix .P3I = [80, 65, 87]
    ∧ NMEA_CallSign_Prefix .ADSB_1090 = [65, 68, 83]
    ∧ NMEA_CallSign_Prefix .ADSB_UAT = [85, 65, 84]
    ∧ NMEA_CallSign_Prefix .FANET = [70, 65, 78] := by
  refine ⟨?_, rfl, rfl, rfl, rfl, rfl, rfl⟩
  have h6 := fmt_06X_six fo.addr haddr
  refine ⟨[36, 80, 70, 76, 65, 65, 44] ++ fmt_d fo.alarm_level ++ [44]
      ++ fmt_d (f2i (P.rel_north fo.distance (f2i fo.bearing))) ++ [44]
      ++ fmt_d (f2i (P.rel_east fo.distance (f2i fo.bearing))) ++ [44]
      ++ fmt_d (f2i (P.fsub fo.altitude ThisAircraft.altitude)) ++ [44]
      ++ fmt_d ((if fo.addr_type > P.ADDR_TYPE_ANONYMOUS then P.ADDR_TYPE_ANONYMOUS
          else fo.addr_type : Nat) : Int) ++ [44]
      ++ hexDigits6 fo.addr,
    fmt_d (f2i fo.course) ++ [44, 44] ++ fmt_d (f2i (P.knots_to_mps fo.speed)) ++ [44]
      ++ ltrim (if !fo.stealth && !ThisAircraft.stealth then P.climb_rate fo.vs else [])
      ++ [44] ++ fmt_d (fo.aircraft_type : Int) ++ [42], ?_, ?_⟩
  · simp only [PFLAA_of, Sentence.text, h6, List.append_assoc]
  · intro hmem
    have hd : ∀ v : Int, 33 ∉ fmt_d v := by
      intro v hv
      rcases (fmt_d_chars v).1 33 hv with h | h <;> omega
    have hx : 33 ∉ hexDigits6 fo.addr := by
      intro hv
      rcases hexDigits6_chars fo.addr 33 hv with h | h <;> omega
    simp only [List.mem_append, List.mem_cons, List.mem_singleton, List.not_mem_nil,
      or_false] at hmem
    rcases hmem with ((((((((((h | h) | h) | h) | h) | h) | h) | h) | h) | h) | h) | h
    · omega
    · exact hd _ h
    · omega
    · exact hd _ h
    · omega
    · exact hd _ h
    · omega
    · exact hd _ h
    · omega
    · exact hd _ h
    · omega
    · exact hx h

/-- Claim C15, as amended, for protocol LEGACY and address 0xABCDEF: the call
sign is FLR_ABCDEF. -/
theorem PFLAA_call_sign_witness :
    ∃ before after, (PFLAA_of P0 own0 (target0 11259375 1000 90 600 2)).text P0
        = before ++ [33] ++ [70, 76, 82, 95, 65, 66, 67, 68, 69, 70] ++ [44] ++ after
      ∧ 33 ∉ before :=
  (PFLAA_call_sign P0 own0 (target0 11259375 1000 90 600 2) (by decide)).1

/-- Claim C15 as stated fails for the address 0x1000000: the PFLAA call of the
entry has the text $PFLAA,0,0,0,0,1,1000000!FLR_1000000,0,,0,0.0,1* , in which
the address of the call sign takes seven digits. -/
theorem PFLAA_call_sign_counterexample :
    PFLAA_of P0 own0 (target0 16777216 1000 90 500 0)
      = Sentence.PFLAA 0 0 0 0 1 16777216 .LEGACY 0 0 [48, 46, 48] 1
    ∧ (Sentence.PFLAA 0 0 0 0 1 16777216 .LEGACY 0 0 [48, 46, 48] 1).text P0
      = [36, 80, 70, 76, 65, 65, 44, 48, 44, 48, 44, 48, 44, 48, 44, 49, 44,
          49, 48, 48, 48, 48, 48, 48, 33,
          70, 76, 82, 95, 49, 48, 48, 48, 48, 48, 48, 44,
          48, 44, 44, 48, 44, 48, 46, 48, 44, 49, 42]
    ∧ fmt_06X 16777216 = [49, 48, 48, 48, 48, 48, 48] := by
  refine ⟨?_, by decide, by decide⟩
  norm_num [PFLAA_of, P0, own0, target0, f2i, ltrim]

/-- The MYSELF and TRAFFIC texts end with a decimal digit, for every platform
and every record: their format strings have no asterisk at the end. -/
theorem unstarred_last_byte (P : Platform) (ThisAircraft fo : ufo_t) :
    (∃ init d, (MYSELF_of P ThisAircraft).text P = init ++ [d] ∧ 48 ≤ d ∧ d ≤ 57)
    ∧ (∃ init d, (TRAFFIC_of P fo).text P = init ++ [d] ∧ 48 ≤ d ∧ d ≤ 57) := by
  refine ⟨?_, ?_⟩
  · obtain ⟨init, d, h, hd⟩ := (fmt_d_chars (ThisAircraft.aircraft_type : Int)).2
    simp only [MYSELF_of, Sentence.text, h]
    exact ⟨_, d, (List.append_assoc _ _ _).symm, hd⟩
  · obtain ⟨init, d, h, hd⟩ := (fmt_d_chars fo.alarm_level).2
    simp only [TRAFFIC_of, Sentence.text, h]
    exact ⟨_, d, (List.append_assoc _ _ _).symm, hd⟩

set_option maxRecDepth 100000 in
/-- The code at a failing input of claim C13: for the own ship at latitude 47,
longitude 8, altitude 500, course 90 and speed 0, the last NMEA_Out call of
NMEA_Export is handed
$MYSELF,47.000000,8.000000,500.000000,90.000000,0.000000,1,1 followed by 0C,
CR and LF.  No asterisk is among the bytes, the byte before the two checksum
digits is the last digit of the text, the digits 0C give the XOR of the bytes
between the dollar sign and that last digit, which is left out, and a
receiver's check rejects the sentence. -/
theorem NMEA_Export_MYSELF_no_asterisk :
    (NMEA_Export_calls P1 S0 own1 100 [] (List.replicate 128 0)).getLast?
      = some (MYSELF_of P1 own1,
          [36, 77, 89, 83, 69, 76, 70, 44, 52, 55, 46, 48, 48, 48, 48, 48, 48, 44,
            56, 46, 48, 48, 48, 48, 48, 48, 44, 53, 48, 48, 46, 48, 48, 48, 48, 48, 48, 44,
            57, 48, 46, 48, 48, 48, 48, 48, 48, 44, 48, 46, 48, 48, 48, 48, 48, 48, 44,
            49, 44, 49, 48, 67, 13, 10])
    ∧ 42 ∉ [36, 77, 89, 83, 69, 76, 70, 44, 52, 55, 46, 48, 48, 48, 48, 48, 48, 44,
            56, 46, 48, 48, 48, 48, 48, 48, 44, 53, 48, 48, 46, 48, 48, 48, 48, 48, 48, 44,
            57, 48, 46, 48, 48, 48, 48, 48, 48, 44, 48, 46, 48, 48, 48, 48, 48, 48, 44,
            49, 44, 49, 48, 67, 13, 10]
    ∧ xorBytes [77, 89, 83, 69, 76, 70, 44, 52, 55, 46, 48, 48, 48, 48, 48, 48, 44,
            56, 46, 48, 48, 48, 48, 48, 48, 44, 53, 48, 48, 46, 48, 48, 48, 48, 48, 48, 44,
            57, 48, 46, 48, 48, 48, 48, 48, 48, 44, 48, 46, 48, 48, 48, 48, 48, 48, 44,
            49, 44] = 12
    ∧ nmeaVerify [36, 77, 89, 83, 69, 76, 70, 44, 52, 55, 46, 48, 48, 48, 48, 48, 48, 44,
            56, 46, 48, 48, 48, 48, 48, 48, 44, 53, 48, 48, 46, 48, 48, 48, 48, 48, 48, 44,
            57, 48, 46, 48, 48, 48, 48, 48, 48, 44, 48, 46, 48, 48, 48, 48, 48, 48, 44,
            49, 44, 49, 48, 67, 13, 10] = false := by
  refine ⟨by decide, by decide, by decide, by decide⟩

/-! ## The sentences that end with an asterisk -/

/-- A sentence made of a dollar sign, a body and an asterisk, framed with room
for the suffix, is followed by the two digits of the XOR of the body, CR and LF,
and passes a receiver's check. -/
theorem framed_starred (b tl : List Nat) (limit : Nat)
    (hb : ∀ x ∈ b, x ≠ 42 ∧ x ≠ 0 ∧ x < 256)
    (h32 : b.length + 2 < 2 ^ 32) (hlim : 5 ≤ limit) :
    cstr (NMEA_add_checksum (36 :: b ++ 42 :: 0 :: tl) limit)
      = 36 :: b ++ [42, hexDigitUpper (xorBytes b / 16), hexDigitUpper (xorBytes b % 16),
          13, 10]
    ∧ nmeaVerify (cstr (NMEA_add_checksum (36 :: b ++ 42 :: 0 :: tl) limit)) = true := by
  have hc := cstr_sentence b tl (fun x hx => (hb x hx).2.1)
  have hlen : strlen (36 :: b ++ 42 :: 0 :: tl) = b.length + 2 := by
    rw [← length_cstr, hc]; simp
  have hshape := NMEA_add_checksum_shape (36 :: b ++ 42 :: 0 :: tl) limit
    (by omega) (by omega) hlim
  have hslice : ((36 :: b ++ 42 :: 0 :: tl).take (strlen (36 :: b ++ 42 :: 0 :: tl) - 1)).drop 1
      = b := by
    rw [hlen]
    have : b.length + 2 - 1 = b.length + 1 := by omega
    rw [this]
    simp
  have hx : xorBytes b < 256 := foldl_xor_lt b 0 (by norm_num) (fun x hx => (hb x hx).2.2)
  rw [hslice, Nat.mod_eq_of_lt hx, hc] at hshape
  have hnz : ∀ x ∈ 36 :: b ++ [42], (x != 0) = true := by
    rw [← hc]; exact cstr_nonzero _
  have hs := cstr_frame (36 :: b ++ [42]) (xorBytes b / 16) (xorBytes b % 16)
    (List.drop (strlen (36 :: b ++ 42 :: 0 :: tl) + 5) (36 :: b ++ 42 :: 0 :: tl)) hnz
  rw [← hshape] at hs
  have hs2 : cstr (NMEA_add_checksum (36 :: b ++ 42 :: 0 :: tl) limit)
      = 36 :: (b ++ 42 :: [hexDigitUpper (xorBytes b / 16),
          hexDigitUpper (xorBytes b % 16), 13, 10]) := by
    rw [hs]; simp
  have hb42 : ∀ x ∈ b, (x != 42) = true := by
    intro x hx
    simpa using (hb x hx).1
  have hparse : parseChecksum (36 :: (b ++ 42 :: [hexDigitUpper (xorBytes b / 16),
          hexDigitUpper (xorBytes b % 16), 13, 10])) = some (xorBytes b) := by
    unfold parseChecksum
    have hd : List.dropWhile (fun x => x != 42) (36 :: (b ++ 42 :: [hexDigitUpper (xorBytes b / 16),
          hexDigitUpper (xorBytes b % 16), 13, 10]))
        = 42 :: [hexDigitUpper (xorBytes b / 16), hexDigitUpper (xorBytes b % 16), 13, 10] := by
      rw [List.dropWhile_cons_of_pos (by decide), List.dropWhile_append_of_pos hb42]
      simp [List.dropWhile_cons]
    rw [hd]
    simp only [hexVal_hexDigitUpper _ (show xorBytes b / 16 < 16 by omega),
      hexVal_hexDigitUpper _ (Nat.mod_lt _ (show 0 < 16 by norm_num))]
    congr 1
    omega
  have hbody : sentenceBody (36 :: (b ++ 42 :: [hexDigitUpper (xorBytes b / 16),
          hexDigitUpper (xorBytes b % 16), 13, 10])) = b := by
    unfold sentenceBody
    simp only [List.drop_succ_cons, List.drop_zero]
    rw [List.takeWhile_append_of_pos hb42]
    simp [List.takeWhile_cons]
  rw [hs2]
  refine ⟨by simp, ?_⟩
  unfold nmeaVerify
  rw [hparse, hbody]
  simp

/-- A sentence whose text is a dollar sign, a body without asterisk or NUL and
an asterisk, and which leaves five bytes of the buffer free, is handed to
NMEA_Out with its checksum, CR and LF, and passes a receiver's check. -/
theorem NMEA_frame_starred (P : Platform) (NMEABuffer : List Nat) (s : Sentence)
    (body : List Nat) (htext : s.text P = 36 :: body ++ [42])
    (hbody : ∀ x ∈ body, x ≠ 42 ∧ x ≠ 0 ∧ x < 256)
    (hfit : (s.text P).length + 5 ≤ P.NMEA_BUFFER_SIZE) (h32 : P.NMEA_BUFFER_SIZE < 2 ^ 32) :
    cstr (NMEA_frame P NMEABuffer s)
      = s.text P ++ [hexDigitUpper (xorBytes body / 16), hexDigitUpper (xorBytes body % 16),
          13, 10]
    ∧ nmeaVerify (cstr (NMEA_frame P NMEABuffer s)) = true := by
  have hb1 := snprintf_NMEABuffer P.NMEA_BUFFER_SIZE NMEABuffer (s.text P) (by omega)
  have htake : (s.text P).take (P.NMEA_BUFFER_SIZE - 1) = s.text P :=
    List.take_of_length_le (by omega)
  rw [htake] at hb1
  have hlen : (s.text P).length = body.length + 2 := by
    rw [htext]; simp
  obtain ⟨tl, hform⟩ : ∃ tl, writeAt NMEABuffer 0 (snprintf_bytes P.NMEA_BUFFER_SIZE (s.text P))
      = 36 :: body ++ 42 :: 0 :: tl := by
    refine ⟨NMEABuffer.drop ((s.text P).length + 1), ?_⟩
    rw [hb1, htext]
    simp
  have hstr : strlen (writeAt NMEABuffer 0 (snprintf_bytes P.NMEA_BUFFER_SIZE (s.text P)))
      = body.length + 2 := by
    rw [hform, ← length_cstr, cstr_sentence body _ (fun x hx => (hbody x hx).2.1)]
    simp
  have hfr := framed_starred body tl
    ((P.NMEA_BUFFER_SIZE + 2 ^ 32 - (body.length + 2)) % 2 ^ 32) hbody (by omega) (by omega)
  unfold NMEA_frame
  rw [hstr, hform, htext]
  exact ⟨by rw [hfr.1]; simp, hfr.2⟩

theorem fmt_u_chars (v : Int) : ∀ c ∈ fmt_u v, 48 ≤ c ∧ c ≤ 57 := by
  intro c hc
  unfold fmt_u at hc
  obtain ⟨d, hd, rfl⟩ := List.mem_map.mp hc
  have := natDigits_lt 10 (by norm_num) _ d hd
  omega

/-- The PGRMZ and PFLAU sentences, when they leave five bytes of the buffer
free, start with a dollar sign, end with an asterisk before the checksum, and
pass a receiver's check. -/
theorem NMEA_frame_PGRMZ_PFLAU (P : Platform) (NMEABuffer : List Nat) (s : Sentence)
    (hs : (∃ a, s = .PGRMZ a) ∨ (∃ t tx g p al b ty ad d, s = .PFLAU t tx g p al b ty ad d))
    (hfit : (s.text P).length + 5 ≤ P.NMEA_BUFFER_SIZE) (h32 : P.NMEA_BUFFER_SIZE < 2 ^ 32) :
    ∃ body h1 h2, s.text P = 36 :: body ++ [42]
      ∧ cstr (NMEA_frame P NMEABuffer s) = 36 :: body ++ [42, h1, h2, 13, 10]
      ∧ nmeaVerify (cstr (NMEA_frame P NMEABuffer s)) = true := by
  have hd : ∀ v : Int, ∀ c ∈ fmt_d v, c ≠ 42 ∧ c ≠ 0 ∧ c < 256 := by
    intro v c hc
    rcases (fmt_d_chars v).1 c hc with h | h <;> omega
  have hu : ∀ v : Int, ∀ c ∈ fmt_u v, c ≠ 42 ∧ c ≠ 0 ∧ c < 256 := by
    intro v c hc
    have := fmt_u_chars v c hc
    omega
  have key : ∀ body, s.text P = 36 :: body ++ [42] →
      (∀ x ∈ body, x ≠ 42 ∧ x ≠ 0 ∧ x < 256) →
      ∃ body h1 h2, s.text P = 36 :: body ++ [42]
        ∧ cstr (NMEA_frame P NMEABuffer s) = 36 :: body ++ [42, h1, h2, 13, 10]
        ∧ nmeaVerify (cstr (NMEA_frame P NMEABuffer s)) = true := by
    intro body htext hbody
    have h := NMEA_frame_starred P NMEABuffer s body htext hbody hfit h32
    refine ⟨body, hexDigitUpper (xorBytes body / 16), hexDigitUpper (xorBytes body % 16),
      htext, ?_, h.2⟩
    rw [h.1, htext]
    simp
  rcases hs with ⟨a, rfl⟩ | ⟨t, tx, g, p, al, b, ty, ad, d, rfl⟩
  · apply key ([80, 71, 82, 77, 90, 44] ++ fmt_d a ++ [44, 102, 44, 51])
    · simp [Sentence.text]
    · intro x hx
      simp only [List.mem_append, List.mem_cons, List.mem_singleton, List.not_mem_nil,
        or_false] at hx
      rcases hx with (hx | hx) | hx
      · omega
      · exact hd _ x hx
      · omega
  · apply key ([80, 70, 76, 65, 85, 44] ++ fmt_d t ++ [44] ++ fmt_d tx ++ [44]
      ++ fmt_d g ++ [44] ++ fmt_d p ++ [44] ++ fmt_d al ++ [44]
      ++ fmt_d b ++ [44] ++ fmt_d ty ++ [44] ++ fmt_d ad ++ [44] ++ fmt_u d)
    · simp [Sentence.text]
    · intro x hx
      simp only [List.mem_append, List.mem_cons, List.mem_singleton, List.not_mem_nil,
        or_false] at hx
      rcases hx with ((((((((((((((((hx | hx) | hx) | hx) | hx) | hx) | hx) | hx) | hx) | hx)
        | hx) | hx) | hx) | hx) | hx) | hx) | hx) | hx
      all_goals first | omega | exact hd _ x hx | exact hu _ x hx

/-! ## The checksum precondition at the call sites -/

/-- NMEA_frame is NMEA_add_checksum applied to the formatted buffer. -/
theorem NMEA_frame_eq_format (P : Platform) (NMEABuffer : List Nat) (s : Sentence) :
    NMEA_frame P NMEABuffer s
      = NMEA_add_checksum (NMEA_format P NMEABuffer s)
          ((P.NMEA_BUFFER_SIZE + 2 ^ 32 - strlen (NMEA_format P NMEABuffer s)) % 2 ^ 32) :=
  rfl

/-- The checksum loop folds over exactly the indices of NMEA_checksum_reads. -/
theorem NMEA_checksum_eq_reads (buf : List Nat) (sentence_size : Nat) :
    NMEA_checksum buf sentence_size
      = (NMEA_checksum_reads sentence_size).foldl
          (fun cs n => (cs ^^^ buf.getD n 0) % 256) 0 := by
  unfold NMEA_checksum NMEA_checksum_reads
  rw [List.foldl_map]

/-- The bytes handed to NMEA_Out by a series of formatting calls are the
sentences that NMEA_add_checksum leaves, one call for each buffer of
NMEA_checksum_args and in the same order. -/
theorem NMEA_calls_eq_args (P : Platform) (ss : List Sentence) :
    ∀ NMEABuffer, (NMEA_calls P NMEABuffer ss).map Prod.snd
      = (NMEA_checksum_args P NMEABuffer ss).map (fun buf =>
          cstr (NMEA_add_checksum buf ((P.NMEA_BUFFER_SIZE + 2 ^ 32 - strlen buf) % 2 ^ 32))) := by
  induction ss with
  | nil => intro B; rfl
  | cons s rest ih =>
    intro B
    simp only [NMEA_checksum_args, NMEA_calls, List.map_cons, ih]
    rfl

/-- NMEA_Out leaves NMEABuffer as it is. -/
theorem NMEA_Out_NMEABuffer (P : Platform) (settings : Settings) (net : Net) (st : State)
    (buf : List Nat) (nl : Bool) :
    (NMEA_Out P settings net st buf nl).1.NMEABuffer = st.NMEABuffer := by
  unfold NMEA_Out
  cases settings.nmea_out <;> rfl

/-- The buffer that the PGRMZ part of NMEA_loop leaves is what NMEA_add_checksum
makes of the buffer of NMEA_loop_checksum_args. -/
theorem NMEA_loop_checksum_args_frame (P : Platform) (settings : Settings) (inp : LoopInput)
    (st : State) (buf : List Nat) (h : buf ∈ NMEA_loop_checksum_args P settings inp st) :
    (NMEA_loop_PGRMZ P settings inp st).1.NMEABuffer
      = NMEA_add_checksum buf ((P.NMEA_BUFFER_SIZE + 2 ^ 32 - strlen buf) % 2 ^ 32) := by
  unfold NMEA_loop_checksum_args at h
  unfold NMEA_loop_PGRMZ
  split at h
  · rename_i hg
    rw [if_pos hg]
    simp only [NMEA_checksum_args, List.mem_singleton] at h
    rw [h]
    simp only [NMEA_emit]
    rw [NMEA_Out_NMEABuffer]
    rfl
  · simp at h

/-- Every buffer passed to NMEA_add_checksum is the result of one formatting
call. -/
theorem mem_NMEA_checksum_args (P : Platform) (ss : List Sentence) :
    ∀ NMEABuffer buf, buf ∈ NMEA_checksum_args P NMEABuffer ss →
      ∃ B s, s ∈ ss ∧ buf = NMEA_format P B s := by
  induction ss with
  | nil => intro B buf h; simp [NMEA_checksum_args] at h
  | cons s rest ih =>
    intro B buf h
    simp only [NMEA_checksum_args, List.mem_cons] at h
    rcases h with h | h
    · exact ⟨B, s, List.mem_cons_self _ _, h⟩
    · obtain ⟨B2, s2, hs2, hb⟩ := ih _ _ h
      exact ⟨B2, s2, List.mem_cons_of_mem _ hs2, hb⟩

/-- Every format string starts with two characters that are not NUL. -/
theorem Sentence_text_head (P : Platform) (s : Sentence) :
    ∃ a b rest, s.text P = a :: b :: rest ∧ a ≠ 0 ∧ b ≠ 0 := by
  cases s <;> simp only [Sentence.text, List.append_assoc, List.cons_append] <;>
    exact ⟨_, _, _, rfl, by decide, by decide⟩

/-- After a formatting call into a buffer of three bytes or more the sentence
has at least two characters, and it is shorter than the buffer. -/
theorem strlen_NMEA_format (P : Platform) (NMEABuffer : List Nat) (s : Sentence)
    (h3 : 3 ≤ P.NMEA_BUFFER_SIZE) :
    2 ≤ strlen (NMEA_format P NMEABuffer s)
      ∧ strlen (NMEA_format P NMEABuffer s) < P.NMEA_BUFFER_SIZE := by
  unfold NMEA_format
  rw [snprintf_NMEABuffer _ _ _ (by omega)]
  constructor
  · obtain ⟨a, b, rest, htext, ha, hb⟩ := Sentence_text_head P s
    rw [htext]
    obtain ⟨k, hk⟩ : ∃ k, P.NMEA_BUFFER_SIZE - 1 = k + 2 := ⟨P.NMEA_BUFFER_SIZE - 3, by omega⟩
    rw [hk]
    simp [strlen, List.take, List.takeWhile_cons, ha, hb]
  · have h1 := strlen_append_le ((s.text P).take (P.NMEA_BUFFER_SIZE - 1))
      (NMEABuffer.drop (((s.text P).take (P.NMEA_BUFFER_SIZE - 1)).length + 1))
    have h2 := List.length_take_le (P.NMEA_BUFFER_SIZE - 1) (s.text P)
    omega

/-- For a sentence of length two or more the loop of NMEA_add_checksum reads
the indices 1 to length - 2, all of them inside the sentence. -/
theorem NMEA_checksum_reads_inside (buf : List Nat) (h2 : 2 ≤ strlen buf)
    (h32 : strlen buf < 2 ^ 32) :
    (strlen buf + 2 ^ 32 - 1) % 2 ^ 32 = strlen buf - 1
    ∧ NMEA_checksum_reads (strlen buf) = (List.range (strlen buf - 2)).map (fun k => k + 1)
    ∧ ∀ n ∈ NMEA_checksum_reads (strlen buf),
        1 ≤ n ∧ n + 2 ≤ strlen buf ∧ (cstr buf)[n]? = some (buf.getD n 0) := by
  have hb : (strlen buf + 2 ^ 32 - 1) % 2 ^ 32 = strlen buf - 1 := by omega
  have hr : NMEA_checksum_reads (strlen buf)
      = (List.range (strlen buf - 2)).map (fun k => k + 1) := by
    unfold NMEA_checksum_reads
    rw [hb]
    rfl
  refine ⟨hb, hr, ?_⟩
  intro n hn
  rw [hr] at hn
  obtain ⟨k, hk, rfl⟩ := List.mem_map.mp hn
  have hk2 := List.mem_range.mp hk
  have hlen := strlen_le buf
  refine ⟨by omega, by omega, ?_⟩
  rw [← take_strlen, List.getElem?_take_of_lt (by omega), List.getD_eq_getElem?_getD,
    List.getElem?_eq_getElem (by omega)]
  rfl

/-- On an empty sentence the unsigned bound of the loop wraps around and the
loop would read 4294967294 bytes. -/
theorem NMEA_checksum_reads_empty : (NMEA_checksum_reads 0).length = 4294967294 := by
  unfold NMEA_checksum_reads
  rw [List.length_map, List.length_range]
  norm_num

/-- Claim C21. With a sentence buffer of at least three bytes (and a size that
fits size_t), every buffer that NMEA_loop or NMEA_Export passes to
NMEA_add_checksum, for all their inputs, holds a sentence of length at least 2:
the unsigned bound sentence_size - 1 does not wrap, the loop reads exactly the
indices 1 to length - 2, and each byte it reads is a byte of the sentence. -/
theorem NMEA_add_checksum_call_sites (P : Platform) (settings : Settings) (inp : LoopInput)
    (st : State) (ThisAircraft : ufo_t) (this_moment : Int) (Container : List ufo_t)
    (NMEABuffer : List Nat) (buf : List Nat)
    (h3 : 3 ≤ P.NMEA_BUFFER_SIZE) (h32 : P.NMEA_BUFFER_SIZE < 2 ^ 32)
    (hcall : buf ∈ NMEA_loop_checksum_args P settings inp st
      ∨ buf ∈ NMEA_Export_checksum_args P settings ThisAircraft this_moment Container
          NMEABuffer) :
    2 ≤ strlen buf
    ∧ (strlen buf + 2 ^ 32 - 1) % 2 ^ 32 = strlen buf - 1
    ∧ NMEA_checksum_reads (strlen buf) = (List.range (strlen buf - 2)).map (fun k => k + 1)
    ∧ ∀ n ∈ NMEA_checksum_reads (strlen buf),
        1 ≤ n ∧ n + 2 ≤ strlen buf ∧ (cstr buf)[n]? = some (buf.getD n 0) := by
  have hfmt : ∃ B s, buf = NMEA_format P B s := by
    rcases hcall with h | h
    · unfold NMEA_loop_checksum_args at h
      split at h
      · obtain ⟨B, s, _, hb⟩ := mem_NMEA_checksum_args P _ _ _ h
        exact ⟨B, s, hb⟩
      · simp at h
    · obtain ⟨B, s, _, hb⟩ := mem_NMEA_checksum_args P _ _ _ h
      exact ⟨B, s, hb⟩
  obtain ⟨B, s, rfl⟩ := hfmt
  have hlen := strlen_NMEA_format P B s h3
  exact ⟨hlen.1, NMEA_checksum_reads_inside _ hlen.1 (by omega)⟩

set_option maxRecDepth 100000 in
/-- Claim C21 on the sample platform (a buffer of 128 bytes): the PGRMZ call of
NMEA_loop at a pressure altitude of 100, where the sentence has 15 characters,
and the MYSELF call of NMEA_Export, which starts from the buffer that the PFLAU
call left. -/
theorem NMEA_add_checksum_call_sites_witness :
    3 ≤ P0.NMEA_BUFFER_SIZE ∧ P0.NMEA_BUFFER_SIZE < 2 ^ 32
    ∧ NMEA_format P0 (state0 [] 0).NMEABuffer (.PGRMZ 100)
        ∈ NMEA_loop_checksum_args P0 S0 (loop1 100) (state0 [] 0)
    ∧ strlen (NMEA_format P0 (state0 [] 0).NMEABuffer (.PGRMZ 100)) = 15
    ∧ NMEA_checksum_reads (strlen (NMEA_format P0 (state0 [] 0).NMEABuffer (.PGRMZ 100)))
        = (List.range
            (strlen (NMEA_format P0 (state0 [] 0).NMEABuffer (.PGRMZ 100)) - 2)).map
            (fun k => k + 1)
    ∧ NMEA_format P0 (NMEA_frame P0 [] (PFLAU_of P0 0 (HP_init P0))) (MYSELF_of P0 own0)
        ∈ NMEA_Export_checksum_args P0 S0 own0 0 [] []
    ∧ 2 ≤ strlen
        (NMEA_format P0 (NMEA_frame P0 [] (PFLAU_of P0 0 (HP_init P0))) (MYSELF_of P0 own0)) :=
  ⟨by decide, by decide, by decide, by decide,
   (NMEA_add_checksum_call_sites P0 S0 (loop1 100) (state0 [] 0) own0 0 [] []
      (NMEA_format P0 (state0 [] 0).NMEABuffer (.PGRMZ 100))
      (by decide) (by decide) (Or.inl (by decide))).2.2.1,
   List.mem_cons_of_mem _ (List.mem_cons_self _ _),
   (NMEA_add_checksum_call_sites P0 S0 (loop1 100) (state0 [] 0) own0 0 [] []
      (NMEA_format P0 (NMEA_frame P0 [] (PFLAU_of P0 0 (HP_init P0))) (MYSELF_of P0 own0))
      (by decide) (by decide)
      (Or.inr (List.mem_cons_of_mem _ (List.mem_cons_self _ _)))).1⟩

/-! ## The sentences that NMEA_Export hands to NMEA_Out -/

/-- The events of an NMEA_Out call depend on the state only through the slot
table. -/
theorem NMEA_Out_events_state (P : Platform) (settings : Settings) (net : Net)
    (st st2 : State) (buf : List Nat) (nl : Bool) (h : st.NmeaTCP = st2.NmeaTCP) :
    (NMEA_Out P settings net st buf nl).2 = (NMEA_Out P settings net st2 buf nl).2 := by
  cases hmode : settings.nmea_out
  · unfold NMEA_Out; rw [hmode]
  · unfold NMEA_Out; rw [hmode]
  · rw [(NMEA_Out_UDP_eq P settings net st buf nl hmode).1,
      (NMEA_Out_UDP_eq P settings net st2 buf nl hmode).1]
  · unfold NMEA_Out; rw [hmode]; simp only; rw [h]
  · unfold NMEA_Out; rw [hmode]

/-- The events of a series of sentences are, call by call and in order, the
events of NMEA_Out on the bytes listed by NMEA_calls. -/
theorem NMEA_emit_foldl_events (P : Platform) (settings : Settings) (net : Net)
    (l : List Sentence) (acc : State × List Event) :
    (l.foldl (NMEA_emit P settings net) acc).2
      = acc.2 ++ (NMEA_calls P acc.1.NMEABuffer l).flatMap
          (fun x => (NMEA_Out P settings net acc.1 x.2 false).2) := by
  induction l generalizing acc with
  | nil => simp [NMEA_calls]
  | cons s rest ih =>
    simp only [List.foldl_cons]
    rw [ih]
    have hbuf : (NMEA_emit P settings net acc s).1.NMEABuffer
        = NMEA_frame P acc.1.NMEABuffer s := by
      unfold NMEA_emit
      rw [NMEA_Out_NMEABuffer]
    have hslots := (NMEA_emit_slots P settings net acc s).1
    have hev : (NMEA_emit P settings net acc s).2
        = acc.2 ++ (NMEA_Out P settings net acc.1
            (cstr (NMEA_frame P acc.1.NMEABuffer s)) false).2 := by
      unfold NMEA_emit
      exact congrArg (fun e => acc.2 ++ e)
        (NMEA_Out_events_state P settings net _ acc.1 _ false rfl)
    have hfun : (fun x : Sentence × List Nat =>
          (NMEA_Out P settings net (NMEA_emit P settings net acc s).1 x.2 false).2)
        = (fun x => (NMEA_Out P settings net acc.1 x.2 false).2) := by
      funext x
      exact NMEA_Out_events_state P settings net _ _ _ false hslots
    rw [hbuf, hev, hfun]
    simp only [NMEA_calls, List.flatMap_cons, List.append_assoc]

/-- The events of NMEA_Export are, call by call and in order, the events of
NMEA_Out on the sentences listed by NMEA_Export_calls. -/
theorem NMEA_Export_events (P : Platform) (settings : Settings) (net : Net)
    (ThisAircraft : ufo_t) (this_moment : Int) (Container : List ufo_t) (st : State) :
    (NMEA_Export P settings net ThisAircraft this_moment Container st).2
      = (NMEA_Export_calls P settings ThisAircraft this_moment Container st.NMEABuffer).flatMap
          (fun x => (NMEA_Out P settings net st x.2 false).2) := by
  unfold NMEA_Export NMEA_Export_calls
  rw [NMEA_emit_foldl_events]
  rfl

/-- The bytes of every entry of NMEA_calls are the sentence left in NMEABuffer
by the formatting call and NMEA_add_checksum. -/
theorem mem_NMEA_calls (P : Platform) (l : List Sentence) :
    ∀ NMEABuffer x, x ∈ NMEA_calls P NMEABuffer l →
      ∃ B, x.2 = cstr (NMEA_frame P B x.1) := by
  induction l with
  | nil => intro B x h; simp [NMEA_calls] at h
  | cons s rest ih =>
    intro B x h
    simp only [NMEA_calls, List.mem_cons] at h
    rcases h with h | h
    · exact ⟨B, by rw [h]⟩
    · exact ih _ x h

/-- Claim C4. With traffic sentences enabled, for every table, own-ship record,
time, output mode and state, the events of one NMEA_Export invocation are, in
order, those of the NMEA_Out calls on a series of sentences, each the content of
NMEABuffer after its formatting call and NMEA_add_checksum; exactly one sentence
of the series comes from the PFLAU format, and no per-target sentence (PFLAA or
TRAFFIC) is handed to NMEA_Out after it. -/
theorem NMEA_Export_one_PFLAU (P : Platform) (settings : Settings) (net : Net)
    (ThisAircraft : ufo_t) (this_moment : Int) (Container : List ufo_t) (st : State)
    (hl : settings.nmea_l = true) :
    ((NMEA_Export_calls P settings ThisAircraft this_moment Container st.NMEABuffer).filter
        (fun x => x.1.isPFLAU)).length = 1
    ∧ ∃ before p after,
        NMEA_Export_calls P settings ThisAircraft this_moment Container st.NMEABuffer
          = before ++ p :: after
        ∧ (NMEA_Export P settings net ThisAircraft this_moment Container st).2
          = before.flatMap (fun x => (NMEA_Out P settings net st x.2 false).2)
            ++ (NMEA_Out P settings net st p.2 false).2
            ++ after.flatMap (fun x => (NMEA_Out P settings net st x.2 false).2)
        ∧ (∀ x ∈ before ++ p :: after, ∃ B, x.2 = cstr (NMEA_frame P B x.1))
        ∧ p.1.isPFLAU = true
        ∧ (∀ x ∈ before, x.1.isPFLAU = false)
        ∧ (∀ x ∈ after, x.1.isPFLAU = false ∧ x.1.isPerTarget = false) := by
  obtain ⟨hcount, before, p, after, hcalls, hp, hb, ha⟩ :=
    NMEA_Export_calls_one_PFLAU P settings ThisAircraft this_moment Container st.NMEABuffer hl
  refine ⟨hcount, before, p, after, hcalls, ?_, ?_, hp, hb, ha⟩
  · rw [NMEA_Export_events, hcalls, List.flatMap_append, List.flatMap_cons,
      List.append_assoc]
  · intro x hx
    rw [← hcalls] at hx
    exact mem_NMEA_calls P _ _ x hx

set_option maxRecDepth 100000 in
/-- Claim C4 on the serial port, on a table of one ranked entry and one entry
with a zero address: the list of calls has one PFLAU entry, and NMEA_Export
writes four sentences, PFLAA, TRAFFIC, PFLAU and MYSELF in this order. -/
theorem NMEA_Export_one_PFLAU_witness :
    ((NMEA_Export_calls P0 S1 own0 100
        [target0 11 1000 90 600 2, target0 0 50 0 0 0]
        (state0 [] 0).NMEABuffer).filter (fun x => x.1.isPFLAU)).length = 1
    ∧ (NMEA_Export P0 S1 (net0 []) own0 100
        [target0 11 1000 90 600 2, target0 0 50 0 0 0] (state0 [] 0)).2.map Event.tag
      = [[36, 80, 70, 76, 65, 65], [36, 84, 82, 65, 70, 70], [36, 80, 70, 76, 65, 85],
          [36, 77, 89, 83, 69, 76]] :=
  ⟨(NMEA_Export_one_PFLAU P0 S1 (net0 []) own0 100
      [target0 11 1000 90 600 2, target0 0 50 0 0 0] (state0 [] 0) rfl).1,
   by decide!⟩

end SoftRF
